import Mathlib

/-!
Verification of `ethers-solc/src/artifacts/ast.rs`: the solc AST bindings.

The development shallowly embeds the Rust module:
* `Json` models an in-memory `serde_json::Value` (numbers restricted to the
  integers, which covers every field the module types care about);
* `parseUsizeChars` / `parseIsizeChars` model Rust's `usize::from_str` /
  `isize::from_str` on a 64-bit target (optional sign, decimal digits,
  range check; overflow rejection is equivalent to a final bound check);
* `splitColon` models `str::split(':')`;
* `SourceLocation` with `sourceLocationFromStr` / `sourceLocationFormat`
  embeds `SourceLocation::from_str` and its `Display` impl;
* `NodeType` and its (de)serialization embed the derived serde instances of
  the `NodeType` enum (externally tagged: a unit variant from its name
  string, the newtype variant `Other` from a single-key map);
* `Node` / `Ast` with `deserNode` / `deserAst` / `serNode` / `serAst` embed
  the derived serde instances of the two structs, including the
  `#[serde(flatten)]` open attribute bag (a `BTreeMap`, modelled as a
  key-sorted association list), `#[serde(default)]`, and
  `skip_serializing_if`.
-/

/-- In-memory JSON value (`serde_json::Value`), with integer numerals. -/
inductive Json where
  | null
  | bool (b : Bool)
  | num (n : Int)
  | str (s : String)
  | arr (elements : List Json)
  | obj (fields : List (String × Json))

/-! ## Decimal numerals: Rust's integer `FromStr` and `Display` -/

/-- Value of a decimal digit character, `char::to_digit(10)`: code points
48 to 57 are the digits, valued by distance from `'0'`. -/
def digitVal? (c : Char) : Option Nat :=
  if 48 ≤ c.toNat ∧ c.toNat ≤ 57 then some (c.toNat - 48) else none

/-- Decimal digit character for a value `< 10` (Rust's integer `Display`),
code point 48 plus the value. -/
def digitChar (d : Nat) : Char :=
  if d < 10 then Char.ofNat (48 + d) else '*'

/-- Accumulate the value of a run of decimal digits; `none` on a non-digit. -/
def parseDigits : Nat → List Char → Option Nat
  | acc, [] => some acc
  | acc, c :: cs =>
    match digitVal? c with
    | some d => parseDigits (acc * 10 + d) cs
    | none => none

/-- `usize::MAX` on a 64-bit target. -/
def USIZE_MAX : Nat := 2 ^ 64 - 1

/-- `isize::MAX` on a 64-bit target. -/
def ISIZE_MAX : Nat := 2 ^ 63 - 1

/-- A nonempty all-digit run whose value is at most `bound`. -/
def parseBoundedDigits (bound : Nat) (cs : List Char) : Option Nat :=
  match cs with
  | [] => none
  | _ =>
    match parseDigits 0 cs with
    | some n => if n ≤ bound then some n else none
    | none => none

/-- Rust `usize::from_str` (64-bit): optional `+`, digits, bounded. -/
def parseUsizeChars (cs : List Char) : Option Nat :=
  match cs with
  | [] => none
  | c :: rest =>
    if c = '+' then parseBoundedDigits USIZE_MAX rest
    else parseBoundedDigits USIZE_MAX (c :: rest)

/-- Rust `isize::from_str` (64-bit): optional sign, digits, bounded. -/
def parseIsizeChars (cs : List Char) : Option Int :=
  match cs with
  | [] => none
  | c :: rest =>
    if c = '-' then (parseBoundedDigits (2 ^ 63) rest).map (fun (n : Nat) => -(n : Int))
    else if c = '+' then (parseBoundedDigits ISIZE_MAX rest).map (fun (n : Nat) => (n : Int))
    else (parseBoundedDigits ISIZE_MAX (c :: rest)).map (fun (n : Nat) => (n : Int))

/-- Canonical decimal rendering, most significant digit first, prepended to
`acc`.  The fuel is only a termination device; `natToChars` supplies `n + 1`,
which always suffices since the quotient chain reaches `0` within `n` steps. -/
def natToCharsAux : Nat → Nat → List Char → List Char
  | 0, _, acc => acc
  | fuel + 1, n, acc =>
    let d := digitChar (n % 10)
    let q := n / 10
    if q = 0 then d :: acc else natToCharsAux fuel q (d :: acc)

/-- Canonical decimal rendering of a natural number (Rust `Display` of an
unsigned integer). -/
def natToChars (n : Nat) : List Char := natToCharsAux (n + 1) n []

/-! ## `str::split(':')` -/

/-- Split a character list at every `':'`; like Rust's `split(':')`, the
result is never empty and empty segments are kept. -/
def splitColon : List Char → List (List Char)
  | [] => [[]]
  | c :: cs =>
    if c = ':' then [] :: splitColon cs
    else
      match splitColon cs with
      | g :: gs => (c :: g) :: gs
      | [] => [[c]]

/-! ## `SourceLocation` -/

/-- `SourceLocation { start: usize, length: Option<usize>, index: Option<usize> }`. -/
structure SourceLocation where
  start : Nat
  length : Option Nat
  index : Option Nat
deriving DecidableEq, Repr

/-- The uniform error text `format!("{} invalid source location", s)`. -/
def invalidLocation (s : String) : String := s ++ " invalid source location"

/-- `SourceLocation::from_str`: split on `':'`, parse the first segment as
`usize` and the next two as `isize`, normalizing a negative second or third
segment to `none`.  Segments beyond the third are ignored (`split.next()` is
called exactly three times).  The Rust code interleaves the `next()` and
`parse` failure cases, but every failure produces the same
`invalidLocation` error, so the order of the checks is immaterial. -/
def sourceLocationFromStr (s : String) : Except String SourceLocation :=
  match splitColon s.data with
  | p0 :: p1 :: p2 :: _ =>
    match parseUsizeChars p0 with
    | none => .error (invalidLocation s)
    | some start =>
      match parseIsizeChars p1 with
      | none => .error (invalidLocation s)
      | some len =>
        match parseIsizeChars p2 with
        | none => .error (invalidLocation s)
        | some idx =>
          .ok ⟨start, if len < 0 then none else some len.toNat,
                if idx < 0 then none else some idx.toNat⟩
  | _ => .error (invalidLocation s)

/-- The rendering of an optional field: the value, or the `-1` sentinel. -/
def optFieldChars : Option Nat → List Char
  | some n => natToChars n
  | none => ['-', '1']

/-- `Display for SourceLocation`: `start:length:index` with `-1` for absent
optional fields. -/
def sourceLocationFormat (l : SourceLocation) : String :=
  ⟨natToChars l.start ++ ':' :: optFieldChars l.length ++ ':' :: optFieldChars l.index⟩

/-- The range invariant the Rust types `usize` / `Option<usize>` (populated
from a non-negative `isize`) impose on a 64-bit target. -/
def locWf (l : SourceLocation) : Prop :=
  l.start ≤ USIZE_MAX ∧
    (∀ n ∈ l.length, n ≤ ISIZE_MAX) ∧ (∀ n ∈ l.index, n ≤ ISIZE_MAX)

instance : DecidablePred locWf := fun l => by
  unfold locWf; infer_instance

/-! ## `NodeType` -/

set_option maxHeartbeats 1000000

/-- The `NodeType` enum: the known solc AST node kinds plus the catch-all
newtype variant `Other`. -/
inductive NodeType where
  | Assignment
  | BinaryOperation
  | Conditional
  | ElementaryTypeNameExpression
  | FunctionCall
  | FunctionCallOptions
  | Identifier
  | IndexAccess
  | IndexRangeAccess
  | Literal
  | MemberAccess
  | NewExpression
  | TupleExpression
  | UnaryOperation
  | Block
  | Break
  | Continue
  | DoWhileStatement
  | EmitStatement
  | ExpressionStatement
  | ForStatement
  | IfStatement
  | InlineAssembly
  | PlaceholderStatement
  | Return
  | RevertStatement
  | TryStatement
  | UncheckedBlock
  | VariableDeclarationStatement
  | VariableDeclaration
  | WhileStatement
  | YulAssignment
  | YulBlock
  | YulBreak
  | YulContinue
  | YulExpressionStatement
  | YulLeave
  | YulForLoop
  | YulFunctionDefinition
  | YulIf
  | YulSwitch
  | YulVariableDeclaration
  | YulFunctionCall
  | YulIdentifier
  | YulLiteral
  | YulLiteralValue
  | YulHexValue
  | ContractDefinition
  | FunctionDefinition
  | EventDefinition
  | ErrorDefinition
  | ModifierDefinition
  | StructDefinition
  | EnumDefinition
  | UserDefinedValueTypeDefinition
  | PragmaDirective
  | ImportDirective
  | UsingForDirective
  | SourceUnit
  | InheritanceSpecifier
  | ElementaryTypeName
  | FunctionTypeName
  | ParameterList
  | TryCatchClause
  | ModifierInvocation
  | Other (s : String)
deriving Repr

/-- The table pairing each unit variant of `NodeType` with its wire name,
exactly the variant names the serde derive matches. -/
def knownNodeTypes : List (String × NodeType) :=
  [("Assignment", .Assignment),
   ("BinaryOperation", .BinaryOperation),
   ("Conditional", .Conditional),
   ("ElementaryTypeNameExpression", .ElementaryTypeNameExpression),
   ("FunctionCall", .FunctionCall),
   ("FunctionCallOptions", .FunctionCallOptions),
   ("Identifier", .Identifier),
   ("IndexAccess", .IndexAccess),
   ("IndexRangeAccess", .IndexRangeAccess),
   ("Literal", .Literal),
   ("MemberAccess", .MemberAccess),
   ("NewExpression", .NewExpression),
   ("TupleExpression", .TupleExpression),
   ("UnaryOperation", .UnaryOperation),
   ("Block", .Block),
   ("Break", .Break),
   ("Continue", .Continue),
   ("DoWhileStatement", .DoWhileStatement),
   ("EmitStatement", .EmitStatement),
   ("ExpressionStatement", .ExpressionStatement),
   ("ForStatement", .ForStatement),
   ("IfStatement", .IfStatement),
   ("InlineAssembly", .InlineAssembly),
   ("PlaceholderStatement", .PlaceholderStatement),
   ("Return", .Return),
   ("RevertStatement", .RevertStatement),
   ("TryStatement", .TryStatement),
   ("UncheckedBlock", .UncheckedBlock),
   ("VariableDeclarationStatement", .VariableDeclarationStatement),
   ("VariableDeclaration", .VariableDeclaration),
   ("WhileStatement", .WhileStatement),
   ("YulAssignment", .YulAssignment),
   ("YulBlock", .YulBlock),
   ("YulBreak", .YulBreak),
   ("YulContinue", .YulContinue),
   ("YulExpressionStatement", .YulExpressionStatement),
   ("YulLeave", .YulLeave),
   ("YulForLoop", .YulForLoop),
   ("YulFunctionDefinition", .YulFunctionDefinition),
   ("YulIf", .YulIf),
   ("YulSwitch", .YulSwitch),
   ("YulVariableDeclaration", .YulVariableDeclaration),
   ("YulFunctionCall", .YulFunctionCall),
   ("YulIdentifier", .YulIdentifier),
   ("YulLiteral", .YulLiteral),
   ("YulLiteralValue", .YulLiteralValue),
   ("YulHexValue", .YulHexValue),
   ("ContractDefinition", .ContractDefinition),
   ("FunctionDefinition", .FunctionDefinition),
   ("EventDefinition", .EventDefinition),
   ("ErrorDefinition", .ErrorDefinition),
   ("ModifierDefinition", .ModifierDefinition),
   ("StructDefinition", .StructDefinition),
   ("EnumDefinition", .EnumDefinition),
   ("UserDefinedValueTypeDefinition", .UserDefinedValueTypeDefinition),
   ("PragmaDirective", .PragmaDirective),
   ("ImportDirective", .ImportDirective),
   ("UsingForDirective", .UsingForDirective),
   ("SourceUnit", .SourceUnit),
   ("InheritanceSpecifier", .InheritanceSpecifier),
   ("ElementaryTypeName", .ElementaryTypeName),
   ("FunctionTypeName", .FunctionTypeName),
   ("ParameterList", .ParameterList),
   ("TryCatchClause", .TryCatchClause),
   ("ModifierInvocation", .ModifierInvocation)]

/-- The unit variant whose wire name is `s`, if any. -/
def nodeTypeOfTag (s : String) : Option NodeType :=
  (knownNodeTypes.find? (fun p => p.1 = s)).map (fun p => p.2)

/-- The wire name of a unit variant (`""` for `Other`, which has none), by
direct match on the variant, exactly as the derived `Serialize` writes it. -/
def nodeTypeTag : NodeType → String
  | .Assignment => "Assignment"
  | .BinaryOperation => "BinaryOperation"
  | .Conditional => "Conditional"
  | .ElementaryTypeNameExpression => "ElementaryTypeNameExpression"
  | .FunctionCall => "FunctionCall"
  | .FunctionCallOptions => "FunctionCallOptions"
  | .Identifier => "Identifier"
  | .IndexAccess => "IndexAccess"
  | .IndexRangeAccess => "IndexRangeAccess"
  | .Literal => "Literal"
  | .MemberAccess => "MemberAccess"
  | .NewExpression => "NewExpression"
  | .TupleExpression => "TupleExpression"
  | .UnaryOperation => "UnaryOperation"
  | .Block => "Block"
  | .Break => "Break"
  | .Continue => "Continue"
  | .DoWhileStatement => "DoWhileStatement"
  | .EmitStatement => "EmitStatement"
  | .ExpressionStatement => "ExpressionStatement"
  | .ForStatement => "ForStatement"
  | .IfStatement => "IfStatement"
  | .InlineAssembly => "InlineAssembly"
  | .PlaceholderStatement => "PlaceholderStatement"
  | .Return => "Return"
  | .RevertStatement => "RevertStatement"
  | .TryStatement => "TryStatement"
  | .UncheckedBlock => "UncheckedBlock"
  | .VariableDeclarationStatement => "VariableDeclarationStatement"
  | .VariableDeclaration => "VariableDeclaration"
  | .WhileStatement => "WhileStatement"
  | .YulAssignment => "YulAssignment"
  | .YulBlock => "YulBlock"
  | .YulBreak => "YulBreak"
  | .YulContinue => "YulContinue"
  | .YulExpressionStatement => "YulExpressionStatement"
  | .YulLeave => "YulLeave"
  | .YulForLoop => "YulForLoop"
  | .YulFunctionDefinition => "YulFunctionDefinition"
  | .YulIf => "YulIf"
  | .YulSwitch => "YulSwitch"
  | .YulVariableDeclaration => "YulVariableDeclaration"
  | .YulFunctionCall => "YulFunctionCall"
  | .YulIdentifier => "YulIdentifier"
  | .YulLiteral => "YulLiteral"
  | .YulLiteralValue => "YulLiteralValue"
  | .YulHexValue => "YulHexValue"
  | .ContractDefinition => "ContractDefinition"
  | .FunctionDefinition => "FunctionDefinition"
  | .EventDefinition => "EventDefinition"
  | .ErrorDefinition => "ErrorDefinition"
  | .ModifierDefinition => "ModifierDefinition"
  | .StructDefinition => "StructDefinition"
  | .EnumDefinition => "EnumDefinition"
  | .UserDefinedValueTypeDefinition => "UserDefinedValueTypeDefinition"
  | .PragmaDirective => "PragmaDirective"
  | .ImportDirective => "ImportDirective"
  | .UsingForDirective => "UsingForDirective"
  | .SourceUnit => "SourceUnit"
  | .InheritanceSpecifier => "InheritanceSpecifier"
  | .ElementaryTypeName => "ElementaryTypeName"
  | .FunctionTypeName => "FunctionTypeName"
  | .ParameterList => "ParameterList"
  | .TryCatchClause => "TryCatchClause"
  | .ModifierInvocation => "ModifierInvocation"
  | .Other _ => ""

/-- The derived `Deserialize` for the externally tagged enum `NodeType`:
a JSON string is matched against the unit-variant names (the newtype
variant name `Other` in string position lacks its content and errors); a
single-key JSON object selects a variant by key, `null` content for a unit
variant, string content for `Other`.  Any unrecognized tag is an
`unknown variant` error — there is no fallback. -/
def nodeTypeFromJson : Json → Except String NodeType
  | .str s =>
    match nodeTypeOfTag s with
    | some nt => .ok nt
    | none =>
      if s = "Other" then .error "invalid type: unit variant, expected newtype variant"
      else .error ("unknown variant " ++ s)
  | .obj [(k, v)] =>
    if k = "Other" then
      match v with
      | .str s => .ok (.Other s)
      | _ => .error "invalid type: expected a string"
    else
      match nodeTypeOfTag k with
      | some nt =>
        match v with
        | .null => .ok nt
        | _ => .error "invalid type: expected null for a unit variant"
      | none => .error ("unknown variant " ++ k)
  | _ => .error "invalid type: expected a NodeType"

/-- The derived `Serialize` for `NodeType`: a unit variant serializes to its
name string, the newtype variant `Other` to a single-key map. -/
def nodeTypeToJson : NodeType → Json
  | .Other s => .obj [("Other", .str s)]
  | nt => .str (nodeTypeTag nt)

/-! ## Association-list maps (`BTreeMap`) -/

/-- First-occurrence lookup in an association list. -/
def lookupEntry {α : Type} (k : String) : List (String × α) → Option α
  | [] => none
  | (k', v) :: rest => if k' = k then some v else lookupEntry k rest

/-- Lexicographic strict order on character lists by code point; since
UTF-8 byte order agrees with code point order, this is exactly the `Ord`
Rust's `BTreeMap<String, _>` sorts by. -/
def strLt : List Char → List Char → Bool
  | [], [] => false
  | [], _ :: _ => true
  | _ :: _, [] => false
  | a :: as, b :: bs =>
    if a.toNat < b.toNat then true
    else if b.toNat < a.toNat then false
    else strLt as bs

/-- The key order of `BTreeMap<String, _>`. -/
def keyLt (a b : String) : Bool := strLt a.data b.data

/-- Insertion into a key-sorted association list, replacing an existing
binding: the effect of `BTreeMap::insert`. -/
def mapInsert {α : Type} (k : String) (v : α) : List (String × α) → List (String × α)
  | [] => [(k, v)]
  | (k', v') :: rest =>
    if keyLt k k' then (k, v) :: (k', v') :: rest
    else if k = k' then (k, v) :: rest
    else (k', v') :: mapInsert k v rest

/-! ## `Node` and `Ast` -/

/-- `serde_json` deserialization of a `usize` (64-bit) from a JSON value. -/
def asUsize : Json → Option Nat
  | .num n => if 0 ≤ n ∧ n ≤ (USIZE_MAX : Int) then some n.toNat else none
  | _ => none

/-- Deserialization of a `Vec<usize>` from a list of JSON values. -/
def asUsizeList : List Json → Option (List Nat)
  | [] => some []
  | x :: xs =>
    match asUsize x with
    | some n => (asUsizeList xs).map (fun ns => n :: ns)
    | none => none

/-- The `Node` struct: id, node type, source location, children, optional
body, and the open attribute bag (`#[serde(flatten)]` into a `BTreeMap`,
modelled as a key-sorted association list). -/
inductive Node where
  | mk (id : Nat) (node_type : NodeType) (src : SourceLocation)
      (nodes : List Node) (body : Option Node) (other : List (String × Json))

def Node.id : Node → Nat
  | .mk i _ _ _ _ _ => i

def Node.node_type : Node → NodeType
  | .mk _ nt _ _ _ _ => nt

def Node.src : Node → SourceLocation
  | .mk _ _ s _ _ _ => s

def Node.nodes : Node → List Node
  | .mk _ _ _ ns _ _ => ns

def Node.body : Node → Option Node
  | .mk _ _ _ _ b _ => b

def Node.other : Node → List (String × Json)
  | .mk _ _ _ _ _ o => o

/-- `Node::attribute::<D>`: look the key up in the open bag and reinterpret
the stored value with the caller's deserializer (`serde_json::from_value`
composed with `.ok()`, modelled by the function `fromValue`); `None` both
when the key is absent and when reinterpretation fails. -/
def Node.attr {D : Type} (n : Node) (key : String) (fromValue : Json → Option D) : Option D :=
  match lookupEntry key n.other with
  | some v => fromValue v
  | none => none

/-- Partially-built `Node` during field iteration (the state of the derived
`Deserialize` visitor: each typed field is optional until seen, unknown
entries accumulate into the flattened map). -/
structure PNode where
  pid : Option Nat
  pnt : Option NodeType
  psrc : Option SourceLocation
  pnodes : Option (List Node)
  pbody : Option (Option Node)
  pother : List (String × Json)

/-- The final assembly of a `Node` from the visitor state: `id`, `nodeType`
and `src` are required, `nodes` defaults to `[]` and `body` to `None`. -/
def finishNode (p : PNode) : Except String Node :=
  match p.pid with
  | none => .error "missing field id"
  | some i =>
    match p.pnt with
    | none => .error "missing field nodeType"
    | some nt =>
      match p.psrc with
      | none => .error "missing field src"
      | some src => .ok (.mk i nt src (p.pnodes.getD []) (p.pbody.getD none) p.pother)

/-- Processing of a single key/value entry of a `Node` object by the derived
visitor (with `#[serde(flatten)]`): a known key is checked for duplication
and its value deserialized (the already-computed results for the two
recursive fields are passed in as `rnodes` / `rbody`); every other entry
falls into the flattened `BTreeMap`. -/
def nodeStepF (k : String) (v : Json) (rnodes : Except String (List Node))
    (rbody : Except String (Option Node)) (p : PNode) : Except String PNode :=
  if k = "id" then
    match p.pid with
    | some _ => .error "duplicate field id"
    | none =>
      match asUsize v with
      | some i => .ok { p with pid := some i }
      | none => .error "invalid value for field id"
  else if k = "nodeType" then
    match p.pnt with
    | some _ => .error "duplicate field nodeType"
    | none =>
      match nodeTypeFromJson v with
      | .ok nt => .ok { p with pnt := some nt }
      | .error e => .error e
  else if k = "src" then
    match p.psrc with
    | some _ => .error "duplicate field src"
    | none =>
      match v with
      | .str s =>
        match sourceLocationFromStr s with
        | .ok loc => .ok { p with psrc := some loc }
        | .error e => .error e
      | _ => .error "invalid type: expected a string for src"
  else if k = "nodes" then
    match p.pnodes with
    | some _ => .error "duplicate field nodes"
    | none =>
      match rnodes with
      | .ok ns => .ok { p with pnodes := some ns }
      | .error e => .error e
  else if k = "body" then
    match p.pbody with
    | some _ => .error "duplicate field body"
    | none =>
      match rbody with
      | .ok b => .ok { p with pbody := some b }
      | .error e => .error e
  else .ok { p with pother := mapInsert k v p.pother }

mutual

/-- The derived `Deserialize` for `Node`: only an object is accepted; its
entries are folded over the visitor state. -/
def deserNode : Json → Except String Node
  | .obj entries => deserNodeFields entries ⟨none, none, none, none, none, []⟩
  | _ => .error "invalid type: expected an object for Node"

/-- Iterate the object entries in order, processing each with `nodeStepF`.
The deserializations of the two recursive fields are computed up front and
passed in; this is observationally the same as serde computing them inside
the `nodes`/`body` branches, since the language is pure and `nodeStepF`
only inspects the one selected by the key. -/
def deserNodeFields : List (String × Json) → PNode → Except String Node
  | [], p => finishNode p
  | (k, v) :: rest, p =>
    match nodeStepF k v (deserNodeMaybeArr v) (deserNodeMaybeBody v) p with
    | .ok p' => deserNodeFields rest p'
    | .error e => .error e

/-- Deserialization of the value of a `nodes` key: an array of nodes. -/
def deserNodeMaybeArr : Json → Except String (List Node)
  | .arr xs => deserNodeList xs
  | _ => .error "invalid type: expected an array for nodes"

/-- Deserialization of the value of a `body` key: `Option<Box<Node>>`, so
`null` is `None` and anything else must be a node object (the object case
is unfolded from `deserNode` to keep the recursion structural). -/
def deserNodeMaybeBody : Json → Except String (Option Node)
  | .null => .ok none
  | .obj entries =>
    match deserNodeFields entries ⟨none, none, none, none, none, []⟩ with
    | .ok b => .ok (some b)
    | .error e => .error e
  | _ => .error "invalid type: expected an object for Node"

/-- Deserialization of `Vec<Node>`: elementwise, first error wins. -/
def deserNodeList : List Json → Except String (List Node)
  | [] => .ok []
  | x :: xs =>
    match deserNode x with
    | .ok n =>
      match deserNodeList xs with
      | .ok ns => .ok (n :: ns)
      | .error e => .error e
    | .error e => .error e

end

/-- The `Ast` struct: the per-file root.  Same contract as `Node` for
`nodeType`, `src`, `nodes` and the open bag, plus `absolutePath`, `id` and
`exportedSymbols` (a `BTreeMap<String, Vec<usize>>`, defaulting to empty),
and no `body`. -/
structure Ast where
  absolute_path : String
  id : Nat
  exported_symbols : List (String × List Nat)
  node_type : NodeType
  src : SourceLocation
  nodes : List Node
  other : List (String × Json)

/-- Deserialization of `BTreeMap<String, Vec<usize>>` entries: values in
iteration order, duplicate keys resolved by later insertion. -/
def deserSymEntries : List (String × Json) → List (String × List Nat) →
    Option (List (String × List Nat))
  | [], acc => some acc
  | (k, v) :: rest, acc =>
    match v with
    | .arr xs =>
      match asUsizeList xs with
      | some ns => deserSymEntries rest (mapInsert k ns acc)
      | none => none
    | _ => none

/-- Deserialization of the `exportedSymbols` value. -/
def deserExportedSymbols : Json → Option (List (String × List Nat))
  | .obj entries => deserSymEntries entries []
  | _ => none

/-- Partially-built `Ast` during field iteration. -/
structure PAst where
  pabs : Option String
  pid : Option Nat
  psyms : Option (List (String × List Nat))
  pnt : Option NodeType
  psrc : Option SourceLocation
  pnodes : Option (List Node)
  pother : List (String × Json)

/-- The final assembly of an `Ast` from the visitor state: `absolutePath`,
`id`, `nodeType`, `src` required; `exportedSymbols` and `nodes` default to
empty. -/
def finishAst (p : PAst) : Except String Ast :=
  match p.pabs with
  | none => .error "missing field absolutePath"
  | some abs =>
    match p.pid with
    | none => .error "missing field id"
    | some i =>
      match p.pnt with
      | none => .error "missing field nodeType"
      | some nt =>
        match p.psrc with
        | none => .error "missing field src"
        | some src =>
          .ok ⟨abs, i, p.psyms.getD [], nt, src, p.pnodes.getD [], p.pother⟩

/-- Processing of a single key/value entry of the root `Ast` object by the
derived visitor, exactly as for `Node` but with the root field set and no
`body`. -/
def astStepF (k : String) (v : Json) (rnodes : Except String (List Node))
    (p : PAst) : Except String PAst :=
  if k = "absolutePath" then
    match p.pabs with
    | some _ => .error "duplicate field absolutePath"
    | none =>
      match v with
      | .str s => .ok { p with pabs := some s }
      | _ => .error "invalid type: expected a string for absolutePath"
  else if k = "id" then
    match p.pid with
    | some _ => .error "duplicate field id"
    | none =>
      match asUsize v with
      | some i => .ok { p with pid := some i }
      | none => .error "invalid value for field id"
  else if k = "exportedSymbols" then
    match p.psyms with
    | some _ => .error "duplicate field exportedSymbols"
    | none =>
      match deserExportedSymbols v with
      | some syms => .ok { p with psyms := some syms }
      | none => .error "invalid value for field exportedSymbols"
  else if k = "nodeType" then
    match p.pnt with
    | some _ => .error "duplicate field nodeType"
    | none =>
      match nodeTypeFromJson v with
      | .ok nt => .ok { p with pnt := some nt }
      | .error e => .error e
  else if k = "src" then
    match p.psrc with
    | some _ => .error "duplicate field src"
    | none =>
      match v with
      | .str s =>
        match sourceLocationFromStr s with
        | .ok loc => .ok { p with psrc := some loc }
        | .error e => .error e
      | _ => .error "invalid type: expected a string for src"
  else if k = "nodes" then
    match p.pnodes with
    | some _ => .error "duplicate field nodes"
    | none =>
      match rnodes with
      | .ok ns => .ok { p with pnodes := some ns }
      | .error e => .error e
  else .ok { p with pother := mapInsert k v p.pother }

/-- Iterate the root object entries in order. -/
def deserAstFields : List (String × Json) → PAst → Except String Ast
  | [], p => finishAst p
  | (k, v) :: rest, p =>
    match astStepF k v (deserNodeMaybeArr v) p with
    | .ok p' => deserAstFields rest p'
    | .error e => .error e

/-- The derived `Deserialize` for `Ast`. -/
def deserAst : Json → Except String Ast
  | .obj entries => deserAstFields entries ⟨none, none, none, none, none, none, []⟩
  | _ => .error "invalid type: expected an object for Ast"

mutual

/-- The derived `Serialize` for `Node`: typed fields in declaration order
(`nodes` skipped when empty, `body` skipped when `None`), then the
flattened open bag. -/
def serNode : Node → Json
  | .mk i nt src ns b o =>
    .obj (("id", .num (i : Int)) :: ("nodeType", nodeTypeToJson nt) ::
      ("src", .str (sourceLocationFormat src)) ::
      (serNodesField ns ++ serBodyField b ++ o))

def serNodesField : List Node → List (String × Json)
  | [] => []
  | n :: ns => [("nodes", .arr (serNode n :: serNodeList ns))]

def serNodeList : List Node → List Json
  | [] => []
  | n :: ns => serNode n :: serNodeList ns

def serBodyField : Option Node → List (String × Json)
  | none => []
  | some b => [("body", serNode b)]

end

/-- Serialization of the `exportedSymbols` map. -/
def serSyms : List (String × List Nat) → List (String × Json)
  | [] => []
  | (k, ns) :: rest =>
    (k, .arr (ns.map (fun (n : Nat) => Json.num (n : Int)))) :: serSyms rest

/-- The derived `Serialize` for `Ast` (note: `exportedSymbols` is always
emitted — its `#[serde(default)]` has no `skip_serializing_if`). -/
def serAst (a : Ast) : Json :=
  .obj (("absolutePath", .str a.absolute_path) :: ("id", .num (a.id : Int)) ::
    ("exportedSymbols", .obj (serSyms a.exported_symbols)) ::
    ("nodeType", nodeTypeToJson a.node_type) ::
    ("src", .str (sourceLocationFormat a.src)) ::
    (serNodesField a.nodes ++ a.other))

/-- The boolean test for a key captured by a typed field of `Node`. -/
def isKnownNodeKey (k : String) : Bool :=
  k = "id" || k = "nodeType" || k = "src" || k = "nodes" || k = "body"

/-- The boolean test for a key captured by a typed field of `Ast`. -/
def isKnownAstKey (k : String) : Bool :=
  k = "absolutePath" || k = "id" || k = "exportedSymbols" || k = "nodeType" ||
    k = "src" || k = "nodes"

/-! ## Round-trip scope: well-formed inputs and canonical key order -/

/-- Pairwise-distinct keys, as in any JSON object produced by a standard
parser. -/
def distinctKeys : List (String × Json) → Bool
  | [] => true
  | (k, _) :: rest => (lookupEntry k rest).isNone && distinctKeys rest

/-- The `nodeType` values that round-trip: a known unit-variant tag string,
or the map form of `Other`. -/
def goodNodeTypeJson : Json → Bool
  | .str s => (nodeTypeOfTag s).isSome
  | .obj [("Other", .str _)] => true
  | _ => false

/-- The `src` values that round-trip: a string that is the canonical
rendering of the location it parses to. -/
def goodSrcJson : Json → Bool
  | .str s =>
    match sourceLocationFromStr s with
    | .ok loc => sourceLocationFormat loc == s
    | .error _ => false
  | _ => false

mutual

/-- A node object in the scope of the amended round-trip statement: an
object with pairwise-distinct keys, the three required fields present,
every typed field well formed, `nodes` (when present) a nonempty array of
such objects, and `body` (when present) such an object. -/
def goodNodeJson : Json → Bool
  | .obj entries =>
    distinctKeys entries && (lookupEntry "id" entries).isSome &&
      (lookupEntry "nodeType" entries).isSome &&
      (lookupEntry "src" entries).isSome && goodNodeEntries entries
  | _ => false

/-- Per-entry well-formedness of a node object's fields. -/
def goodNodeEntries : List (String × Json) → Bool
  | [] => true
  | (k, v) :: rest =>
    (if k = "id" then (asUsize v).isSome
     else if k = "nodeType" then goodNodeTypeJson v
     else if k = "src" then goodSrcJson v
     else if k = "nodes" then goodNodesValue v
     else if k = "body" then goodNodeJson v
     else true) && goodNodeEntries rest

/-- A round-tripping `nodes` value: a nonempty array of good node objects
(an empty array would be dropped by `skip_serializing_if = "Vec::is_empty"`). -/
def goodNodesValue : Json → Bool
  | .arr (x :: xs) => goodNodeJson x && goodNodeListJson xs
  | _ => false

/-- All elements are good node objects. -/
def goodNodeListJson : List Json → Bool
  | [] => true
  | x :: xs => goodNodeJson x && goodNodeListJson xs

end

/-- All elements deserialize as `usize`. -/
def goodUsizeArr : List Json → Bool
  | [] => true
  | x :: xs => (asUsize x).isSome && goodUsizeArr xs

/-- Per-entry well-formedness of the `exportedSymbols` map. -/
def goodSymEntries : List (String × Json) → Bool
  | [] => true
  | (_, v) :: rest =>
    (match v with
     | .arr xs => goodUsizeArr xs
     | _ => false) && goodSymEntries rest

/-- A round-tripping `exportedSymbols` value: an object with distinct keys
whose values are arrays of in-range numbers. -/
def goodSymsValue : Json → Bool
  | .obj es => distinctKeys es && goodSymEntries es
  | _ => false

/-- A JSON string. -/
def isStrJson : Json → Bool
  | .str _ => true
  | _ => false

/-- Per-entry well-formedness of the root object's fields. -/
def goodAstEntries : List (String × Json) → Bool
  | [] => true
  | (k, v) :: rest =>
    (if k = "absolutePath" then isStrJson v
     else if k = "id" then (asUsize v).isSome
     else if k = "exportedSymbols" then goodSymsValue v
     else if k = "nodeType" then goodNodeTypeJson v
     else if k = "src" then goodSrcJson v
     else if k = "nodes" then goodNodesValue v
     else true) && goodAstEntries rest

/-- A root object in the scope of the amended round-trip statement: all of
`goodNodeJson`'s conditions adapted to `Ast`, plus `absolutePath` and
`exportedSymbols` present (`serAst` always emits `exportedSymbols`, so an
input without it cannot round-trip even modulo key order). -/
def goodAstJson : Json → Bool
  | .obj entries =>
    distinctKeys entries && (lookupEntry "absolutePath" entries).isSome &&
      (lookupEntry "id" entries).isSome &&
      (lookupEntry "exportedSymbols" entries).isSome &&
      (lookupEntry "nodeType" entries).isSome &&
      (lookupEntry "src" entries).isSome && goodAstEntries entries
  | _ => false

/-- Ordered insertion by key (ties keep the new entry later). -/
def insertByKey (e : String × Json) : List (String × Json) → List (String × Json)
  | [] => [e]
  | e' :: rest => if keyLt e.1 e'.1 then e :: e' :: rest else e' :: insertByKey e rest

/-- Insertion sort of object entries by key. -/
def sortByKey : List (String × Json) → List (String × Json)
  | [] => []
  | e :: rest => insertByKey e (sortByKey rest)

mutual

/-- Recursive canonicalization of a JSON value: object entries sorted by
key at every level (values canonicalized first).  Two values are equal
modulo object key ordering exactly when their canonical forms are equal. -/
def jsonCanon : Json → Json
  | .obj entries => .obj (sortByKey (canonEntries entries))
  | .arr xs => .arr (canonList xs)
  | j => j

/-- Canonicalize each entry's value. -/
def canonEntries : List (String × Json) → List (String × Json)
  | [] => []
  | (k, v) :: rest => (k, jsonCanon v) :: canonEntries rest

/-- Canonicalize each element. -/
def canonList : List Json → List Json
  | [] => []
  | x :: xs => jsonCanon x :: canonList xs

end

/-! ## Lemmas: decimal round trip -/

theorem digitVal?_digitChar (d : Nat) (h : d < 10) : digitVal? (digitChar d) = some d := by
  interval_cases d <;> rfl

theorem digit_ne_colon (c : Char) (h : (digitVal? c).isSome = true) : c ≠ ':' := by
  intro he
  subst he
  exact absurd h (by decide)

theorem digit_ne_plus (c : Char) (h : (digitVal? c).isSome = true) : c ≠ '+' := by
  intro he
  subst he
  exact absurd h (by decide)

theorem digit_ne_minus (c : Char) (h : (digitVal? c).isSome = true) : c ≠ '-' := by
  intro he
  subst he
  exact absurd h (by decide)

theorem natToCharsAux_spec :
    ∀ fuel n, n < fuel →
      ∃ ds, ds ≠ [] ∧ (∀ c ∈ ds, (digitVal? c).isSome = true) ∧
        (∀ acc, natToCharsAux fuel n acc = ds ++ acc) ∧
        ∃ k, 0 < k ∧
          ∀ v rest, parseDigits v (ds ++ rest) = parseDigits (v * 10 ^ k + n) rest := by
  intro fuel
  induction fuel with
  | zero => intro n h; exact absurd h (Nat.not_lt_zero n)
  | succ fuel ih =>
    intro n hn
    have hlt : n % 10 < 10 := Nat.mod_lt _ (by norm_num)
    by_cases hq : n / 10 = 0
    · have hmod : n % 10 = n := by omega
      refine ⟨[digitChar (n % 10)], by simp, ?_, ?_, 1, Nat.one_pos, ?_⟩
      · intro c hc
        simp only [List.mem_singleton] at hc
        subst hc
        rw [digitVal?_digitChar _ hlt]
        rfl
      · intro acc
        simp [natToCharsAux, hq]
      · intro v rest
        simp only [List.singleton_append, parseDigits, digitVal?_digitChar _ hlt]
        congr 1
        rw [pow_one, hmod]
    · have hn0 : 0 < n := by omega
      have hdiv : n / 10 < n := Nat.div_lt_self hn0 (by norm_num)
      obtain ⟨ds, hne, hdig, hacc, k, hk, hparse⟩ := ih (n / 10) (by omega)
      refine ⟨ds ++ [digitChar (n % 10)], by simp, ?_, ?_, k + 1, by omega, ?_⟩
      · intro c hc
        rcases List.mem_append.mp hc with hc | hc
        · exact hdig c hc
        · simp only [List.mem_singleton] at hc
          subst hc
          rw [digitVal?_digitChar _ hlt]
          rfl
      · intro acc
        have h1 : natToCharsAux (fuel + 1) n acc =
            natToCharsAux fuel (n / 10) (digitChar (n % 10) :: acc) := by
          simp [natToCharsAux, hq]
        rw [h1, hacc, List.append_assoc]
        rfl
      · intro v rest
        rw [List.append_assoc, List.singleton_append, hparse v (digitChar (n % 10) :: rest)]
        simp only [parseDigits, digitVal?_digitChar _ hlt]
        congr 1
        rw [pow_succ, ← mul_assoc]
        generalize v * 10 ^ k = w
        omega

theorem natToChars_spec (n : Nat) :
    natToChars n ≠ [] ∧ (∀ c ∈ natToChars n, (digitVal? c).isSome = true) ∧
      parseDigits 0 (natToChars n) = some n := by
  obtain ⟨ds, hne, hdig, hacc, k, hk, hparse⟩ := natToCharsAux_spec (n + 1) n (Nat.lt_succ_self n)
  have h1 : natToChars n = ds := by
    rw [natToChars, hacc []]
    simp
  refine ⟨h1 ▸ hne, h1 ▸ hdig, ?_⟩
  have h2 : parseDigits 0 (ds ++ []) = parseDigits (0 * 10 ^ k + n) [] := hparse 0 []
  simp only [List.append_nil, Nat.zero_mul, Nat.zero_add] at h2
  rw [h1, h2]
  rfl

theorem parseBoundedDigits_natToChars (bound n : Nat) (h : n ≤ bound) :
    parseBoundedDigits bound (natToChars n) = some n := by
  obtain ⟨hne, hdig, hparse⟩ := natToChars_spec n
  cases hcs : natToChars n with
  | nil => exact absurd hcs hne
  | cons c cs =>
    rw [hcs] at hparse
    simp [parseBoundedDigits, hparse, h]

theorem parseUsizeChars_natToChars (n : Nat) (h : n ≤ USIZE_MAX) :
    parseUsizeChars (natToChars n) = some n := by
  obtain ⟨hne, hdig, _⟩ := natToChars_spec n
  cases hcs : natToChars n with
  | nil => exact absurd hcs hne
  | cons c cs =>
    have hc : (digitVal? c).isSome = true := hdig c (hcs ▸ List.mem_cons_self c cs)
    have hplus : ¬(c = '+') := digit_ne_plus c hc
    rw [parseUsizeChars, if_neg hplus, ← hcs]
    exact parseBoundedDigits_natToChars _ _ h

theorem parseIsizeChars_natToChars (n : Nat) (h : n ≤ ISIZE_MAX) :
    parseIsizeChars (natToChars n) = some (n : Int) := by
  obtain ⟨hne, hdig, _⟩ := natToChars_spec n
  cases hcs : natToChars n with
  | nil => exact absurd hcs hne
  | cons c cs =>
    have hc : (digitVal? c).isSome = true := hdig c (hcs ▸ List.mem_cons_self c cs)
    have hplus : ¬(c = '+') := digit_ne_plus c hc
    have hminus : ¬(c = '-') := digit_ne_minus c hc
    rw [parseIsizeChars, if_neg hminus, if_neg hplus, ← hcs,
      parseBoundedDigits_natToChars _ _ h]
    rfl

/-! ## Lemmas: splitting and the location round trip -/

theorem splitColon_no_colon : ∀ l, (∀ c ∈ l, c ≠ ':') → splitColon l = [l] := by
  intro l
  induction l with
  | nil => intro _; rfl
  | cons c cs ih =>
    intro h
    have hc : ¬(c = ':') := h c (List.mem_cons_self c cs)
    have hrec := ih (fun c' hc' => h c' (List.mem_cons_of_mem _ hc'))
    simp [splitColon, hc, hrec]

theorem splitColon_append : ∀ l1 l2, (∀ c ∈ l1, c ≠ ':') →
    splitColon (l1 ++ ':' :: l2) = l1 :: splitColon l2 := by
  intro l1
  induction l1 with
  | nil => intro l2 _; simp [splitColon]
  | cons c cs ih =>
    intro l2 h
    have hc : ¬(c = ':') := h c (List.mem_cons_self c cs)
    have hrec := ih l2 (fun c' hc' => h c' (List.mem_cons_of_mem _ hc'))
    simp [splitColon, hc, hrec]

theorem optFieldChars_no_colon (o : Option Nat) : ∀ c ∈ optFieldChars o, c ≠ ':' := by
  cases o with
  | none =>
    intro c hc
    simp only [optFieldChars, List.mem_cons, List.not_mem_nil, or_false] at hc
    rcases hc with h | h <;> subst h <;> decide
  | some m =>
    intro c hc
    exact digit_ne_colon c ((natToChars_spec m).2.1 c hc)

theorem parseIsizeChars_optFieldChars (o : Option Nat) (hb : ∀ m ∈ o, m ≤ ISIZE_MAX) :
    parseIsizeChars (optFieldChars o) =
      some (match o with | some m => (m : Int) | none => -1) := by
  cases o with
  | none => rfl
  | some m => simpa [optFieldChars] using parseIsizeChars_natToChars m (hb m rfl)

theorem locWf_parse_format (l : SourceLocation) (h : locWf l) :
    sourceLocationFromStr (sourceLocationFormat l) = .ok l := by
  obtain ⟨st, ln, ix⟩ := l
  obtain ⟨hs, hl, hi⟩ := h
  simp only at hs hl hi
  have hnc1 : ∀ c ∈ natToChars st, c ≠ ':' :=
    fun c hc => digit_ne_colon c ((natToChars_spec st).2.1 c hc)
  have hdata : (sourceLocationFormat ⟨st, ln, ix⟩).data =
      natToChars st ++ ':' :: (optFieldChars ln ++ ':' :: optFieldChars ix) := by
    simp [sourceLocationFormat]
  rw [sourceLocationFromStr, hdata, splitColon_append _ _ hnc1,
    splitColon_append _ _ (optFieldChars_no_colon ln),
    splitColon_no_colon _ (optFieldChars_no_colon ix)]
  simp only [parseUsizeChars_natToChars st hs, parseIsizeChars_optFieldChars ln hl,
    parseIsizeChars_optFieldChars ix hi]
  cases ln <;> cases ix <;> simp

theorem parseBoundedDigits_le {bound : Nat} {cs : List Char} {n : Nat}
    (h : parseBoundedDigits bound cs = some n) : n ≤ bound := by
  unfold parseBoundedDigits at h
  split at h
  · simp at h
  · split at h
    · split at h
      · injection h with h'
        omega
      · simp at h
    · simp at h

theorem parseUsizeChars_le {cs : List Char} {n : Nat} (h : parseUsizeChars cs = some n) :
    n ≤ USIZE_MAX := by
  cases cs with
  | nil => simp [parseUsizeChars] at h
  | cons c cs' =>
    simp only [parseUsizeChars] at h
    by_cases hp : c = '+'
    · rw [if_pos hp] at h
      exact parseBoundedDigits_le h
    · rw [if_neg hp] at h
      exact parseBoundedDigits_le h

theorem parseIsizeChars_bounds {cs : List Char} {i : Int} (h : parseIsizeChars cs = some i) :
    -(2 ^ 63 : Int) ≤ i ∧ i ≤ ((ISIZE_MAX : Nat) : Int) := by
  cases cs with
  | nil => simp [parseIsizeChars] at h
  | cons c cs' =>
    simp only [parseIsizeChars] at h
    by_cases hm : c = '-'
    · rw [if_pos hm] at h
      cases hp : parseBoundedDigits (2 ^ 63) cs' with
      | none => rw [hp] at h; simp at h
      | some m =>
        rw [hp] at h
        simp only [Option.map_some'] at h
        injection h with h'
        have hb := parseBoundedDigits_le hp
        have : ((0 : Nat) : Int) ≤ ((ISIZE_MAX : Nat) : Int) := by positivity
        omega
    · rw [if_neg hm] at h
      by_cases hpl : c = '+'
      · rw [if_pos hpl] at h
        cases hp : parseBoundedDigits ISIZE_MAX cs' with
        | none => rw [hp] at h; simp at h
        | some m =>
          rw [hp] at h
          simp only [Option.map_some'] at h
          injection h with h'
          have hb := parseBoundedDigits_le hp
          omega
      · rw [if_neg hpl] at h
        cases hp : parseBoundedDigits ISIZE_MAX (c :: cs') with
        | none => rw [hp] at h; simp at h
        | some m =>
          rw [hp] at h
          simp only [Option.map_some'] at h
          injection h with h'
          have hb := parseBoundedDigits_le hp
          omega

theorem sourceLocationFromStr_wf {s : String} {l : SourceLocation}
    (h : sourceLocationFromStr s = .ok l) : locWf l := by
  unfold sourceLocationFromStr at h
  rcases hsp : splitColon s.data with _ | ⟨p0, _ | ⟨p1, _ | ⟨p2, rest⟩⟩⟩ <;>
    simp only [hsp] at h
  · simp at h
  · simp at h
  · simp at h
  · cases hu : parseUsizeChars p0 <;> simp only [hu] at h
    · simp at h
    cases h1 : parseIsizeChars p1 <;> simp only [h1] at h
    · simp at h
    cases h2 : parseIsizeChars p2 <;> simp only [h2] at h
    · simp at h
    injection h with h'
    subst h'
    obtain ⟨hb1, hb2⟩ := parseIsizeChars_bounds h1
    obtain ⟨hc1, hc2⟩ := parseIsizeChars_bounds h2
    rename_i li ii
    refine ⟨parseUsizeChars_le hu, ?_, ?_⟩
    · intro m hm
      by_cases hlt : li < 0
      · rw [if_pos hlt] at hm
        simp at hm
      · rw [if_neg hlt] at hm
        simp only [Option.mem_def, Option.some_inj] at hm
        omega
    · intro m hm
      by_cases hlt : ii < 0
      · rw [if_pos hlt] at hm
        simp at hm
      · rw [if_neg hlt] at hm
        simp only [Option.mem_def, Option.some_inj] at hm
        omega

/-! ## Claim C5: value round trip through formatting -/

/-- C5 counterexample: `{start: 0, length: Some(2^63), index: None}` is a
value of the Rust type (usize holds `2^63`), but its formatted text has a
second segment that overflows `isize`, so parsing it back fails rather than
returning the original value. -/
theorem sourceLocation_roundtrip_value_counterexample :
    sourceLocationFormat ⟨0, some (2 ^ 63), none⟩ = "0:9223372036854775808:-1" ∧
      sourceLocationFromStr "0:9223372036854775808:-1" =
        .error "0:9223372036854775808:-1 invalid source location" ∧
      sourceLocationFromStr (sourceLocationFormat ⟨0, some (2 ^ 63), none⟩) ≠
        .ok ⟨0, some (2 ^ 63), none⟩ :=
  ⟨rfl, rfl, fun h => Except.noConfusion h⟩

/-- C5 (amended): for every `SourceLocation` whose `start` fits in `usize`
and whose present `length`/`index` fit in `isize` (all values constructed by
parsing satisfy this), parsing the formatted text returns the original
value: `parse(format(loc)) = Ok(loc)`. -/
theorem sourceLocation_parse_format_roundtrip (l : SourceLocation) (h : locWf l) :
    sourceLocationFromStr (sourceLocationFormat l) = .ok l :=
  locWf_parse_format l h

/-- Witness for C5 at the spec's own example `{start:10, length:None,
index:None}`, which formats to `"10:-1:-1"`. -/
theorem sourceLocation_parse_format_roundtrip_witness :
    locWf ⟨10, none, none⟩ ∧
      sourceLocationFormat ⟨10, none, none⟩ = "10:-1:-1" ∧
      sourceLocationFromStr (sourceLocationFormat ⟨10, none, none⟩) = .ok ⟨10, none, none⟩ :=
  ⟨by decide, rfl, sourceLocation_parse_format_roundtrip ⟨10, none, none⟩ (by decide)⟩

/-! ## Claim C2: textual round trip through parsing -/

/-- C2 counterexample: `"01:2:3"` is accepted by `from_str`, but formatting
the parsed value prints the canonical `"1:2:3"`, not the original string. -/
theorem sourceLocation_format_parse_counterexample :
    sourceLocationFromStr "01:2:3" = .ok ⟨1, some 2, some 3⟩ ∧
      sourceLocationFormat ⟨1, some 2, some 3⟩ = "1:2:3" ∧ "1:2:3" ≠ "01:2:3" :=
  ⟨rfl, rfl, by decide⟩

/-- C2 (amended): for every accepted string `s`, formatting the parsed
value yields a string that parses back to the same value, and
`format(parse(s)) = s` whenever `s` is itself the formatted text of an
in-range location (the canonical renderings). -/
theorem sourceLocation_format_parse_canonical (s : String) (l : SourceLocation)
    (h : sourceLocationFromStr s = .ok l) :
    sourceLocationFromStr (sourceLocationFormat l) = .ok l ∧
      ∀ l₀, locWf l₀ → s = sourceLocationFormat l₀ → sourceLocationFormat l = s := by
  have hwf := sourceLocationFromStr_wf h
  refine ⟨locWf_parse_format l hwf, ?_⟩
  intro l₀ h₀ hs
  subst hs
  have h2 := locWf_parse_format l₀ h₀
  rw [h2] at h
  injection h with h'
  rw [h']

/-- Witness for C2 at `s = "10:-1:-1"`, a canonical rendering: the round
trip reproduces `s` exactly. -/
theorem sourceLocation_format_parse_canonical_witness :
    sourceLocationFromStr "10:-1:-1" = .ok ⟨10, none, none⟩ ∧
      sourceLocationFormat ⟨10, none, none⟩ = "10:-1:-1" :=
  ⟨rfl, (sourceLocation_format_parse_canonical "10:-1:-1" ⟨10, none, none⟩ rfl).2
    ⟨10, none, none⟩ (by decide) rfl⟩

/-! ## Claim C3: the domain of `from_str` -/

/-- C3 counterexample: `"1:2:3:4"` splits into four colon-delimited
segments, not exactly three, yet parsing succeeds (the extra segment is
ignored). -/
theorem sourceLocation_parse_segments_counterexample :
    (splitColon "1:2:3:4".data).length = 4 ∧
      sourceLocationFromStr "1:2:3:4" = .ok ⟨1, some 2, some 3⟩ :=
  ⟨rfl, rfl⟩

/-- C3 (amended): parsing succeeds exactly on strings whose colon split has
at least three segments with the first parsing as a 64-bit unsigned integer
and the second and third as 64-bit signed integers; segments after the
third are ignored; every failure carries the offending string in its error
message. -/
theorem sourceLocation_parse_characterization (s : String) :
    ((∃ l, sourceLocationFromStr s = .ok l) ↔
      (∃ p0 p1 p2 rest, splitColon s.data = p0 :: p1 :: p2 :: rest ∧
        (parseUsizeChars p0).isSome = true ∧ (parseIsizeChars p1).isSome = true ∧
          (parseIsizeChars p2).isSome = true)) ∧
      ∀ e, sourceLocationFromStr s = .error e → e = s ++ " invalid source location" := by
  unfold sourceLocationFromStr
  rcases hsp : splitColon s.data with _ | ⟨p0, _ | ⟨p1, _ | ⟨p2, rest⟩⟩⟩ <;>
    simp only [hsp]
  · constructor
    · constructor
      · rintro ⟨l, hl⟩
        simp at hl
      · rintro ⟨p0, p1, p2, rest, hcons, _⟩
        simp at hcons
    · intro e he
      injection he with he'
      rw [← he']
      rfl
  · constructor
    · constructor
      · rintro ⟨l, hl⟩
        simp at hl
      · rintro ⟨p0', p1', p2', rest', hcons, _⟩
        simp at hcons
    · intro e he
      injection he with he'
      rw [← he']
      rfl
  · constructor
    · constructor
      · rintro ⟨l, hl⟩
        simp at hl
      · rintro ⟨p0', p1', p2', rest', hcons, _⟩
        simp at hcons
    · intro e he
      injection he with he'
      rw [← he']
      rfl
  · cases hu : parseUsizeChars p0 <;> simp only [hu]
    · constructor
      · constructor
        · rintro ⟨l, hl⟩
          simp at hl
        · rintro ⟨p0', p1', p2', rest', hcons, hu', _⟩
          simp only [List.cons.injEq] at hcons
          obtain ⟨h0, _⟩ := hcons
          rw [← h0, hu] at hu'
          simp at hu'
      · intro e he
        injection he with he'
        rw [← he']
        rfl
    · cases h1 : parseIsizeChars p1 <;> simp only [h1]
      · constructor
        · constructor
          · rintro ⟨l, hl⟩
            simp at hl
          · rintro ⟨p0', p1', p2', rest', hcons, _, h1', _⟩
            simp only [List.cons.injEq] at hcons
            obtain ⟨_, hh1, _⟩ := hcons
            rw [← hh1, h1] at h1'
            simp at h1'
        · intro e he
          injection he with he'
          rw [← he']
          rfl
      · cases h2 : parseIsizeChars p2 <;> simp only [h2]
        · constructor
          · constructor
            · rintro ⟨l, hl⟩
              simp at hl
            · rintro ⟨p0', p1', p2', rest', hcons, _, _, h2'⟩
              simp only [List.cons.injEq] at hcons
              obtain ⟨_, _, hh2, _⟩ := hcons
              rw [← hh2, h2] at h2'
              simp at h2'
          · intro e he
            injection he with he'
            rw [← he']
            rfl
        · constructor
          · constructor
            · intro _
              exact ⟨p0, p1, p2, rest, rfl, by rw [hu]; rfl, by rw [h1]; rfl,
                by rw [h2]; rfl⟩
            · intro _
              exact ⟨_, rfl⟩
          · intro e he
            simp at he

/-! ## Claim C10: signed/unsigned asymmetry between the segments -/

/-- C10: `2^63` is representable as an unsigned 64-bit value but exceeds
`isize::MAX`, so `"0:9223372036854775808:0"` fails to parse (the second
segment goes through `isize`), while the same numeral in the first segment
(parsed as `usize`) succeeds. -/
theorem sourceLocation_signed_unsigned_asymmetry :
    sourceLocationFromStr "0:9223372036854775808:0" =
        .error "0:9223372036854775808:0 invalid source location" ∧
      sourceLocationFromStr "9223372036854775808:0:0" =
        .ok ⟨9223372036854775808, some 0, some 0⟩ ∧
      (9223372036854775808 : Nat) ≤ USIZE_MAX ∧ ISIZE_MAX < 9223372036854775808 :=
  ⟨rfl, rfl, by decide, by decide⟩



/-! ## Lemmas: the field folds -/

theorem eqN_nil (p : PNode) : deserNodeFields [] p = finishNode p := rfl

theorem eqN_cons_ok {k : String} {v : Json} {p p' : PNode}
    (h : nodeStepF k v (deserNodeMaybeArr v) (deserNodeMaybeBody v) p = .ok p')
    (rest : List (String × Json)) :
    deserNodeFields ((k, v) :: rest) p = deserNodeFields rest p' := by
  simp only [deserNodeFields, h]

theorem eqN_cons_err {k : String} {v : Json} {p : PNode} {e : String}
    (h : nodeStepF k v (deserNodeMaybeArr v) (deserNodeMaybeBody v) p = .error e)
    (rest : List (String × Json)) :
    deserNodeFields ((k, v) :: rest) p = .error e := by
  simp only [deserNodeFields, h]

theorem eqA_nil (p : PAst) : deserAstFields [] p = finishAst p := rfl

theorem eqA_cons_ok {k : String} {v : Json} {p p' : PAst}
    (h : astStepF k v (deserNodeMaybeArr v) p = .ok p')
    (rest : List (String × Json)) :
    deserAstFields ((k, v) :: rest) p = deserAstFields rest p' := by
  simp only [deserAstFields, h]

theorem eqA_cons_err {k : String} {v : Json} {p : PAst} {e : String}
    (h : astStepF k v (deserNodeMaybeArr v) p = .error e)
    (rest : List (String × Json)) :
    deserAstFields ((k, v) :: rest) p = .error e := by
  simp only [deserAstFields, h]

example : deserNode (.obj [("id", .num 1), ("nodeType", .str "Block"), ("src", .str "0:1:0"),
      ("nodes", .arr [.obj [("id", .num 2), ("nodeType", .str "Return"), ("src", .str "1:2:0"),
        ("zzz", .bool true)]]), ("attr1", .null)]) =
    .ok (.mk 1 .Block ⟨0, some 1, some 0⟩
      [.mk 2 .Return ⟨1, some 2, some 0⟩ [] none [("zzz", .bool true)]] none [("attr1", .null)]) := rfl

example : deserNode (.obj [("id", .num 1), ("nodeType", .str "MadeUpFutureKind"), ("src", .str "0:1:0")]) =
    .error "unknown variant MadeUpFutureKind" := rfl

example : deserAst (.obj [("absolutePath", .str "a.sol"), ("id", .num 0), ("nodeType", .str "SourceUnit"),
      ("src", .str "0:5:0"), ("body", .null),
      ("exportedSymbols", .obj [("B", .arr [.num 7]), ("A", .arr [.num 3, .num 4])])]) =
    .ok ⟨"a.sol", 0, [("A", [3, 4]), ("B", [7])], .SourceUnit, ⟨0, some 5, some 0⟩, [],
      [("body", .null)]⟩ := rfl

example : serAst ⟨"a.sol", 0, [("A", [3, 4])], .SourceUnit, ⟨0, some 5, some 0⟩, [],
      [("x", .bool false)]⟩ =
    .obj [("absolutePath", .str "a.sol"), ("id", .num 0),
      ("exportedSymbols", .obj [("A", .arr [.num 3, .num 4])]),
      ("nodeType", .str "SourceUnit"), ("src", .str "0:5:0"), ("x", .bool false)] := rfl

/-- Witness for C3: `"7:8:9"` satisfies the acceptance condition and is
accepted; a rejected string's error text is the offending string followed by
the fixed suffix. -/
theorem sourceLocation_parse_characterization_witness :
    (∃ l, sourceLocationFromStr "7:8:9" = .ok l) ∧
      "xx invalid source location" = "xx" ++ " invalid source location" :=
  ⟨(sourceLocation_parse_characterization "7:8:9").1.mpr
      ⟨['7'], ['8'], ['9'], [], rfl, rfl, rfl, rfl⟩,
    (sourceLocation_parse_characterization "xx").2 "xx invalid source location" rfl⟩

/-! ## Claim C1: the `Other` fallback -/

/-- C1: the derived externally-tagged deserializer has no string fallback:
the unknown tag `"MadeUpFutureKind"` is rejected with an `unknown variant`
error (so the node object of the claim fails to parse), and
`Other("MadeUpFutureKind")` serializes to the map `{"Other": ...}`, not to
the bare string.  This contradicts the documented intent of the `Other`
variant ("An unknown AST node type"), which the spec states. -/
theorem nodeType_unknown_tag_rejected :
    nodeTypeFromJson (.str "MadeUpFutureKind") = .error "unknown variant MadeUpFutureKind" ∧
      deserNode (.obj [("id", .num 1), ("nodeType", .str "MadeUpFutureKind"),
        ("src", .str "0:1:0")]) = .error "unknown variant MadeUpFutureKind" ∧
      nodeTypeToJson (.Other "MadeUpFutureKind") = .obj [("Other", .str "MadeUpFutureKind")] :=
  ⟨rfl, rfl, rfl⟩

/-! ## Claim C8: typed attribute lookup -/

/-- C8: `Node::attribute` returns the reinterpreted value when the key is in
the open bag and the caller's deserializer accepts its value, and reports
absence — never an error — when the key is missing or the stored shape is
rejected. -/
theorem node_attribute_lookup {D : Type} (n : Node) (key : String) (dec : Json → Option D) :
    (∀ v d, lookupEntry key n.other = some v → dec v = some d → n.attr key dec = some d) ∧
      (lookupEntry key n.other = none → n.attr key dec = none) ∧
      ∀ v, lookupEntry key n.other = some v → dec v = none → n.attr key dec = none := by
  refine ⟨?_, ?_, ?_⟩
  · intro v d hv hd
    simp [Node.attr, hv, hd]
  · intro hv
    simp [Node.attr, hv]
  · intro v hv hd
    simp [Node.attr, hv, hd]

/-- Witness for C8 on a concrete node: present-and-well-shaped yields the
value, missing key and shape mismatch both yield `none`. -/
theorem node_attribute_lookup_witness :
    (Node.mk 1 .Block ⟨0, some 1, some 0⟩ [] none [("a", .num 5)]).attr "a" asUsize = some 5 ∧
      (Node.mk 1 .Block ⟨0, some 1, some 0⟩ [] none [("a", .num 5)]).attr "b" asUsize = none ∧
      (Node.mk 1 .Block ⟨0, some 1, some 0⟩ [] none [("a", .str "x")]).attr "a" asUsize = none :=
  ⟨(node_attribute_lookup _ "a" asUsize).1 (.num 5) 5 rfl rfl,
    (node_attribute_lookup _ "b" asUsize).2.1 rfl,
    (node_attribute_lookup _ "a" asUsize).2.2 (.str "x") rfl rfl⟩

theorem lookup_mapInsert_self {α : Type} (k : String) (v : α) :
    ∀ l, lookupEntry k (mapInsert k v l) = some v := by
  intro l
  induction l with
  | nil => simp [mapInsert, lookupEntry]
  | cons e rest ih =>
    obtain ⟨k', v'⟩ := e
    by_cases hlt : keyLt k k'
    · simp [mapInsert, hlt, lookupEntry]
    · by_cases heq : k = k'
      · subst heq
        simp [mapInsert, hlt, lookupEntry]
      · have hne : ¬(k' = k) := fun hh => heq hh.symm
        simp [mapInsert, hlt, heq, lookupEntry, hne, ih]

theorem lookup_mapInsert_ne {α : Type} (k0 k : String) (v : α) (hne : k0 ≠ k) :
    ∀ l, lookupEntry k0 (mapInsert k v l) = lookupEntry k0 l := by
  intro l
  have hne' : ¬(k = k0) := fun hh => hne hh.symm
  induction l with
  | nil => simp [mapInsert, lookupEntry, hne']
  | cons e rest ih =>
    obtain ⟨k', v'⟩ := e
    by_cases hlt : keyLt k k'
    · simp [mapInsert, hlt, lookupEntry, hne']
    · by_cases heq : k = k'
      · subst heq
        simp [mapInsert, hlt, lookupEntry, hne']
      · simp [mapInsert, hlt, heq, lookupEntry, ih]

theorem nodeStepF_ok {k : String} {v : Json} {r1 : Except String (List Node)}
    {r2 : Except String (Option Node)} {p p' : PNode}
    (h : nodeStepF k v r1 r2 p = .ok p') :
    p'.pother = (if isKnownNodeKey k then p.pother else mapInsert k v p.pother) ∧
      (¬(k = "id") → p'.pid = p.pid) ∧ (¬(k = "nodeType") → p'.pnt = p.pnt) ∧
      (¬(k = "src") → p'.psrc = p.psrc) ∧ (¬(k = "nodes") → p'.pnodes = p.pnodes) ∧
      (¬(k = "body") → p'.pbody = p.pbody) := by
  unfold nodeStepF at h
  repeat' split at h
  all_goals try exact Except.noConfusion h
  all_goals (injection h with h'; subst h'; simp_all [isKnownNodeKey])

theorem astStepF_ok {k : String} {v : Json} {r1 : Except String (List Node)} {p p' : PAst}
    (h : astStepF k v r1 p = .ok p') :
    p'.pother = (if isKnownAstKey k then p.pother else mapInsert k v p.pother) ∧
      (¬(k = "absolutePath") → p'.pabs = p.pabs) ∧ (¬(k = "id") → p'.pid = p.pid) ∧
      (¬(k = "exportedSymbols") → p'.psyms = p.psyms) ∧
      (¬(k = "nodeType") → p'.pnt = p.pnt) ∧ (¬(k = "src") → p'.psrc = p.psrc) ∧
      (¬(k = "nodes") → p'.pnodes = p.pnodes) := by
  unfold astStepF at h
  repeat' split at h
  all_goals try exact Except.noConfusion h
  all_goals (injection h with h'; subst h'; simp_all [isKnownAstKey])

theorem finishNode_ok {p : PNode} {n : Node} (h : finishNode p = .ok n) :
    p.pid = some n.id ∧ p.pnt = some n.node_type ∧ p.psrc = some n.src ∧
      n.nodes = p.pnodes.getD [] ∧ n.body = p.pbody.getD none ∧ n.other = p.pother := by
  unfold finishNode at h
  repeat' split at h
  all_goals try exact Except.noConfusion h
  injection h with h'
  subst h'
  simp_all [Node.id, Node.node_type, Node.src, Node.nodes, Node.body, Node.other]

theorem finishAst_ok {p : PAst} {a : Ast} (h : finishAst p = .ok a) :
    p.pabs = some a.absolute_path ∧ p.pid = some a.id ∧
      a.exported_symbols = p.psyms.getD [] ∧ p.pnt = some a.node_type ∧
      p.psrc = some a.src ∧ a.nodes = p.pnodes.getD [] ∧ a.other = p.pother := by
  unfold finishAst at h
  repeat' split at h
  all_goals try exact Except.noConfusion h
  injection h with h'
  subst h'
  simp_all

theorem invN {k : String} {v : Json} {rest : List (String × Json)} {p : PNode} {n : Node}
    (h : deserNodeFields ((k, v) :: rest) p = .ok n) :
    ∃ p', nodeStepF k v (deserNodeMaybeArr v) (deserNodeMaybeBody v) p = .ok p' ∧
      deserNodeFields rest p' = .ok n := by
  cases hs : nodeStepF k v (deserNodeMaybeArr v) (deserNodeMaybeBody v) p with
  | ok p' =>
    refine ⟨p', rfl, ?_⟩
    rwa [eqN_cons_ok hs rest] at h
  | error e =>
    rw [eqN_cons_err hs rest] at h
    exact absurd h (by simp)

theorem invA {k : String} {v : Json} {rest : List (String × Json)} {p : PAst} {a : Ast}
    (h : deserAstFields ((k, v) :: rest) p = .ok a) :
    ∃ p', astStepF k v (deserNodeMaybeArr v) p = .ok p' ∧
      deserAstFields rest p' = .ok a := by
  cases hs : astStepF k v (deserNodeMaybeArr v) p with
  | ok p' =>
    refine ⟨p', rfl, ?_⟩
    rwa [eqA_cons_ok hs rest] at h
  | error e =>
    rw [eqA_cons_err hs rest] at h
    exact absurd h (by simp)

theorem deserNodeFields_other :
    ∀ (entries : List (String × Json)) (p : PNode) (n : Node),
      deserNodeFields entries p = .ok n →
      n.other = List.foldl
        (fun acc e => if isKnownNodeKey e.1 then acc else mapInsert e.1 e.2 acc)
        p.pother entries := by
  intro entries
  induction entries with
  | nil =>
    intro p n h
    rw [eqN_nil] at h
    rw [(finishNode_ok h).2.2.2.2.2]
    rfl
  | cons e rest ih =>
    obtain ⟨k, v⟩ := e
    intro p n h
    obtain ⟨p', hs, hrest⟩ := invN h
    obtain ⟨hoth, _⟩ := nodeStepF_ok hs
    rw [ih p' n hrest, hoth]
    by_cases hk : isKnownNodeKey k <;> simp [hk, List.foldl]

theorem deserAstFields_other :
    ∀ (entries : List (String × Json)) (p : PAst) (a : Ast),
      deserAstFields entries p = .ok a →
      a.other = List.foldl
        (fun acc e => if isKnownAstKey e.1 then acc else mapInsert e.1 e.2 acc)
        p.pother entries := by
  intro entries
  induction entries with
  | nil =>
    intro p a h
    rw [eqA_nil] at h
    rw [(finishAst_ok h).2.2.2.2.2.2]
    rfl
  | cons e rest ih =>
    obtain ⟨k, v⟩ := e
    intro p a h
    obtain ⟨p', hs, hrest⟩ := invA h
    obtain ⟨hoth, _⟩ := astStepF_ok hs
    rw [ih p' a hrest, hoth]
    by_cases hk : isKnownAstKey k <;> simp [hk, List.foldl]

theorem deserNodeFields_requires :
    ∀ (entries : List (String × Json)) (p : PNode) (n : Node),
      deserNodeFields entries p = .ok n →
      (p.pid = none → ∃ v, ("id", v) ∈ entries) ∧
        (p.pnt = none → ∃ v, ("nodeType", v) ∈ entries) ∧
        (p.psrc = none → ∃ v, ("src", v) ∈ entries) ∧
        (p.pnodes = none → lookupEntry "nodes" entries = none → n.nodes = []) ∧
        (p.pbody = none → lookupEntry "body" entries = none → n.body = none) := by
  intro entries
  induction entries with
  | nil =>
    intro p n h
    rw [eqN_nil] at h
    obtain ⟨h1, h2, h3, h4, h5, _⟩ := finishNode_ok h
    refine ⟨?_, ?_, ?_, ?_, ?_⟩
    · intro hq
      rw [hq] at h1
      exact absurd h1 (by simp)
    · intro hq
      rw [hq] at h2
      exact absurd h2 (by simp)
    · intro hq
      rw [hq] at h3
      exact absurd h3 (by simp)
    · intro hq _
      rw [hq] at h4
      simpa using h4
    · intro hq _
      rw [hq] at h5
      simpa using h5
  | cons e rest ih =>
    obtain ⟨k, v⟩ := e
    intro p n h
    obtain ⟨p', hs, hrest⟩ := invN h
    obtain ⟨_, hid, hnt, hsrc, hnds, hbd⟩ := nodeStepF_ok hs
    obtain ⟨i1, i2, i3, i4, i5⟩ := ih p' n hrest
    refine ⟨?_, ?_, ?_, ?_, ?_⟩
    · intro hq
      by_cases hk : k = "id"
      · exact ⟨v, by rw [hk]; exact List.mem_cons_self _ _⟩
      · obtain ⟨w, hw⟩ := i1 (by rw [hid hk]; exact hq)
        exact ⟨w, List.mem_cons_of_mem _ hw⟩
    · intro hq
      by_cases hk : k = "nodeType"
      · exact ⟨v, by rw [hk]; exact List.mem_cons_self _ _⟩
      · obtain ⟨w, hw⟩ := i2 (by rw [hnt hk]; exact hq)
        exact ⟨w, List.mem_cons_of_mem _ hw⟩
    · intro hq
      by_cases hk : k = "src"
      · exact ⟨v, by rw [hk]; exact List.mem_cons_self _ _⟩
      · obtain ⟨w, hw⟩ := i3 (by rw [hsrc hk]; exact hq)
        exact ⟨w, List.mem_cons_of_mem _ hw⟩
    · intro hq hlk
      by_cases hk : k = "nodes"
      · rw [hk] at hlk
        simp [lookupEntry] at hlk
      · have hlk' : lookupEntry "nodes" rest = none := by
          simpa [lookupEntry, hk] using hlk
        exact i4 (by rw [hnds hk]; exact hq) hlk'
    · intro hq hlk
      by_cases hk : k = "body"
      · rw [hk] at hlk
        simp [lookupEntry] at hlk
      · have hlk' : lookupEntry "body" rest = none := by
          simpa [lookupEntry, hk] using hlk
        exact i5 (by rw [hbd hk]; exact hq) hlk'

theorem deserAstFields_requires :
    ∀ (entries : List (String × Json)) (p : PAst) (a : Ast),
      deserAstFields entries p = .ok a →
      (p.pabs = none → ∃ v, ("absolutePath", v) ∈ entries) ∧
        (p.pid = none → ∃ v, ("id", v) ∈ entries) ∧
        (p.pnt = none → ∃ v, ("nodeType", v) ∈ entries) ∧
        (p.psrc = none → ∃ v, ("src", v) ∈ entries) ∧
        (p.psyms = none → lookupEntry "exportedSymbols" entries = none →
          a.exported_symbols = []) ∧
        (p.pnodes = none → lookupEntry "nodes" entries = none → a.nodes = []) := by
  intro entries
  induction entries with
  | nil =>
    intro p a h
    rw [eqA_nil] at h
    obtain ⟨h0, h1, h2, h3, h4, h5, _⟩ := finishAst_ok h
    refine ⟨?_, ?_, ?_, ?_, ?_, ?_⟩
    · intro hq
      rw [hq] at h0
      exact absurd h0 (by simp)
    · intro hq
      rw [hq] at h1
      exact absurd h1 (by simp)
    · intro hq
      rw [hq] at h3
      exact absurd h3 (by simp)
    · intro hq
      rw [hq] at h4
      exact absurd h4 (by simp)
    · intro hq _
      rw [hq] at h2
      simpa using h2
    · intro hq _
      rw [hq] at h5
      simpa using h5
  | cons e rest ih =>
    obtain ⟨k, v⟩ := e
    intro p a h
    obtain ⟨p', hs, hrest⟩ := invA h
    obtain ⟨_, habs, hid, hsyms, hnt, hsrc, hnds⟩ := astStepF_ok hs
    obtain ⟨i0, i1, i2, i3, i4, i5⟩ := ih p' a hrest
    refine ⟨?_, ?_, ?_, ?_, ?_, ?_⟩
    · intro hq
      by_cases hk : k = "absolutePath"
      · exact ⟨v, by rw [hk]; exact List.mem_cons_self _ _⟩
      · obtain ⟨w, hw⟩ := i0 (by rw [habs hk]; exact hq)
        exact ⟨w, List.mem_cons_of_mem _ hw⟩
    · intro hq
      by_cases hk : k = "id"
      · exact ⟨v, by rw [hk]; exact List.mem_cons_self _ _⟩
      · obtain ⟨w, hw⟩ := i1 (by rw [hid hk]; exact hq)
        exact ⟨w, List.mem_cons_of_mem _ hw⟩
    · intro hq
      by_cases hk : k = "nodeType"
      · exact ⟨v, by rw [hk]; exact List.mem_cons_self _ _⟩
      · obtain ⟨w, hw⟩ := i2 (by rw [hnt hk]; exact hq)
        exact ⟨w, List.mem_cons_of_mem _ hw⟩
    · intro hq
      by_cases hk : k = "src"
      · exact ⟨v, by rw [hk]; exact List.mem_cons_self _ _⟩
      · obtain ⟨w, hw⟩ := i3 (by rw [hsrc hk]; exact hq)
        exact ⟨w, List.mem_cons_of_mem _ hw⟩
    · intro hq hlk
      by_cases hk : k = "exportedSymbols"
      · rw [hk] at hlk
        simp [lookupEntry] at hlk
      · have hlk' : lookupEntry "exportedSymbols" rest = none := by
          simpa [lookupEntry, hk] using hlk
        exact i4 (by rw [hsyms hk]; exact hq) hlk'
    · intro hq hlk
      by_cases hk : k = "nodes"
      · rw [hk] at hlk
        simp [lookupEntry] at hlk
      · have hlk' : lookupEntry "nodes" rest = none := by
          simpa [lookupEntry, hk] using hlk
        exact i5 (by rw [hnds hk]; exact hq) hlk'

theorem eqL_nil : deserNodeList [] = .ok [] := rfl

theorem eqL_cons_err {x : Json} {e : String} (h : deserNode x = .error e)
    (xs : List Json) : deserNodeList (x :: xs) = .error e := by
  simp only [deserNodeList, h]

theorem eqL_cons_ok {x : Json} {n : Node} {xs : List Json} {ns : List Node}
    (h1 : deserNode x = .ok n) (h2 : deserNodeList xs = .ok ns) :
    deserNodeList (x :: xs) = .ok (n :: ns) := by
  simp only [deserNodeList, h1, h2]

theorem deserNodeMaybeArr_arr (xs : List Json) :
    deserNodeMaybeArr (.arr xs) = deserNodeList xs := by
  simp only [deserNodeMaybeArr]

theorem deserNode_obj (entries : List (String × Json)) :
    deserNode (.obj entries) = deserNodeFields entries ⟨none, none, none, none, none, []⟩ := by
  simp only [deserNode]

theorem deserAst_obj (entries : List (String × Json)) :
    deserAst (.obj entries) = deserAstFields entries ⟨none, none, none, none, none, none, []⟩ := by
  simp only [deserAst]

theorem deserNodeMaybeBody_err {c : Json} {e : String} (hnn : c ≠ .null)
    (h : deserNode c = .error e) : deserNodeMaybeBody c = .error e := by
  cases c with
  | null => exact absurd rfl hnn
  | obj entries =>
    rw [deserNode_obj] at h
    simp only [deserNodeMaybeBody, h]
  | bool b =>
    simp only [deserNode] at h
    injection h with h'
    rw [← h']
    rfl
  | num n =>
    simp only [deserNode] at h
    injection h with h'
    rw [← h']
    rfl
  | str s =>
    simp only [deserNode] at h
    injection h with h'
    rw [← h']
    rfl
  | arr xs =>
    simp only [deserNode] at h
    injection h with h'
    rw [← h']
    rfl

theorem nodeStepF_id_fails (v : Json) (r1 : Except String (List Node))
    (r2 : Except String (Option Node)) (p : PNode) (h : asUsize v = none) :
    ∃ e, nodeStepF "id" v r1 r2 p = .error e := by
  obtain ⟨a, b, c, d, e0, f⟩ := p
  unfold nodeStepF
  rw [if_pos rfl]
  cases a with
  | some x => exact ⟨_, rfl⟩
  | none =>
    rw [h]
    exact ⟨_, rfl⟩

theorem nodeStepF_nt_fails (v : Json) (r1 : Except String (List Node))
    (r2 : Except String (Option Node)) (p : PNode) {e1 : String}
    (h : nodeTypeFromJson v = .error e1) :
    ∃ e, nodeStepF "nodeType" v r1 r2 p = .error e := by
  obtain ⟨a, b, c, d, e0, f⟩ := p
  unfold nodeStepF
  rw [if_neg (by decide), if_pos rfl]
  cases b with
  | some x => exact ⟨_, rfl⟩
  | none =>
    rw [h]
    exact ⟨_, rfl⟩

theorem nodeStepF_src_fails (s : String) (r1 : Except String (List Node))
    (r2 : Except String (Option Node)) (p : PNode) {e1 : String}
    (h : sourceLocationFromStr s = .error e1) :
    ∃ e, nodeStepF "src" (.str s) r1 r2 p = .error e := by
  obtain ⟨a, b, c, d, e0, f⟩ := p
  unfold nodeStepF
  rw [if_neg (by decide), if_neg (by decide), if_pos rfl]
  cases c with
  | some x => exact ⟨_, rfl⟩
  | none =>
    dsimp only
    rw [h]
    exact ⟨_, rfl⟩

theorem nodeStepF_nodes_fails (v : Json) (r2 : Except String (Option Node))
    (p : PNode) (e1 : String) :
    ∃ e, nodeStepF "nodes" v (.error e1) r2 p = .error e := by
  obtain ⟨a, b, c, d, e0, f⟩ := p
  unfold nodeStepF
  rw [if_neg (by decide), if_neg (by decide), if_neg (by decide), if_pos rfl]
  cases d with
  | some x => exact ⟨_, rfl⟩
  | none => exact ⟨_, rfl⟩

theorem nodeStepF_body_fails (v : Json) (r1 : Except String (List Node))
    (p : PNode) (e1 : String) :
    ∃ e, nodeStepF "body" v r1 (.error e1) p = .error e := by
  obtain ⟨a, b, c, d, e0, f⟩ := p
  unfold nodeStepF
  rw [if_neg (by decide), if_neg (by decide), if_neg (by decide), if_neg (by decide),
    if_pos rfl]
  cases e0 with
  | some x => exact ⟨_, rfl⟩
  | none => exact ⟨_, rfl⟩

theorem astStepF_nodes_fails (v : Json) (p : PAst) (e1 : String) :
    ∃ e, astStepF "nodes" v (.error e1) p = .error e := by
  obtain ⟨a, b, c, d, e0, f, g⟩ := p
  unfold astStepF
  rw [if_neg (by decide), if_neg (by decide), if_neg (by decide), if_neg (by decide),
    if_neg (by decide), if_pos rfl]
  cases f with
  | some x => exact ⟨_, rfl⟩
  | none => exact ⟨_, rfl⟩

theorem deserNodeFields_fails_of_mem :
    ∀ (entries : List (String × Json)) (k0 : String) (v0 : Json) (p : PNode),
      (k0, v0) ∈ entries →
      (∀ q, ∃ e, nodeStepF k0 v0 (deserNodeMaybeArr v0) (deserNodeMaybeBody v0) q = .error e) →
      ∃ e, deserNodeFields entries p = .error e := by
  intro entries
  induction entries with
  | nil =>
    intro k0 v0 p hm _
    simp at hm
  | cons e rest ih =>
    obtain ⟨k, v⟩ := e
    intro k0 v0 p hm hbad
    rcases List.mem_cons.mp hm with hh | hh
    · injection hh with hk hv
      subst hk
      subst hv
      obtain ⟨e1, he⟩ := hbad p
      exact ⟨e1, eqN_cons_err he rest⟩
    · cases hs : nodeStepF k v (deserNodeMaybeArr v) (deserNodeMaybeBody v) p with
      | error e1 => exact ⟨e1, eqN_cons_err hs rest⟩
      | ok p' =>
        obtain ⟨e1, he⟩ := ih k0 v0 p' hh hbad
        exact ⟨e1, by rw [eqN_cons_ok hs rest]; exact he⟩

theorem deserAstFields_fails_of_mem :
    ∀ (entries : List (String × Json)) (k0 : String) (v0 : Json) (p : PAst),
      (k0, v0) ∈ entries →
      (∀ q, ∃ e, astStepF k0 v0 (deserNodeMaybeArr v0) q = .error e) →
      ∃ e, deserAstFields entries p = .error e := by
  intro entries
  induction entries with
  | nil =>
    intro k0 v0 p hm _
    simp at hm
  | cons e rest ih =>
    obtain ⟨k, v⟩ := e
    intro k0 v0 p hm hbad
    rcases List.mem_cons.mp hm with hh | hh
    · injection hh with hk hv
      subst hk
      subst hv
      obtain ⟨e1, he⟩ := hbad p
      exact ⟨e1, eqA_cons_err he rest⟩
    · cases hs : astStepF k v (deserNodeMaybeArr v) p with
      | error e1 => exact ⟨e1, eqA_cons_err hs rest⟩
      | ok p' =>
        obtain ⟨e1, he⟩ := ih k0 v0 p' hh hbad
        exact ⟨e1, by rw [eqA_cons_ok hs rest]; exact he⟩

theorem deserNodeList_fails_of_mem :
    ∀ (xs : List Json) (c : Json) (e0 : String), c ∈ xs → deserNode c = .error e0 →
      ∃ e, deserNodeList xs = .error e := by
  intro xs
  induction xs with
  | nil =>
    intro c e0 hm _
    simp at hm
  | cons x rest ih =>
    intro c e0 hm hc
    rcases List.mem_cons.mp hm with hh | hh
    · subst hh
      exact ⟨e0, eqL_cons_err hc rest⟩
    · cases hx : deserNode x with
      | error e1 => exact ⟨e1, eqL_cons_err hx rest⟩
      | ok n =>
        cases hr : deserNodeList rest with
        | error e1 => exact ⟨e1, by simp only [deserNodeList, hx, hr]⟩
        | ok ns =>
          obtain ⟨e1, he⟩ := ih c e0 hh hc
          rw [hr] at he
          exact absurd he (by simp)

theorem lookupEntry_none_not_mem {α : Type} {k : String} :
    ∀ {l : List (String × α)}, lookupEntry k l = none → ∀ v, (k, v) ∉ l := by
  intro l
  induction l with
  | nil =>
    intro _ v hm
    simp at hm
  | cons e rest ih =>
    obtain ⟨k', v'⟩ := e
    intro h v hm
    by_cases hk : k' = k
    · simp [lookupEntry, hk] at h
    · rcases List.mem_cons.mp hm with hh | hh
      · injection hh with h1 h2
        exact hk h1.symm
      · simp only [lookupEntry, if_neg hk] at h
        exact ih h v hh

theorem lookup_foldl_skip (known : String → Bool) (k : String) :
    ∀ (entries : List (String × Json)) (acc : List (String × Json)),
      k ∉ entries.map Prod.fst →
      lookupEntry k (List.foldl
        (fun acc e => if known e.1 then acc else mapInsert e.1 e.2 acc) acc entries) =
        lookupEntry k acc := by
  intro entries
  induction entries with
  | nil => intro acc _; rfl
  | cons e rest ih =>
    obtain ⟨k1, v1⟩ := e
    intro acc hnm
    simp only [List.map_cons, List.mem_cons] at hnm
    push_neg at hnm
    obtain ⟨hk1, hrest⟩ := hnm
    simp only [List.foldl_cons]
    by_cases hkn : known k1
    · rw [if_pos hkn]
      exact ih acc (by simpa using hrest)
    · rw [if_neg hkn]
      rw [ih _ (by simpa using hrest)]
      exact lookup_mapInsert_ne k k1 v1 hk1 acc

theorem lookup_foldl_known (known : String → Bool) (k : String) (hk : known k = true) :
    ∀ (entries : List (String × Json)) (acc : List (String × Json)),
      lookupEntry k (List.foldl
        (fun acc e => if known e.1 then acc else mapInsert e.1 e.2 acc) acc entries) =
        lookupEntry k acc := by
  intro entries
  induction entries with
  | nil => intro acc; rfl
  | cons e rest ih =>
    obtain ⟨k1, v1⟩ := e
    intro acc
    simp only [List.foldl_cons]
    by_cases hkn : known k1
    · rw [if_pos hkn]
      exact ih acc
    · rw [if_neg hkn]
      rw [ih _]
      refine lookup_mapInsert_ne k k1 v1 ?_ acc
      intro hkk
      subst hkk
      simp [hk] at hkn

theorem lookup_foldl_mem (known : String → Bool) :
    ∀ (entries : List (String × Json)) (acc : List (String × Json)) (k : String) (v : Json),
      (entries.map Prod.fst).Nodup → (k, v) ∈ entries → known k = false →
      lookupEntry k (List.foldl
        (fun acc e => if known e.1 then acc else mapInsert e.1 e.2 acc) acc entries) =
        some v := by
  intro entries
  induction entries with
  | nil =>
    intro acc k v _ hm _
    simp at hm
  | cons e rest ih =>
    obtain ⟨k1, v1⟩ := e
    intro acc k v hnd hm hkn
    simp only [List.map_cons, List.nodup_cons] at hnd
    obtain ⟨hk1, hndrest⟩ := hnd
    simp only [List.foldl_cons]
    rcases List.mem_cons.mp hm with hh | hh
    · injection hh with h1 h2
      subst h1
      subst h2
      rw [if_neg (by simp [hkn])]
      rw [lookup_foldl_skip known k rest _ hk1]
      exact lookup_mapInsert_self k v acc
    · have hkk1 : k1 ≠ k := by
        intro hq
        subst hq
        exact hk1 (by simpa using List.mem_map_of_mem Prod.fst hh)
      by_cases hknown : known k1
      · rw [if_pos hknown]
        exact ih acc k v hndrest hh hkn
      · rw [if_neg hknown]
        exact ih _ k v hndrest hh hkn

/-! ## Claim C7: the open attribute bag -/

/-- C7: for every successfully parsed `Node` (and `Ast` root), the open bag
`other` contains none of the keys captured by that struct's typed fields,
and — for an object with distinct keys — every entry under any other key is
retained structurally in `other`. -/
theorem node_open_bag_invariant :
    (∀ (entries : List (String × Json)) (n : Node), deserNode (.obj entries) = .ok n →
      (∀ k, isKnownNodeKey k = true → lookupEntry k n.other = none) ∧
        ((entries.map Prod.fst).Nodup →
          ∀ k v, (k, v) ∈ entries → isKnownNodeKey k = false →
            lookupEntry k n.other = some v)) ∧
      ∀ (entries : List (String × Json)) (a : Ast), deserAst (.obj entries) = .ok a →
        (∀ k, isKnownAstKey k = true → lookupEntry k a.other = none) ∧
          ((entries.map Prod.fst).Nodup →
            ∀ k v, (k, v) ∈ entries → isKnownAstKey k = false →
              lookupEntry k a.other = some v) := by
  constructor
  · intro entries n h
    rw [deserNode_obj] at h
    have hoth := deserNodeFields_other entries _ n h
    constructor
    · intro k hk
      rw [hoth, lookup_foldl_known isKnownNodeKey k hk entries []]
      rfl
    · intro hnd k v hm hk
      rw [hoth]
      exact lookup_foldl_mem isKnownNodeKey entries [] k v hnd hm hk
  · intro entries a h
    rw [deserAst_obj] at h
    have hoth := deserAstFields_other entries _ a h
    constructor
    · intro k hk
      rw [hoth, lookup_foldl_known isKnownAstKey k hk entries []]
      rfl
    · intro hnd k v hm hk
      rw [hoth]
      exact lookup_foldl_mem isKnownAstKey entries [] k v hnd hm hk

/-- Witness for C7 on a concrete node object with one unmodeled key. -/
theorem node_open_bag_invariant_witness :
    lookupEntry "id"
        (Node.mk 1 .Block ⟨0, some 1, some 0⟩ [] none [("zz", .bool true)]).other = none ∧
      lookupEntry "zz"
        (Node.mk 1 .Block ⟨0, some 1, some 0⟩ [] none [("zz", .bool true)]).other =
        some (.bool true) :=
  ⟨(node_open_bag_invariant.1
      [("id", .num 1), ("nodeType", .str "Block"), ("src", .str "0:1:0"), ("zz", .bool true)]
      (Node.mk 1 .Block ⟨0, some 1, some 0⟩ [] none [("zz", .bool true)]) rfl).1 "id" rfl,
    (node_open_bag_invariant.1
      [("id", .num 1), ("nodeType", .str "Block"), ("src", .str "0:1:0"), ("zz", .bool true)]
      (Node.mk 1 .Block ⟨0, some 1, some 0⟩ [] none [("zz", .bool true)]) rfl).2
      (by decide) "zz" (.bool true) (by simp) rfl⟩

/-! ## Claim C6: all-or-nothing parsing -/

/-- C6: a missing required field (`id`, `nodeType`, `src` on any node;
additionally `absolutePath` on the root), or a required field of the wrong
shape, or a failing child anywhere under `nodes` or `body`, makes the whole
parse return a single error — there is no partial tree. -/
theorem ast_parse_all_or_nothing :
    (∀ (entries : List (String × Json)) (k : String), k ∈ ["id", "nodeType", "src"] →
        lookupEntry k entries = none → ∃ e, deserNode (.obj entries) = .error e) ∧
      (∀ (entries : List (String × Json)) (k : String),
        k ∈ ["absolutePath", "id", "nodeType", "src"] →
        lookupEntry k entries = none → ∃ e, deserAst (.obj entries) = .error e) ∧
      (∀ (entries : List (String × Json)) (v : Json), ("id", v) ∈ entries →
        asUsize v = none → ∃ e, deserNode (.obj entries) = .error e) ∧
      (∀ (entries : List (String × Json)) (v : Json) (e1 : String),
        ("nodeType", v) ∈ entries → nodeTypeFromJson v = .error e1 →
        ∃ e, deserNode (.obj entries) = .error e) ∧
      (∀ (entries : List (String × Json)) (s : String) (e1 : String),
        ("src", .str s) ∈ entries → sourceLocationFromStr s = .error e1 →
        ∃ e, deserNode (.obj entries) = .error e) ∧
      (∀ (entries : List (String × Json)) (xs : List Json) (c : Json) (e1 : String),
        ("nodes", .arr xs) ∈ entries → c ∈ xs → deserNode c = .error e1 →
        ∃ e, deserNode (.obj entries) = .error e) ∧
      (∀ (entries : List (String × Json)) (v : Json) (e1 : String),
        ("body", v) ∈ entries → v ≠ .null → deserNode v = .error e1 →
        ∃ e, deserNode (.obj entries) = .error e) ∧
      ∀ (entries : List (String × Json)) (xs : List Json) (c : Json) (e1 : String),
        ("nodes", .arr xs) ∈ entries → c ∈ xs → deserNode c = .error e1 →
        ∃ e, deserAst (.obj entries) = .error e := by
  refine ⟨?_, ?_, ?_, ?_, ?_, ?_, ?_, ?_⟩
  · intro entries k hk hlk
    cases hres : deserNode (.obj entries) with
    | error e => exact ⟨e, rfl⟩
    | ok n =>
      exfalso
      rw [deserNode_obj] at hres
      obtain ⟨r1, r2, r3, _⟩ := deserNodeFields_requires entries _ n hres
      have hnm := lookupEntry_none_not_mem hlk
      simp only [List.mem_cons, List.not_mem_nil, or_false] at hk
      rcases hk with hk | hk | hk
      all_goals subst hk
      · obtain ⟨v, hv⟩ := r1 rfl
        exact hnm v hv
      · obtain ⟨v, hv⟩ := r2 rfl
        exact hnm v hv
      · obtain ⟨v, hv⟩ := r3 rfl
        exact hnm v hv
  · intro entries k hk hlk
    cases hres : deserAst (.obj entries) with
    | error e => exact ⟨e, rfl⟩
    | ok a =>
      exfalso
      rw [deserAst_obj] at hres
      obtain ⟨r0, r1, r2, r3, _⟩ := deserAstFields_requires entries _ a hres
      have hnm := lookupEntry_none_not_mem hlk
      simp only [List.mem_cons, List.not_mem_nil, or_false] at hk
      rcases hk with hk | hk | hk | hk
      all_goals subst hk
      · obtain ⟨v, hv⟩ := r0 rfl
        exact hnm v hv
      · obtain ⟨v, hv⟩ := r1 rfl
        exact hnm v hv
      · obtain ⟨v, hv⟩ := r2 rfl
        exact hnm v hv
      · obtain ⟨v, hv⟩ := r3 rfl
        exact hnm v hv
  · intro entries v hm hbad
    rw [deserNode_obj]
    exact deserNodeFields_fails_of_mem entries "id" v _ hm
      (fun q => nodeStepF_id_fails v _ _ q hbad)
  · intro entries v e1 hm hbad
    rw [deserNode_obj]
    exact deserNodeFields_fails_of_mem entries "nodeType" v _ hm
      (fun q => nodeStepF_nt_fails v _ _ q hbad)
  · intro entries s e1 hm hbad
    rw [deserNode_obj]
    exact deserNodeFields_fails_of_mem entries "src" (.str s) _ hm
      (fun q => nodeStepF_src_fails s _ _ q hbad)
  · intro entries xs c e1 hm hc hcfail
    rw [deserNode_obj]
    obtain ⟨e2, hL⟩ := deserNodeList_fails_of_mem xs c e1 hc hcfail
    have harr : deserNodeMaybeArr (.arr xs) = .error e2 := by
      rw [deserNodeMaybeArr_arr]
      exact hL
    refine deserNodeFields_fails_of_mem entries "nodes" (.arr xs) _ hm ?_
    intro q
    rw [harr]
    exact nodeStepF_nodes_fails _ _ q e2
  · intro entries v e1 hm hnn hbfail
    rw [deserNode_obj]
    have hb : deserNodeMaybeBody v = .error e1 := deserNodeMaybeBody_err hnn hbfail
    refine deserNodeFields_fails_of_mem entries "body" v _ hm ?_
    intro q
    rw [hb]
    exact nodeStepF_body_fails _ _ q e1
  · intro entries xs c e1 hm hc hcfail
    rw [deserAst_obj]
    obtain ⟨e2, hL⟩ := deserNodeList_fails_of_mem xs c e1 hc hcfail
    have harr : deserNodeMaybeArr (.arr xs) = .error e2 := by
      rw [deserNodeMaybeArr_arr]
      exact hL
    refine deserAstFields_fails_of_mem entries "nodes" (.arr xs) _ hm ?_
    intro q
    rw [harr]
    exact astStepF_nodes_fails _ q e2

/-- Witness for C6: a node object missing `id`, a root missing
`absolutePath`, and a root whose nested child (inside `nodes`) is missing a
required field all fail to parse. -/
theorem ast_parse_all_or_nothing_witness :
    (∃ e, deserNode (.obj [("nodeType", .str "Block"), ("src", .str "0:0:0")]) = .error e) ∧
      (∃ e, deserAst (.obj [("id", .num 0)]) = .error e) ∧
      ∃ e, deserAst (.obj [("absolutePath", .str "a.sol"), ("id", .num 0),
        ("nodeType", .str "SourceUnit"), ("src", .str "0:0:0"),
        ("nodes", .arr [.obj [("nodeType", .str "Block")]])]) = .error e :=
  ⟨ast_parse_all_or_nothing.1 _ "id" (by simp) rfl,
    ast_parse_all_or_nothing.2.1 _ "absolutePath" (by simp) rfl,
    ast_parse_all_or_nothing.2.2.2.2.2.2.2 _ [Json.obj [("nodeType", Json.str "Block")]]
      (.obj [("nodeType", .str "Block")]) "missing field id" (by simp) (by simp) rfl⟩

theorem astStepF_set_psyms {k : String} {v : Json} {r : Except String (List Node)}
    {p p' : PAst} (hk : ¬(k = "exportedSymbols")) (h : astStepF k v r p = .ok p')
    (s2 : Option (List (String × List Nat))) :
    astStepF k v r { p with psyms := s2 } = .ok { p' with psyms := s2 } := by
  unfold astStepF at h ⊢
  repeat' split at h
  all_goals try exact Except.noConfusion h
  all_goals (injection h with h'; subst h'; simp_all)

theorem nodeStepF_set_pnodes {k : String} {v : Json} {r1 : Except String (List Node)}
    {r2 : Except String (Option Node)} {p p' : PNode} (hk : ¬(k = "nodes"))
    (h : nodeStepF k v r1 r2 p = .ok p') (s2 : Option (List Node)) :
    nodeStepF k v r1 r2 { p with pnodes := s2 } = .ok { p' with pnodes := s2 } := by
  unfold nodeStepF at h ⊢
  repeat' split at h
  all_goals try exact Except.noConfusion h
  all_goals (injection h with h'; subst h'; simp_all)

theorem deserAstFields_drop_psyms :
    ∀ (entries : List (String × Json)) (p : PAst) (syms : List (String × List Nat)) (a : Ast),
      p.psyms = some syms → deserAstFields entries p = .ok a →
      deserAstFields entries { p with psyms := none } =
        .ok ⟨a.absolute_path, a.id, [], a.node_type, a.src, a.nodes, a.other⟩ := by
  intro entries
  induction entries with
  | nil =>
    intro p syms a hp h
    obtain ⟨a0, b0, c0, d0, e0, f0, g0⟩ := p
    rw [eqA_nil] at h ⊢
    obtain ⟨h0, h1, h2, h3, h4, h5, h6⟩ := finishAst_ok h
    simp only at h0 h1 h3 h4 h5 h6 hp
    subst h0
    subst h1
    subst h3
    subst h4
    dsimp only
    rw [h5, h6]
    rfl
  | cons e rest ih =>
    obtain ⟨k, v⟩ := e
    intro p syms a hp h
    obtain ⟨p', hs, hrest⟩ := invA h
    have hk : ¬(k = "exportedSymbols") := by
      intro hq
      subst hq
      unfold astStepF at hs
      rw [if_neg (by decide), if_neg (by decide), if_pos rfl, hp] at hs
      exact Except.noConfusion hs
    have hs2 := astStepF_set_psyms hk hs none
    have hp' : p'.psyms = some syms := by
      rw [(astStepF_ok hs).2.2.2.1 hk]
      exact hp
    rw [eqA_cons_ok hs2 rest]
    exact ih p' syms a hp' hrest

theorem deserAstFields_remove_syms :
    ∀ (pre : List (String × Json)) (v : Json) (post : List (String × Json)) (p : PAst) (a : Ast),
      deserAstFields (pre ++ ("exportedSymbols", v) :: post) p = .ok a →
      deserAstFields (pre ++ post) p =
        .ok ⟨a.absolute_path, a.id, [], a.node_type, a.src, a.nodes, a.other⟩ := by
  intro pre
  induction pre with
  | nil =>
    intro v post p a h
    simp only [List.nil_append] at h ⊢
    obtain ⟨a0, b0, c0, d0, e0, f0, g0⟩ := p
    obtain ⟨p', hs, hrest⟩ := invA h
    have hinv : ∃ syms, c0 = none ∧
        p' = ⟨a0, b0, some syms, d0, e0, f0, g0⟩ := by
      unfold astStepF at hs
      rw [if_neg (by decide), if_neg (by decide), if_pos rfl] at hs
      cases c0 with
      | some x => exact Except.noConfusion hs
      | none =>
        cases hd : deserExportedSymbols v with
        | none =>
          rw [hd] at hs
          exact Except.noConfusion hs
        | some syms =>
          rw [hd] at hs
          injection hs with hs'
          exact ⟨syms, rfl, hs'.symm⟩
    obtain ⟨syms, hc0, hp'⟩ := hinv
    subst hc0
    subst hp'
    exact deserAstFields_drop_psyms post ⟨a0, b0, some syms, d0, e0, f0, g0⟩ syms a rfl hrest
  | cons e rest ih =>
    obtain ⟨k, w⟩ := e
    intro v post p a h
    rw [List.cons_append] at h ⊢
    obtain ⟨p', hs, hrest⟩ := invA h
    rw [eqA_cons_ok hs]
    exact ih v post p' a hrest

theorem deserNodeFields_drop_pnodes :
    ∀ (entries : List (String × Json)) (p : PNode) (ns : List Node) (n : Node),
      p.pnodes = some ns → deserNodeFields entries p = .ok n →
      deserNodeFields entries { p with pnodes := none } =
        .ok (.mk n.id n.node_type n.src [] n.body n.other) := by
  intro entries
  induction entries with
  | nil =>
    intro p ns n hp h
    obtain ⟨a0, b0, c0, d0, e0, f0⟩ := p
    rw [eqN_nil] at h ⊢
    obtain ⟨h0, h1, h2, h3, h4, h5⟩ := finishNode_ok h
    simp only at h0 h1 h2 h3 h4 h5 hp
    subst h0
    subst h1
    subst h2
    dsimp only
    rw [h4, h5]
    rfl
  | cons e rest ih =>
    obtain ⟨k, v⟩ := e
    intro p ns n hp h
    obtain ⟨p', hs, hrest⟩ := invN h
    have hk : ¬(k = "nodes") := by
      intro hq
      subst hq
      unfold nodeStepF at hs
      rw [if_neg (by decide), if_neg (by decide), if_neg (by decide), if_pos rfl, hp] at hs
      exact Except.noConfusion hs
    have hs2 := nodeStepF_set_pnodes hk hs none
    have hp' : p'.pnodes = some ns := by
      rw [(nodeStepF_ok hs).2.2.2.2.1 hk]
      exact hp
    rw [eqN_cons_ok hs2 rest]
    exact ih p' ns n hp' hrest

theorem deserNodeFields_remove_nodes :
    ∀ (pre : List (String × Json)) (v : Json) (post : List (String × Json)) (p : PNode) (n : Node),
      deserNodeFields (pre ++ ("nodes", v) :: post) p = .ok n →
      deserNodeFields (pre ++ post) p =
        .ok (.mk n.id n.node_type n.src [] n.body n.other) := by
  intro pre
  induction pre with
  | nil =>
    intro v post p n h
    simp only [List.nil_append] at h ⊢
    obtain ⟨a0, b0, c0, d0, e0, f0⟩ := p
    obtain ⟨p', hs, hrest⟩ := invN h
    have hinv : ∃ ns, d0 = none ∧
        p' = ⟨a0, b0, c0, some ns, e0, f0⟩ := by
      unfold nodeStepF at hs
      rw [if_neg (by decide), if_neg (by decide), if_neg (by decide), if_pos rfl] at hs
      cases d0 with
      | some x => exact Except.noConfusion hs
      | none =>
        cases hd : deserNodeMaybeArr v with
        | error e1 =>
          rw [hd] at hs
          exact Except.noConfusion hs
        | ok ns =>
          rw [hd] at hs
          injection hs with hs'
          exact ⟨ns, rfl, hs'.symm⟩
    obtain ⟨ns, hd0, hp'⟩ := hinv
    subst hd0
    subst hp'
    exact deserNodeFields_drop_pnodes post ⟨a0, b0, c0, some ns, e0, f0⟩ ns n rfl hrest
  | cons e rest ih =>
    obtain ⟨k, w⟩ := e
    intro v post p n h
    rw [List.cons_append] at h ⊢
    obtain ⟨p', hs, hrest⟩ := invN h
    rw [eqN_cons_ok hs]
    exact ih v post p' n hrest

/-! ## Claim C9: defaults for absent optional fields -/

/-- C9: removing an `exportedSymbols` entry from a successfully-parsing
root object still parses and yields the empty mapping (and an absent
`exportedSymbols` always reads back as the empty mapping); likewise an
absent `nodes` field on any node yields the empty child sequence — never
`null`, never a failure. -/
theorem defaults_for_absent_fields :
    (∀ (pre post : List (String × Json)) (v : Json) (a : Ast),
        deserAst (.obj (pre ++ ("exportedSymbols", v) :: post)) = .ok a →
        deserAst (.obj (pre ++ post)) =
          .ok ⟨a.absolute_path, a.id, [], a.node_type, a.src, a.nodes, a.other⟩) ∧
      (∀ (entries : List (String × Json)) (a : Ast), deserAst (.obj entries) = .ok a →
        lookupEntry "exportedSymbols" entries = none → a.exported_symbols = []) ∧
      (∀ (pre post : List (String × Json)) (v : Json) (n : Node),
        deserNode (.obj (pre ++ ("nodes", v) :: post)) = .ok n →
        deserNode (.obj (pre ++ post)) =
          .ok (.mk n.id n.node_type n.src [] n.body n.other)) ∧
      ∀ (entries : List (String × Json)) (n : Node), deserNode (.obj entries) = .ok n →
        lookupEntry "nodes" entries = none → n.nodes = [] := by
  refine ⟨?_, ?_, ?_, ?_⟩
  · intro pre post v a h
    rw [deserAst_obj] at h ⊢
    exact deserAstFields_remove_syms pre v post _ a h
  · intro entries a h hlk
    rw [deserAst_obj] at h
    exact (deserAstFields_requires entries _ a h).2.2.2.2.1 rfl hlk
  · intro pre post v n h
    rw [deserNode_obj] at h ⊢
    exact deserNodeFields_remove_nodes pre v post _ n h
  · intro entries n h hlk
    rw [deserNode_obj] at h
    exact (deserNodeFields_requires entries _ n h).2.2.2.1 rfl hlk

/-- Witness for C9: dropping the `exportedSymbols` entry of a concrete root
object keeps the parse succeeding, now with the empty mapping. -/
theorem defaults_for_absent_fields_witness :
    deserAst (.obj ([("absolutePath", .str "a.sol"), ("id", .num 0)] ++
        ("exportedSymbols", .obj [("A", .arr [.num 1])]) ::
        [("nodeType", .str "SourceUnit"), ("src", .str "0:0:0")])) =
      .ok ⟨"a.sol", 0, [("A", [1])], .SourceUnit, ⟨0, some 0, some 0⟩, [], []⟩ ∧
      deserAst (.obj ([("absolutePath", .str "a.sol"), ("id", .num 0)] ++
        [("nodeType", .str "SourceUnit"), ("src", .str "0:0:0")])) =
      .ok ⟨"a.sol", 0, [], .SourceUnit, ⟨0, some 0, some 0⟩, [], []⟩ :=
  ⟨rfl, defaults_for_absent_fields.1 [("absolutePath", .str "a.sol"), ("id", .num 0)]
    [("nodeType", .str "SourceUnit"), ("src", .str "0:0:0")]
    (.obj [("A", .arr [.num 1])])
    ⟨"a.sol", 0, [("A", [1])], .SourceUnit, ⟨0, some 0, some 0⟩, [], []⟩ rfl⟩
/-! ## Lemmas: the key order -/

theorem char_toNat_inj {a b : Char} (h : a.toNat = b.toNat) : a = b :=
  Char.eq_of_val_eq (congrArg UInt32.mk (BitVec.eq_of_toNat_eq h))

theorem strLt_irrefl : ∀ as, strLt as as = false := by
  intro as
  induction as with
  | nil => rfl
  | cons a as ih => simp [strLt, ih]

theorem strLt_asymm : ∀ as bs, strLt as bs = true → strLt bs as = false := by
  intro as
  induction as with
  | nil =>
    intro bs h
    cases bs with
    | nil => exact absurd h (by simp [strLt])
    | cons b bs => rfl
  | cons a as ih =>
    intro bs h
    cases bs with
    | nil => exact absurd h (by simp [strLt])
    | cons b bs =>
      simp only [strLt] at h ⊢
      by_cases h1 : a.toNat < b.toNat
      · rw [if_neg (by omega), if_pos h1]
      · by_cases h2 : b.toNat < a.toNat
        · rw [if_neg h1, if_pos h2] at h
          exact absurd h (by simp)
        · rw [if_neg h1, if_neg h2] at h
          rw [if_neg h2, if_neg h1]
          exact ih bs h

theorem strLt_trans : ∀ as bs cs, strLt as bs = true → strLt bs cs = true →
    strLt as cs = true := by
  intro as
  induction as with
  | nil =>
    intro bs cs h1 h2
    cases bs with
    | nil => exact absurd h1 (by simp [strLt])
    | cons b bs =>
      cases cs with
      | nil => exact absurd h2 (by simp [strLt])
      | cons c cs => rfl
  | cons a as ih =>
    intro bs cs h1 h2
    cases bs with
    | nil => exact absurd h1 (by simp [strLt])
    | cons b bs =>
      cases cs with
      | nil => exact absurd h2 (by simp [strLt])
      | cons c cs =>
        simp only [strLt] at h1 h2 ⊢
        by_cases hab : a.toNat < b.toNat
        · by_cases hbc : b.toNat < c.toNat
          · rw [if_pos (by omega)]
          · by_cases hcb : c.toNat < b.toNat
            · rw [if_neg hbc, if_pos hcb] at h2
              exact absurd h2 (by simp)
            · rw [if_pos (by omega)]
        · by_cases hba : b.toNat < a.toNat
          · rw [if_neg hab, if_pos hba] at h1
            exact absurd h1 (by simp)
          · rw [if_neg hab, if_neg hba] at h1
            by_cases hbc : b.toNat < c.toNat
            · rw [if_pos (by omega)]
            · by_cases hcb : c.toNat < b.toNat
              · rw [if_neg hbc, if_pos hcb] at h2
                exact absurd h2 (by simp)
              · rw [if_neg hbc, if_neg hcb] at h2
                rw [if_neg (by omega), if_neg (by omega)]
                exact ih bs cs h1 h2

theorem strLt_connex : ∀ as bs, strLt as bs = false → strLt bs as = false → as = bs := by
  intro as
  induction as with
  | nil =>
    intro bs h1 _
    cases bs with
    | nil => rfl
    | cons b bs => exact absurd h1 (by simp [strLt])
  | cons a as ih =>
    intro bs h1 h2
    cases bs with
    | nil => exact absurd h2 (by simp [strLt])
    | cons b bs =>
      simp only [strLt] at h1 h2
      by_cases hab : a.toNat < b.toNat
      · rw [if_pos hab] at h1
        exact absurd h1 (by simp)
      · by_cases hba : b.toNat < a.toNat
        · rw [if_pos hba] at h2
          exact absurd h2 (by simp)
        · rw [if_neg hab, if_neg hba] at h1
          rw [if_neg hba, if_neg hab] at h2
          have hc : a = b := char_toNat_inj (by omega)
          rw [hc, ih bs h1 h2]

theorem keyLt_asymm {a b : String} (h : keyLt a b = true) : keyLt b a = false :=
  strLt_asymm _ _ h

theorem keyLt_trans {a b c : String} (h1 : keyLt a b = true) (h2 : keyLt b c = true) :
    keyLt a c = true := strLt_trans _ _ _ h1 h2

theorem keyLt_connex {a b : String} (h1 : keyLt a b = false) (h2 : keyLt b a = false) :
    a = b := by
  have hd := strLt_connex _ _ h1 h2
  cases a
  cases b
  simp_all [keyLt]

/-! ## Lemmas: sorting by key -/

theorem insertByKey_perm (e : String × Json) :
    ∀ l, List.Perm (insertByKey e l) (e :: l) := by
  intro l
  induction l with
  | nil => exact List.Perm.refl _
  | cons e' rest ih =>
    simp only [insertByKey]
    by_cases hk : keyLt e.1 e'.1
    · rw [if_pos hk]
    · rw [if_neg hk]
      exact List.Perm.trans (List.Perm.cons e' ih) (List.Perm.swap e e' rest)

theorem sortByKey_perm : ∀ l, List.Perm (sortByKey l) l := by
  intro l
  induction l with
  | nil => exact List.Perm.refl _
  | cons e rest ih =>
    exact List.Perm.trans (insertByKey_perm e (sortByKey rest)) (List.Perm.cons e ih)

theorem insertByKey_sorted (e : String × Json) :
    ∀ l, List.Pairwise (fun a b : String × Json => keyLt b.1 a.1 = false) l →
      List.Pairwise (fun a b : String × Json => keyLt b.1 a.1 = false) (insertByKey e l) := by
  intro l
  induction l with
  | nil =>
    intro _
    simp [insertByKey]
  | cons e' rest ih =>
    intro hs
    rw [List.pairwise_cons] at hs
    obtain ⟨he', hrest⟩ := hs
    simp only [insertByKey]
    by_cases hk : keyLt e.1 e'.1
    · rw [if_pos hk]
      rw [List.pairwise_cons]
      constructor
      · intro x hx
        rcases List.mem_cons.mp hx with hh | hh
        · subst hh
          exact keyLt_asymm hk
        · by_cases hxe : keyLt x.1 e.1
          · have h2 := he' x hh
            have h3 := keyLt_trans hxe hk
            rw [h3] at h2
            exact absurd h2 (by simp)
          · simpa using hxe
      · rw [List.pairwise_cons]
        exact ⟨he', hrest⟩
    · rw [if_neg hk]
      rw [List.pairwise_cons]
      constructor
      · intro x hx
        rcases List.mem_cons.mp ((insertByKey_perm e rest).mem_iff.mp hx) with hh | hh
        · subst hh
          simpa using hk
        · exact he' x hh
      · exact ih hrest

theorem sortByKey_sorted :
    ∀ l, List.Pairwise (fun a b : String × Json => keyLt b.1 a.1 = false) (sortByKey l) := by
  intro l
  induction l with
  | nil => exact List.Pairwise.nil
  | cons e rest ih => exact insertByKey_sorted e _ ih

theorem sorted_distinct_strict {l : List (String × Json)}
    (hs : List.Pairwise (fun a b : String × Json => keyLt b.1 a.1 = false) l)
    (hd : List.Pairwise (fun a b : String × Json => a.1 ≠ b.1) l) :
    List.Pairwise (fun a b : String × Json => keyLt a.1 b.1 = true) l := by
  refine (hs.and hd).imp ?_
  intro a b hab
  obtain ⟨h1, h2⟩ := hab
  by_cases h3 : keyLt a.1 b.1
  · simpa using h3
  · exact absurd (keyLt_connex (by simpa using h3) h1) h2

/-- Insertion sort by key is invariant under permutation of entry lists with
pairwise-distinct keys: the canonical form is well defined. -/
theorem sortByKey_eq_of_perm {l1 l2 : List (String × Json)}
    (hp : List.Perm l1 l2)
    (hd : List.Pairwise (fun a b : String × Json => a.1 ≠ b.1) l1) :
    sortByKey l1 = sortByKey l2 := by
  have hd2 : List.Pairwise (fun a b : String × Json => a.1 ≠ b.1) l2 :=
    (hp.pairwise_iff (fun hxy h => hxy h.symm)).mp hd
  have hs1 := sortByKey_sorted l1
  have hs2 := sortByKey_sorted l2
  have hd1' : List.Pairwise (fun a b : String × Json => a.1 ≠ b.1) (sortByKey l1) :=
    ((sortByKey_perm l1).pairwise_iff (fun hxy h => hxy h.symm)).mpr hd
  have hd2' : List.Pairwise (fun a b : String × Json => a.1 ≠ b.1) (sortByKey l2) :=
    ((sortByKey_perm l2).pairwise_iff (fun hxy h => hxy h.symm)).mpr hd2
  have hst1 := sorted_distinct_strict hs1 hd1'
  have hst2 := sorted_distinct_strict hs2 hd2'
  have hperm : List.Perm (sortByKey l1) (sortByKey l2) :=
    ((sortByKey_perm l1).trans hp).trans (sortByKey_perm l2).symm
  haveI : IsAntisymm (String × Json) (fun a b => keyLt a.1 b.1 = true) :=
    ⟨fun a b h1 h2 => absurd h2 (by simp [keyLt_asymm h1])⟩
  exact List.eq_of_perm_of_sorted hperm hst1 hst2

/-! ## Lemmas: association-list lookups -/

theorem lookupEntry_cons_self {α : Type} (k : String) (v : α) (l : List (String × α)) :
    lookupEntry k ((k, v) :: l) = some v := by simp [lookupEntry]

theorem lookupEntry_cons_ne {α : Type} {k k' : String} (v : α) (l : List (String × α))
    (h : k' ≠ k) : lookupEntry k ((k', v) :: l) = lookupEntry k l := by
  simp [lookupEntry, h]

theorem lookupEntry_append_some {α : Type} {k : String} {v : α} :
    ∀ {l1 : List (String × α)} (l2 : List (String × α)),
      lookupEntry k l1 = some v → lookupEntry k (l1 ++ l2) = some v := by
  intro l1
  induction l1 with
  | nil =>
    intro l2 h
    exact absurd h (by simp [lookupEntry])
  | cons e rest ih =>
    obtain ⟨k', v'⟩ := e
    intro l2 h
    by_cases hk : k' = k
    · subst hk
      rw [lookupEntry_cons_self] at h
      rw [List.cons_append, lookupEntry_cons_self]
      exact h
    · rw [lookupEntry_cons_ne v' rest hk] at h
      rw [List.cons_append, lookupEntry_cons_ne v' _ hk]
      exact ih l2 h

theorem lookupEntry_append_none {α : Type} {k : String} :
    ∀ {l1 : List (String × α)} (l2 : List (String × α)),
      lookupEntry k l1 = none → lookupEntry k (l1 ++ l2) = lookupEntry k l2 := by
  intro l1
  induction l1 with
  | nil => intro l2 _; rfl
  | cons e rest ih =>
    obtain ⟨k', v'⟩ := e
    intro l2 h
    by_cases hk : k' = k
    · subst hk
      rw [lookupEntry_cons_self] at h
      exact absurd h (by simp)
    · rw [lookupEntry_cons_ne v' rest hk] at h
      rw [List.cons_append, lookupEntry_cons_ne v' _ hk]
      exact ih l2 h

theorem lookupEntry_mem {α : Type} {k : String} {v : α} :
    ∀ {l : List (String × α)}, lookupEntry k l = some v → (k, v) ∈ l := by
  intro l
  induction l with
  | nil =>
    intro h
    exact absurd h (by simp [lookupEntry])
  | cons e rest ih =>
    obtain ⟨k', v'⟩ := e
    intro h
    by_cases hk : k' = k
    · subst hk
      rw [lookupEntry_cons_self] at h
      injection h with h'
      subst h'
      exact List.mem_cons_self _ _
    · rw [lookupEntry_cons_ne v' rest hk] at h
      exact List.mem_cons_of_mem _ (ih h)

theorem lookupEntry_isSome_of_mem_keys {α : Type} {k : String} :
    ∀ {l : List (String × α)}, k ∈ l.map Prod.fst → (lookupEntry k l).isSome = true := by
  intro l
  induction l with
  | nil =>
    intro h
    simp at h
  | cons e rest ih =>
    obtain ⟨k', v'⟩ := e
    intro h
    simp only [List.map_cons, List.mem_cons] at h
    by_cases hk : k' = k
    · subst hk
      rw [lookupEntry_cons_self]
      rfl
    · rw [lookupEntry_cons_ne v' rest hk]
      rcases h with hh | hh
      · exact absurd hh.symm hk
      · exact ih hh

theorem lookupEntry_none_of_not_mem_keys {α : Type} {k : String} :
    ∀ {l : List (String × α)}, k ∉ l.map Prod.fst → lookupEntry k l = none := by
  intro l
  induction l with
  | nil => intro _; rfl
  | cons e rest ih =>
    obtain ⟨k', v'⟩ := e
    intro h
    simp only [List.map_cons, List.mem_cons] at h
    push_neg at h
    rw [lookupEntry_cons_ne v' rest (fun hq => h.1 hq.symm)]
    exact ih h.2

theorem distinctKeys_nodup : ∀ {l : List (String × Json)}, distinctKeys l = true →
    (l.map Prod.fst).Nodup := by
  intro l
  induction l with
  | nil =>
    intro _
    simp
  | cons e rest ih =>
    obtain ⟨k, v⟩ := e
    intro h
    simp only [distinctKeys, Bool.and_eq_true] at h
    obtain ⟨h1, h2⟩ := h
    simp only [List.map_cons, List.nodup_cons]
    refine ⟨?_, ih h2⟩
    intro hmem
    have hs := lookupEntry_isSome_of_mem_keys hmem
    rw [Option.isNone_iff_eq_none.mp h1] at hs
    exact absurd hs (by simp)

theorem nodupKeys_pairwise {l : List (String × Json)} (h : (l.map Prod.fst).Nodup) :
    List.Pairwise (fun a b : String × Json => a.1 ≠ b.1) l :=
  List.pairwise_map.mp h

theorem lookupEntry_split {α : Type} {k : String} {v : α} :
    ∀ {l : List (String × α)}, lookupEntry k l = some v →
      ∃ l1 l2, l = l1 ++ (k, v) :: l2 ∧ lookupEntry k l1 = none := by
  intro l
  induction l with
  | nil =>
    intro h
    exact absurd h (by simp [lookupEntry])
  | cons e rest ih =>
    obtain ⟨k', v'⟩ := e
    intro h
    by_cases hk : k' = k
    · subst hk
      rw [lookupEntry_cons_self] at h
      injection h with h'
      subst h'
      exact ⟨[], rest, rfl, rfl⟩
    · rw [lookupEntry_cons_ne v' rest hk] at h
      obtain ⟨l1, l2, hl, hn⟩ := ih h
      refine ⟨(k', v') :: l1, l2, by rw [hl, List.cons_append], ?_⟩
      rw [lookupEntry_cons_ne v' l1 hk]
      exact hn

/-- Two association lists with pairwise-distinct keys and identical lookups
are permutations of each other. -/
theorem perm_of_lookup_ext {α : Type} :
    ∀ (l1 l2 : List (String × α)),
      (l1.map Prod.fst).Nodup → (l2.map Prod.fst).Nodup →
      (∀ k, lookupEntry k l1 = lookupEntry k l2) → List.Perm l1 l2 := by
  intro l1
  induction l1 with
  | nil =>
    intro l2 _ _ hl
    cases l2 with
    | nil => exact List.Perm.refl _
    | cons e rest =>
      obtain ⟨k, v⟩ := e
      have hx := hl k
      rw [lookupEntry_cons_self] at hx
      exact absurd hx (by simp [lookupEntry])
  | cons e rest ih =>
    obtain ⟨k, v⟩ := e
    intro l2 h1 h2 hl
    have hk2 : lookupEntry k l2 = some v := by
      rw [← hl k, lookupEntry_cons_self]
    obtain ⟨A, B, hAB, hA⟩ := lookupEntry_split hk2
    subst hAB
    refine List.Perm.trans ?_ List.perm_middle.symm
    refine List.Perm.cons _ ?_
    simp only [List.map_cons, List.nodup_cons] at h1
    obtain ⟨hknotin, hrestnd⟩ := h1
    have hndAB : ((A ++ B).map Prod.fst).Nodup := by
      have hsub : List.Sublist (A ++ B) (A ++ (k, v) :: B) :=
        List.Sublist.append_left (List.sublist_cons_self (k, v) B) A
      exact h2.sublist (hsub.map Prod.fst)
    have hkB : lookupEntry k B = none := by
      have hx : ((A ++ (k, v) :: B).map Prod.fst).Nodup := h2
      rw [List.map_append, List.map_cons] at hx
      have hy : (k :: B.map Prod.fst).Nodup := hx.sublist (List.sublist_append_right _ _)
      rw [List.nodup_cons] at hy
      exact lookupEntry_none_of_not_mem_keys hy.1
    refine ih (A ++ B) hrestnd hndAB ?_
    intro k0
    by_cases hk0 : k0 = k
    · subst hk0
      rw [lookupEntry_none_of_not_mem_keys hknotin, lookupEntry_append_none B hA, hkB]
    · have hx := hl k0
      rw [lookupEntry_cons_ne v rest (fun hq => hk0 hq.symm)] at hx
      rw [hx]
      cases hcase : lookupEntry k0 A with
      | some w =>
        rw [lookupEntry_append_some _ hcase, lookupEntry_append_some _ hcase]
      | none =>
        rw [lookupEntry_append_none _ hcase, lookupEntry_append_none _ hcase]
        rw [lookupEntry_cons_ne v B (fun hq => hk0 hq.symm)]
/-! ## Lemmas: canonicalization -/

theorem canonEntries_map : ∀ l, canonEntries l = l.map (fun e => (e.1, jsonCanon e.2)) := by
  intro l
  induction l with
  | nil => rfl
  | cons e rest ih =>
    obtain ⟨k, v⟩ := e
    simp only [canonEntries, List.map_cons]
    rw [ih]

theorem canonEntries_keys : ∀ l, (canonEntries l).map Prod.fst = l.map Prod.fst := by
  intro l
  rw [canonEntries_map]
  simp

theorem lookupEntry_canonEntries (k : String) :
    ∀ l, lookupEntry k (canonEntries l) = (lookupEntry k l).map jsonCanon := by
  intro l
  induction l with
  | nil => rfl
  | cons e rest ih =>
    obtain ⟨k', v⟩ := e
    by_cases hk : k' = k
    · subst hk
      simp only [canonEntries]
      rw [lookupEntry_cons_self, lookupEntry_cons_self]
      rfl
    · simp only [canonEntries]
      rw [lookupEntry_cons_ne _ _ hk, lookupEntry_cons_ne _ _ hk]
      exact ih

theorem jsonCanon_obj (entries : List (String × Json)) :
    jsonCanon (.obj entries) = .obj (sortByKey (canonEntries entries)) := by
  simp [jsonCanon]

theorem jsonCanon_arr (xs : List Json) : jsonCanon (.arr xs) = .arr (canonList xs) := by
  simp [jsonCanon]

theorem canonList_cons (x : Json) (xs : List Json) :
    canonList (x :: xs) = jsonCanon x :: canonList xs := by
  simp [canonList]

/-- Objects with distinct keys and lookup-equal canonical values have the
same canonical form. -/
theorem jsonCanon_obj_ext {l1 l2 : List (String × Json)}
    (h1 : (l1.map Prod.fst).Nodup) (h2 : (l2.map Prod.fst).Nodup)
    (hl : ∀ k, (lookupEntry k l1).map jsonCanon = (lookupEntry k l2).map jsonCanon) :
    jsonCanon (.obj l1) = jsonCanon (.obj l2) := by
  rw [jsonCanon_obj, jsonCanon_obj]
  congr 1
  apply sortByKey_eq_of_perm
  · apply perm_of_lookup_ext
    · rw [canonEntries_keys]
      exact h1
    · rw [canonEntries_keys]
      exact h2
    · intro k
      rw [lookupEntry_canonEntries, lookupEntry_canonEntries]
      exact hl k
  · apply nodupKeys_pairwise
    rw [canonEntries_keys]
    exact h1

/-! ## Lemmas: step inversion for each typed field -/

theorem nodeStepF_id_ok {v : Json} {r1 : Except String (List Node)}
    {r2 : Except String (Option Node)} {p p' : PNode}
    (h : nodeStepF "id" v r1 r2 p = .ok p') :
    ∃ i, asUsize v = some i ∧ p.pid = none ∧ p' = { p with pid := some i } := by
  unfold nodeStepF at h
  rw [if_pos rfl] at h
  repeat' split at h
  all_goals try exact Except.noConfusion h
  injection h with h'
  subst h'
  refine ⟨_, ?_, ?_, rfl⟩ <;> assumption

theorem nodeStepF_nt_ok {v : Json} {r1 : Except String (List Node)}
    {r2 : Except String (Option Node)} {p p' : PNode}
    (h : nodeStepF "nodeType" v r1 r2 p = .ok p') :
    ∃ nt, nodeTypeFromJson v = .ok nt ∧ p.pnt = none ∧ p' = { p with pnt := some nt } := by
  unfold nodeStepF at h
  rw [if_neg (by decide), if_pos rfl] at h
  repeat' split at h
  all_goals try exact Except.noConfusion h
  injection h with h'
  subst h'
  refine ⟨_, ?_, ?_, rfl⟩ <;> assumption

theorem nodeStepF_src_ok {v : Json} {r1 : Except String (List Node)}
    {r2 : Except String (Option Node)} {p p' : PNode}
    (h : nodeStepF "src" v r1 r2 p = .ok p') :
    ∃ s loc, v = .str s ∧ sourceLocationFromStr s = .ok loc ∧ p.psrc = none ∧
      p' = { p with psrc := some loc } := by
  unfold nodeStepF at h
  rw [if_neg (by decide), if_neg (by decide), if_pos rfl] at h
  repeat' split at h
  all_goals try exact Except.noConfusion h
  injection h with h'
  subst h'
  refine ⟨_, _, rfl, ?_, ?_, rfl⟩ <;> assumption

theorem nodeStepF_nodes_ok {v : Json} {r1 : Except String (List Node)}
    {r2 : Except String (Option Node)} {p p' : PNode}
    (h : nodeStepF "nodes" v r1 r2 p = .ok p') :
    ∃ ns, r1 = .ok ns ∧ p.pnodes = none ∧ p' = { p with pnodes := some ns } := by
  unfold nodeStepF at h
  rw [if_neg (by decide), if_neg (by decide), if_neg (by decide), if_pos rfl] at h
  repeat' split at h
  all_goals try exact Except.noConfusion h
  injection h with h'
  subst h'
  refine ⟨_, rfl, ?_, rfl⟩ <;> assumption

theorem nodeStepF_body_ok {v : Json} {r1 : Except String (List Node)}
    {r2 : Except String (Option Node)} {p p' : PNode}
    (h : nodeStepF "body" v r1 r2 p = .ok p') :
    ∃ b, r2 = .ok b ∧ p.pbody = none ∧ p' = { p with pbody := some b } := by
  unfold nodeStepF at h
  rw [if_neg (by decide), if_neg (by decide), if_neg (by decide), if_neg (by decide),
    if_pos rfl] at h
  repeat' split at h
  all_goals try exact Except.noConfusion h
  injection h with h'
  subst h'
  refine ⟨_, rfl, ?_, rfl⟩ <;> assumption

theorem astStepF_abs_ok {v : Json} {r1 : Except String (List Node)} {p p' : PAst}
    (h : astStepF "absolutePath" v r1 p = .ok p') :
    ∃ s, v = .str s ∧ p.pabs = none ∧ p' = { p with pabs := some s } := by
  unfold astStepF at h
  rw [if_pos rfl] at h
  repeat' split at h
  all_goals try exact Except.noConfusion h
  injection h with h'
  subst h'
  refine ⟨_, rfl, ?_, rfl⟩ <;> assumption

theorem astStepF_id_ok {v : Json} {r1 : Except String (List Node)} {p p' : PAst}
    (h : astStepF "id" v r1 p = .ok p') :
    ∃ i, asUsize v = some i ∧ p.pid = none ∧ p' = { p with pid := some i } := by
  unfold astStepF at h
  rw [if_neg (by decide), if_pos rfl] at h
  repeat' split at h
  all_goals try exact Except.noConfusion h
  injection h with h'
  subst h'
  refine ⟨_, ?_, ?_, rfl⟩ <;> assumption

theorem astStepF_syms_ok {v : Json} {r1 : Except String (List Node)} {p p' : PAst}
    (h : astStepF "exportedSymbols" v r1 p = .ok p') :
    ∃ syms, deserExportedSymbols v = some syms ∧ p.psyms = none ∧
      p' = { p with psyms := some syms } := by
  unfold astStepF at h
  rw [if_neg (by decide), if_neg (by decide), if_pos rfl] at h
  repeat' split at h
  all_goals try exact Except.noConfusion h
  injection h with h'
  subst h'
  refine ⟨_, ?_, ?_, rfl⟩ <;> assumption

theorem astStepF_nt_ok {v : Json} {r1 : Except String (List Node)} {p p' : PAst}
    (h : astStepF "nodeType" v r1 p = .ok p') :
    ∃ nt, nodeTypeFromJson v = .ok nt ∧ p.pnt = none ∧ p' = { p with pnt := some nt } := by
  unfold astStepF at h
  rw [if_neg (by decide), if_neg (by decide), if_neg (by decide), if_pos rfl] at h
  repeat' split at h
  all_goals try exact Except.noConfusion h
  injection h with h'
  subst h'
  refine ⟨_, ?_, ?_, rfl⟩ <;> assumption

theorem astStepF_src_ok {v : Json} {r1 : Except String (List Node)} {p p' : PAst}
    (h : astStepF "src" v r1 p = .ok p') :
    ∃ s loc, v = .str s ∧ sourceLocationFromStr s = .ok loc ∧ p.psrc = none ∧
      p' = { p with psrc := some loc } := by
  unfold astStepF at h
  rw [if_neg (by decide), if_neg (by decide), if_neg (by decide), if_neg (by decide),
    if_pos rfl] at h
  repeat' split at h
  all_goals try exact Except.noConfusion h
  injection h with h'
  subst h'
  refine ⟨_, _, rfl, ?_, ?_, rfl⟩ <;> assumption

theorem astStepF_nodes_ok {v : Json} {r1 : Except String (List Node)} {p p' : PAst}
    (h : astStepF "nodes" v r1 p = .ok p') :
    ∃ ns, r1 = .ok ns ∧ p.pnodes = none ∧ p' = { p with pnodes := some ns } := by
  unfold astStepF at h
  rw [if_neg (by decide), if_neg (by decide), if_neg (by decide), if_neg (by decide),
    if_neg (by decide), if_pos rfl] at h
  repeat' split at h
  all_goals try exact Except.noConfusion h
  injection h with h'
  subst h'
  refine ⟨_, rfl, ?_, rfl⟩ <;> assumption

/-! ## Lemmas: forward evaluation of the visitor step -/

theorem nodeStepF_id_eval {v : Json} {i : Nat} (r1 : Except String (List Node))
    (r2 : Except String (Option Node)) {p : PNode} (hp : p.pid = none)
    (hv : asUsize v = some i) :
    nodeStepF "id" v r1 r2 p = .ok { p with pid := some i } := by
  obtain ⟨a, b, c, d, e0, f⟩ := p
  simp only at hp
  subst hp
  unfold nodeStepF
  rw [if_pos rfl]
  dsimp only
  rw [hv]

theorem nodeStepF_nt_eval {v : Json} {nt : NodeType} (r1 : Except String (List Node))
    (r2 : Except String (Option Node)) {p : PNode} (hp : p.pnt = none)
    (hv : nodeTypeFromJson v = .ok nt) :
    nodeStepF "nodeType" v r1 r2 p = .ok { p with pnt := some nt } := by
  obtain ⟨a, b, c, d, e0, f⟩ := p
  simp only at hp
  subst hp
  unfold nodeStepF
  rw [if_neg (by decide), if_pos rfl]
  dsimp only
  rw [hv]

theorem nodeStepF_src_eval {s : String} {loc : SourceLocation}
    (r1 : Except String (List Node)) (r2 : Except String (Option Node)) {p : PNode}
    (hp : p.psrc = none) (hv : sourceLocationFromStr s = .ok loc) :
    nodeStepF "src" (.str s) r1 r2 p = .ok { p with psrc := some loc } := by
  obtain ⟨a, b, c, d, e0, f⟩ := p
  simp only at hp
  subst hp
  unfold nodeStepF
  rw [if_neg (by decide), if_neg (by decide), if_pos rfl]
  dsimp only
  rw [hv]

theorem nodeStepF_nodes_eval {v : Json} {ns : List Node}
    (r2 : Except String (Option Node)) {p : PNode} (hp : p.pnodes = none) :
    nodeStepF "nodes" v (.ok ns) r2 p = .ok { p with pnodes := some ns } := by
  obtain ⟨a, b, c, d, e0, f⟩ := p
  simp only at hp
  subst hp
  unfold nodeStepF
  rw [if_neg (by decide), if_neg (by decide), if_neg (by decide), if_pos rfl]

theorem nodeStepF_body_eval {v : Json} {b0 : Option Node}
    (r1 : Except String (List Node)) {p : PNode} (hp : p.pbody = none) :
    nodeStepF "body" v r1 (.ok b0) p = .ok { p with pbody := some b0 } := by
  obtain ⟨a, b, c, d, e0, f⟩ := p
  simp only at hp
  subst hp
  unfold nodeStepF
  rw [if_neg (by decide), if_neg (by decide), if_neg (by decide), if_neg (by decide),
    if_pos rfl]

theorem nodeStepF_unknown_eval {k : String} (v : Json) (r1 : Except String (List Node))
    (r2 : Except String (Option Node)) (p : PNode) (h1 : ¬(k = "id"))
    (h2 : ¬(k = "nodeType")) (h3 : ¬(k = "src")) (h4 : ¬(k = "nodes"))
    (h5 : ¬(k = "body")) :
    nodeStepF k v r1 r2 p = .ok { p with pother := mapInsert k v p.pother } := by
  unfold nodeStepF
  rw [if_neg h1, if_neg h2, if_neg h3, if_neg h4, if_neg h5]

theorem astStepF_abs_eval {s : String} (r1 : Except String (List Node)) {p : PAst}
    (hp : p.pabs = none) :
    astStepF "absolutePath" (.str s) r1 p = .ok { p with pabs := some s } := by
  obtain ⟨a, b, c, d, e0, f, g⟩ := p
  simp only at hp
  subst hp
  unfold astStepF
  rw [if_pos rfl]

theorem astStepF_id_eval {v : Json} {i : Nat} (r1 : Except String (List Node)) {p : PAst}
    (hp : p.pid = none) (hv : asUsize v = some i) :
    astStepF "id" v r1 p = .ok { p with pid := some i } := by
  obtain ⟨a, b, c, d, e0, f, g⟩ := p
  simp only at hp
  subst hp
  unfold astStepF
  rw [if_neg (by decide), if_pos rfl]
  dsimp only
  rw [hv]

theorem astStepF_syms_eval {v : Json} {syms : List (String × List Nat)}
    (r1 : Except String (List Node)) {p : PAst} (hp : p.psyms = none)
    (hv : deserExportedSymbols v = some syms) :
    astStepF "exportedSymbols" v r1 p = .ok { p with psyms := some syms } := by
  obtain ⟨a, b, c, d, e0, f, g⟩ := p
  simp only at hp
  subst hp
  unfold astStepF
  rw [if_neg (by decide), if_neg (by decide), if_pos rfl]
  dsimp only
  rw [hv]

theorem astStepF_nt_eval {v : Json} {nt : NodeType} (r1 : Except String (List Node))
    {p : PAst} (hp : p.pnt = none) (hv : nodeTypeFromJson v = .ok nt) :
    astStepF "nodeType" v r1 p = .ok { p with pnt := some nt } := by
  obtain ⟨a, b, c, d, e0, f, g⟩ := p
  simp only at hp
  subst hp
  unfold astStepF
  rw [if_neg (by decide), if_neg (by decide), if_neg (by decide), if_pos rfl]
  dsimp only
  rw [hv]

theorem astStepF_src_eval {s : String} {loc : SourceLocation}
    (r1 : Except String (List Node)) {p : PAst} (hp : p.psrc = none)
    (hv : sourceLocationFromStr s = .ok loc) :
    astStepF "src" (.str s) r1 p = .ok { p with psrc := some loc } := by
  obtain ⟨a, b, c, d, e0, f, g⟩ := p
  simp only at hp
  subst hp
  unfold astStepF
  rw [if_neg (by decide), if_neg (by decide), if_neg (by decide), if_neg (by decide),
    if_pos rfl]
  dsimp only
  rw [hv]

theorem astStepF_nodes_eval {v : Json} {ns : List Node} {p : PAst}
    (hp : p.pnodes = none) :
    astStepF "nodes" v (.ok ns) p = .ok { p with pnodes := some ns } := by
  obtain ⟨a, b, c, d, e0, f, g⟩ := p
  simp only at hp
  subst hp
  unfold astStepF
  rw [if_neg (by decide), if_neg (by decide), if_neg (by decide), if_neg (by decide),
    if_neg (by decide), if_pos rfl]

theorem astStepF_unknown_eval {k : String} (v : Json) (r1 : Except String (List Node))
    (p : PAst) (h1 : ¬(k = "absolutePath")) (h2 : ¬(k = "id"))
    (h3 : ¬(k = "exportedSymbols")) (h4 : ¬(k = "nodeType")) (h5 : ¬(k = "src"))
    (h6 : ¬(k = "nodes")) :
    astStepF k v r1 p = .ok { p with pother := mapInsert k v p.pother } := by
  unfold astStepF
  rw [if_neg h1, if_neg h2, if_neg h3, if_neg h4, if_neg h5, if_neg h6]
/-! ## Lemmas: field values of a successful parse -/

theorem deserNodeFields_frozen :
    ∀ (entries : List (String × Json)) (p : PNode) (n : Node),
      deserNodeFields entries p = .ok n →
      (∀ i, p.pid = some i → n.id = i) ∧ (∀ nt, p.pnt = some nt → n.node_type = nt) ∧
      (∀ s, p.psrc = some s → n.src = s) ∧ (∀ ns, p.pnodes = some ns → n.nodes = ns) ∧
      (∀ b, p.pbody = some b → n.body = b) := by
  intro entries
  induction entries with
  | nil =>
    intro p n h
    rw [eqN_nil] at h
    obtain ⟨h1, h2, h3, h4, h5, h6⟩ := finishNode_ok h
    refine ⟨?_, ?_, ?_, ?_, ?_⟩
    · intro i hp
      rw [hp] at h1
      injection h1 with h'
      exact h'.symm
    · intro nt hp
      rw [hp] at h2
      injection h2 with h'
      exact h'.symm
    · intro s hp
      rw [hp] at h3
      injection h3 with h'
      exact h'.symm
    · intro ns hp
      rw [hp] at h4
      simpa using h4
    · intro b hp
      rw [hp] at h5
      simpa using h5
  | cons e rest ih =>
    obtain ⟨k, v⟩ := e
    intro p n h
    obtain ⟨p', hstep, hrest⟩ := invN h
    obtain ⟨ho, hid, hnt, hsrc, hnodes, hbody⟩ := nodeStepF_ok hstep
    obtain ⟨f1, f2, f3, f4, f5⟩ := ih p' n hrest
    refine ⟨?_, ?_, ?_, ?_, ?_⟩
    · intro i hp
      by_cases hk : k = "id"
      · subst hk
        obtain ⟨i', hv, hnone, hp'⟩ := nodeStepF_id_ok hstep
        rw [hp] at hnone
        exact absurd hnone (by simp)
      · exact f1 i (by rw [hid hk]; exact hp)
    · intro nt hp
      by_cases hk : k = "nodeType"
      · subst hk
        obtain ⟨nt', hv, hnone, hp'⟩ := nodeStepF_nt_ok hstep
        rw [hp] at hnone
        exact absurd hnone (by simp)
      · exact f2 nt (by rw [hnt hk]; exact hp)
    · intro s hp
      by_cases hk : k = "src"
      · subst hk
        obtain ⟨s', loc', hv, hl, hnone, hp'⟩ := nodeStepF_src_ok hstep
        rw [hp] at hnone
        exact absurd hnone (by simp)
      · exact f3 s (by rw [hsrc hk]; exact hp)
    · intro ns hp
      by_cases hk : k = "nodes"
      · subst hk
        obtain ⟨ns', hv, hnone, hp'⟩ := nodeStepF_nodes_ok hstep
        rw [hp] at hnone
        exact absurd hnone (by simp)
      · exact f4 ns (by rw [hnodes hk]; exact hp)
    · intro b hp
      by_cases hk : k = "body"
      · subst hk
        obtain ⟨b', hv, hnone, hp'⟩ := nodeStepF_body_ok hstep
        rw [hp] at hnone
        exact absurd hnone (by simp)
      · exact f5 b (by rw [hbody hk]; exact hp)

theorem deserAstFields_frozen :
    ∀ (entries : List (String × Json)) (p : PAst) (a : Ast),
      deserAstFields entries p = .ok a →
      (∀ s, p.pabs = some s → a.absolute_path = s) ∧ (∀ i, p.pid = some i → a.id = i) ∧
      (∀ sy, p.psyms = some sy → a.exported_symbols = sy) ∧
      (∀ nt, p.pnt = some nt → a.node_type = nt) ∧
      (∀ s, p.psrc = some s → a.src = s) ∧ (∀ ns, p.pnodes = some ns → a.nodes = ns) := by
  intro entries
  induction entries with
  | nil =>
    intro p a h
    rw [eqA_nil] at h
    obtain ⟨h1, h2, h3, h4, h5, h6, h7⟩ := finishAst_ok h
    refine ⟨?_, ?_, ?_, ?_, ?_, ?_⟩
    · intro s hp
      rw [hp] at h1
      injection h1 with h'
      exact h'.symm
    · intro i hp
      rw [hp] at h2
      injection h2 with h'
      exact h'.symm
    · intro sy hp
      rw [hp] at h3
      simpa using h3
    · intro nt hp
      rw [hp] at h4
      injection h4 with h'
      exact h'.symm
    · intro s hp
      rw [hp] at h5
      injection h5 with h'
      exact h'.symm
    · intro ns hp
      rw [hp] at h6
      simpa using h6
  | cons e rest ih =>
    obtain ⟨k, v⟩ := e
    intro p a h
    obtain ⟨p', hstep, hrest⟩ := invA h
    obtain ⟨ho, habs, hid, hsyms, hnt, hsrc, hnodes⟩ := astStepF_ok hstep
    obtain ⟨f1, f2, f3, f4, f5, f6⟩ := ih p' a hrest
    refine ⟨?_, ?_, ?_, ?_, ?_, ?_⟩
    · intro s hp
      by_cases hk : k = "absolutePath"
      · subst hk
        obtain ⟨s', hv, hnone, hp'⟩ := astStepF_abs_ok hstep
        rw [hp] at hnone
        exact absurd hnone (by simp)
      · exact f1 s (by rw [habs hk]; exact hp)
    · intro i hp
      by_cases hk : k = "id"
      · subst hk
        obtain ⟨i', hv, hnone, hp'⟩ := astStepF_id_ok hstep
        rw [hp] at hnone
        exact absurd hnone (by simp)
      · exact f2 i (by rw [hid hk]; exact hp)
    · intro sy hp
      by_cases hk : k = "exportedSymbols"
      · subst hk
        obtain ⟨sy', hv, hnone, hp'⟩ := astStepF_syms_ok hstep
        rw [hp] at hnone
        exact absurd hnone (by simp)
      · exact f3 sy (by rw [hsyms hk]; exact hp)
    · intro nt hp
      by_cases hk : k = "nodeType"
      · subst hk
        obtain ⟨nt', hv, hnone, hp'⟩ := astStepF_nt_ok hstep
        rw [hp] at hnone
        exact absurd hnone (by simp)
      · exact f4 nt (by rw [hnt hk]; exact hp)
    · intro s hp
      by_cases hk : k = "src"
      · subst hk
        obtain ⟨s', loc', hv, hl, hnone, hp'⟩ := astStepF_src_ok hstep
        rw [hp] at hnone
        exact absurd hnone (by simp)
      · exact f5 s (by rw [hsrc hk]; exact hp)
    · intro ns hp
      by_cases hk : k = "nodes"
      · subst hk
        obtain ⟨ns', hv, hnone, hp'⟩ := astStepF_nodes_ok hstep
        rw [hp] at hnone
        exact absurd hnone (by simp)
      · exact f6 ns (by rw [hnodes hk]; exact hp)

theorem deserNodeFields_id_val :
    ∀ (entries : List (String × Json)) (p : PNode) (n : Node) (v : Json),
      deserNodeFields entries p = .ok n → ("id", v) ∈ entries →
      asUsize v = some n.id := by
  intro entries
  induction entries with
  | nil =>
    intro p n v _ hm
    simp at hm
  | cons e rest ih =>
    intro p n v h hm
    obtain ⟨k0, v0⟩ := e
    obtain ⟨p', hstep, hrest⟩ := invN h
    rcases List.mem_cons.mp hm with hh | hh
    · injection hh with hk hv
      subst hk
      subst hv
      obtain ⟨i, hv', hnone, hp'⟩ := nodeStepF_id_ok hstep
      subst hp'
      have hfz := (deserNodeFields_frozen rest _ n hrest).1 i (by simp)
      rw [hv', hfz]
    · exact ih p' n v hrest hh

theorem deserNodeFields_nt_val :
    ∀ (entries : List (String × Json)) (p : PNode) (n : Node) (v : Json),
      deserNodeFields entries p = .ok n → ("nodeType", v) ∈ entries →
      nodeTypeFromJson v = .ok n.node_type := by
  intro entries
  induction entries with
  | nil =>
    intro p n v _ hm
    simp at hm
  | cons e rest ih =>
    intro p n v h hm
    obtain ⟨k0, v0⟩ := e
    obtain ⟨p', hstep, hrest⟩ := invN h
    rcases List.mem_cons.mp hm with hh | hh
    · injection hh with hk hv
      subst hk
      subst hv
      obtain ⟨nt, hv', hnone, hp'⟩ := nodeStepF_nt_ok hstep
      subst hp'
      have hfz := (deserNodeFields_frozen rest _ n hrest).2.1 nt (by simp)
      rw [hv', hfz]
    · exact ih p' n v hrest hh

theorem deserNodeFields_src_val :
    ∀ (entries : List (String × Json)) (p : PNode) (n : Node) (v : Json),
      deserNodeFields entries p = .ok n → ("src", v) ∈ entries →
      ∃ s, v = .str s ∧ sourceLocationFromStr s = .ok n.src := by
  intro entries
  induction entries with
  | nil =>
    intro p n v _ hm
    simp at hm
  | cons e rest ih =>
    intro p n v h hm
    obtain ⟨k0, v0⟩ := e
    obtain ⟨p', hstep, hrest⟩ := invN h
    rcases List.mem_cons.mp hm with hh | hh
    · injection hh with hk hv
      subst hk
      subst hv
      obtain ⟨s, loc, hv', hl, hnone, hp'⟩ := nodeStepF_src_ok hstep
      subst hp'
      have hfz := (deserNodeFields_frozen rest _ n hrest).2.2.1 loc (by simp)
      rw [← hfz] at hl
      exact ⟨s, hv', hl⟩
    · exact ih p' n v hrest hh

theorem deserNodeFields_nodes_val :
    ∀ (entries : List (String × Json)) (p : PNode) (n : Node) (v : Json),
      deserNodeFields entries p = .ok n → ("nodes", v) ∈ entries →
      deserNodeMaybeArr v = .ok n.nodes := by
  intro entries
  induction entries with
  | nil =>
    intro p n v _ hm
    simp at hm
  | cons e rest ih =>
    intro p n v h hm
    obtain ⟨k0, v0⟩ := e
    obtain ⟨p', hstep, hrest⟩ := invN h
    rcases List.mem_cons.mp hm with hh | hh
    · injection hh with hk hv
      subst hk
      subst hv
      obtain ⟨ns, hv', hnone, hp'⟩ := nodeStepF_nodes_ok hstep
      subst hp'
      have hfz := (deserNodeFields_frozen rest _ n hrest).2.2.2.1 ns (by simp)
      rw [hv', hfz]
    · exact ih p' n v hrest hh

theorem deserNodeFields_body_val :
    ∀ (entries : List (String × Json)) (p : PNode) (n : Node) (v : Json),
      deserNodeFields entries p = .ok n → ("body", v) ∈ entries →
      deserNodeMaybeBody v = .ok n.body := by
  intro entries
  induction entries with
  | nil =>
    intro p n v _ hm
    simp at hm
  | cons e rest ih =>
    intro p n v h hm
    obtain ⟨k0, v0⟩ := e
    obtain ⟨p', hstep, hrest⟩ := invN h
    rcases List.mem_cons.mp hm with hh | hh
    · injection hh with hk hv
      subst hk
      subst hv
      obtain ⟨b, hv', hnone, hp'⟩ := nodeStepF_body_ok hstep
      subst hp'
      have hfz := (deserNodeFields_frozen rest _ n hrest).2.2.2.2 b (by simp)
      rw [hv', hfz]
    · exact ih p' n v hrest hh

theorem deserNodeFields_nodes_absent :
    ∀ (entries : List (String × Json)) (p : PNode) (n : Node),
      deserNodeFields entries p = .ok n → lookupEntry "nodes" entries = none →
      n.nodes = p.pnodes.getD [] := by
  intro entries
  induction entries with
  | nil =>
    intro p n h _
    rw [eqN_nil] at h
    exact (finishNode_ok h).2.2.2.1
  | cons e rest ih =>
    intro p n h hlk
    obtain ⟨k0, v0⟩ := e
    obtain ⟨p', hstep, hrest⟩ := invN h
    by_cases hk : k0 = "nodes"
    · subst hk
      rw [lookupEntry_cons_self] at hlk
      exact absurd hlk (by simp)
    · rw [lookupEntry_cons_ne v0 rest hk] at hlk
      rw [ih p' n hrest hlk]
      rw [(nodeStepF_ok hstep).2.2.2.2.1 hk]

theorem deserNodeFields_body_absent :
    ∀ (entries : List (String × Json)) (p : PNode) (n : Node),
      deserNodeFields entries p = .ok n → lookupEntry "body" entries = none →
      n.body = p.pbody.getD none := by
  intro entries
  induction entries with
  | nil =>
    intro p n h _
    rw [eqN_nil] at h
    exact (finishNode_ok h).2.2.2.2.1
  | cons e rest ih =>
    intro p n h hlk
    obtain ⟨k0, v0⟩ := e
    obtain ⟨p', hstep, hrest⟩ := invN h
    by_cases hk : k0 = "body"
    · subst hk
      rw [lookupEntry_cons_self] at hlk
      exact absurd hlk (by simp)
    · rw [lookupEntry_cons_ne v0 rest hk] at hlk
      rw [ih p' n hrest hlk]
      rw [(nodeStepF_ok hstep).2.2.2.2.2 hk]

theorem deserAstFields_abs_val :
    ∀ (entries : List (String × Json)) (p : PAst) (a : Ast) (v : Json),
      deserAstFields entries p = .ok a → ("absolutePath", v) ∈ entries →
      v = .str a.absolute_path := by
  intro entries
  induction entries with
  | nil =>
    intro p a v _ hm
    simp at hm
  | cons e rest ih =>
    intro p a v h hm
    obtain ⟨k0, v0⟩ := e
    obtain ⟨p', hstep, hrest⟩ := invA h
    rcases List.mem_cons.mp hm with hh | hh
    · injection hh with hk hv
      subst hk
      subst hv
      obtain ⟨s, hv', hnone, hp'⟩ := astStepF_abs_ok hstep
      subst hp'
      have hfz := (deserAstFields_frozen rest _ a hrest).1 s (by simp)
      rw [hv', hfz]
    · exact ih p' a v hrest hh

theorem deserAstFields_id_val :
    ∀ (entries : List (String × Json)) (p : PAst) (a : Ast) (v : Json),
      deserAstFields entries p = .ok a → ("id", v) ∈ entries →
      asUsize v = some a.id := by
  intro entries
  induction entries with
  | nil =>
    intro p a v _ hm
    simp at hm
  | cons e rest ih =>
    intro p a v h hm
    obtain ⟨k0, v0⟩ := e
    obtain ⟨p', hstep, hrest⟩ := invA h
    rcases List.mem_cons.mp hm with hh | hh
    · injection hh with hk hv
      subst hk
      subst hv
      obtain ⟨i, hv', hnone, hp'⟩ := astStepF_id_ok hstep
      subst hp'
      have hfz := (deserAstFields_frozen rest _ a hrest).2.1 i (by simp)
      rw [hv', hfz]
    · exact ih p' a v hrest hh

theorem deserAstFields_syms_val :
    ∀ (entries : List (String × Json)) (p : PAst) (a : Ast) (v : Json),
      deserAstFields entries p = .ok a → ("exportedSymbols", v) ∈ entries →
      deserExportedSymbols v = some a.exported_symbols := by
  intro entries
  induction entries with
  | nil =>
    intro p a v _ hm
    simp at hm
  | cons e rest ih =>
    intro p a v h hm
    obtain ⟨k0, v0⟩ := e
    obtain ⟨p', hstep, hrest⟩ := invA h
    rcases List.mem_cons.mp hm with hh | hh
    · injection hh with hk hv
      subst hk
      subst hv
      obtain ⟨sy, hv', hnone, hp'⟩ := astStepF_syms_ok hstep
      subst hp'
      have hfz := (deserAstFields_frozen rest _ a hrest).2.2.1 sy (by simp)
      rw [hv', hfz]
    · exact ih p' a v hrest hh

theorem deserAstFields_nt_val :
    ∀ (entries : List (String × Json)) (p : PAst) (a : Ast) (v : Json),
      deserAstFields entries p = .ok a → ("nodeType", v) ∈ entries →
      nodeTypeFromJson v = .ok a.node_type := by
  intro entries
  induction entries with
  | nil =>
    intro p a v _ hm
    simp at hm
  | cons e rest ih =>
    intro p a v h hm
    obtain ⟨k0, v0⟩ := e
    obtain ⟨p', hstep, hrest⟩ := invA h
    rcases List.mem_cons.mp hm with hh | hh
    · injection hh with hk hv
      subst hk
      subst hv
      obtain ⟨nt, hv', hnone, hp'⟩ := astStepF_nt_ok hstep
      subst hp'
      have hfz := (deserAstFields_frozen rest _ a hrest).2.2.2.1 nt (by simp)
      rw [hv', hfz]
    · exact ih p' a v hrest hh

theorem deserAstFields_src_val :
    ∀ (entries : List (String × Json)) (p : PAst) (a : Ast) (v : Json),
      deserAstFields entries p = .ok a → ("src", v) ∈ entries →
      ∃ s, v = .str s ∧ sourceLocationFromStr s = .ok a.src := by
  intro entries
  induction entries with
  | nil =>
    intro p a v _ hm
    simp at hm
  | cons e rest ih =>
    intro p a v h hm
    obtain ⟨k0, v0⟩ := e
    obtain ⟨p', hstep, hrest⟩ := invA h
    rcases List.mem_cons.mp hm with hh | hh
    · injection hh with hk hv
      subst hk
      subst hv
      obtain ⟨s, loc, hv', hl, hnone, hp'⟩ := astStepF_src_ok hstep
      subst hp'
      have hfz := (deserAstFields_frozen rest _ a hrest).2.2.2.2.1 loc (by simp)
      rw [← hfz] at hl
      exact ⟨s, hv', hl⟩
    · exact ih p' a v hrest hh

theorem deserAstFields_nodes_val :
    ∀ (entries : List (String × Json)) (p : PAst) (a : Ast) (v : Json),
      deserAstFields entries p = .ok a → ("nodes", v) ∈ entries →
      deserNodeMaybeArr v = .ok a.nodes := by
  intro entries
  induction entries with
  | nil =>
    intro p a v _ hm
    simp at hm
  | cons e rest ih =>
    intro p a v h hm
    obtain ⟨k0, v0⟩ := e
    obtain ⟨p', hstep, hrest⟩ := invA h
    rcases List.mem_cons.mp hm with hh | hh
    · injection hh with hk hv
      subst hk
      subst hv
      obtain ⟨ns, hv', hnone, hp'⟩ := astStepF_nodes_ok hstep
      subst hp'
      have hfz := (deserAstFields_frozen rest _ a hrest).2.2.2.2.2 ns (by simp)
      rw [hv', hfz]
    · exact ih p' a v hrest hh

theorem deserAstFields_nodes_absent :
    ∀ (entries : List (String × Json)) (p : PAst) (a : Ast),
      deserAstFields entries p = .ok a → lookupEntry "nodes" entries = none →
      a.nodes = p.pnodes.getD [] := by
  intro entries
  induction entries with
  | nil =>
    intro p a h _
    rw [eqA_nil] at h
    exact (finishAst_ok h).2.2.2.2.2.1
  | cons e rest ih =>
    intro p a h hlk
    obtain ⟨k0, v0⟩ := e
    obtain ⟨p', hstep, hrest⟩ := invA h
    by_cases hk : k0 = "nodes"
    · subst hk
      rw [lookupEntry_cons_self] at hlk
      exact absurd hlk (by simp)
    · rw [lookupEntry_cons_ne v0 rest hk] at hlk
      rw [ih p' a hrest hlk]
      rw [(astStepF_ok hstep).2.2.2.2.2.2 hk]
/-! ## Lemmas: well-formed values deserialize -/

theorem asUsize_inv {v : Json} {i : Nat} (h : asUsize v = some i) : v = .num (i : Int) := by
  unfold asUsize at h
  split at h
  · rename_i n
    split at h
    · injection h with h'
      subst h'
      rename_i hcond
      congr 1
      omega
    · exact Option.noConfusion h
  · exact Option.noConfusion h

theorem goodNodeTypeJson_ok : ∀ {v : Json}, goodNodeTypeJson v = true →
    ∃ nt, nodeTypeFromJson v = .ok nt := by
  intro v h
  unfold goodNodeTypeJson at h
  split at h
  · rename_i s
    cases ho : nodeTypeOfTag s with
    | some nt => exact ⟨nt, by simp [nodeTypeFromJson, ho]⟩
    | none =>
      rw [ho] at h
      exact absurd h (by simp)
  · rename_i s
    exact ⟨.Other s, rfl⟩
  · exact absurd h (by simp)

theorem goodSrcJson_ok : ∀ {v : Json}, goodSrcJson v = true →
    ∃ s loc, v = .str s ∧ sourceLocationFromStr s = .ok loc ∧
      sourceLocationFormat loc = s := by
  intro v h
  unfold goodSrcJson at h
  split at h
  · rename_i s
    split at h
    · rename_i loc hloc
      exact ⟨s, loc, rfl, hloc, eq_of_beq h⟩
    · exact absurd h (by simp)
  · exact absurd h (by simp)

theorem goodNodeListJson_mem : ∀ {xs : List Json}, goodNodeListJson xs = true →
    ∀ x ∈ xs, goodNodeJson x = true := by
  intro xs
  induction xs with
  | nil =>
    intro _ x hx
    simp at hx
  | cons y ys ih =>
    intro h x hx
    simp only [goodNodeListJson, Bool.and_eq_true] at h
    rcases List.mem_cons.mp hx with hh | hh
    · subst hh
      exact h.1
    · exact ih h.2 x hh

theorem goodNodesValue_shape : ∀ {v : Json}, goodNodesValue v = true →
    ∃ x xs, v = .arr (x :: xs) ∧ goodNodeJson x = true ∧ goodNodeListJson xs = true := by
  intro v h
  unfold goodNodesValue at h
  split at h
  · rename_i x xs
    simp only [Bool.and_eq_true] at h
    exact ⟨x, xs, rfl, h.1, h.2⟩
  · exact absurd h (by simp)

theorem goodNodeJson_obj : ∀ {v : Json}, goodNodeJson v = true →
    ∃ es, v = .obj es := by
  intro v h
  unfold goodNodeJson at h
  split at h
  · rename_i es
    exact ⟨es, rfl⟩
  · exact absurd h (by simp)

theorem goodUsizeArr_ok : ∀ {xs : List Json}, goodUsizeArr xs = true →
    ∃ ns, asUsizeList xs = some ns ∧ ns.map (fun (n : Nat) => Json.num (n : Int)) = xs := by
  intro xs
  induction xs with
  | nil => exact fun _ => ⟨[], rfl, rfl⟩
  | cons y ys ih =>
    intro h
    simp only [goodUsizeArr, Bool.and_eq_true] at h
    obtain ⟨h1, h2⟩ := h
    obtain ⟨m, hm⟩ := Option.isSome_iff_exists.mp h1
    obtain ⟨ns, hns, hmap⟩ := ih h2
    refine ⟨m :: ns, ?_, ?_⟩
    · simp only [asUsizeList, hm, hns]
      rfl
    · rw [List.map_cons, hmap, ← asUsize_inv hm]

theorem deserSymEntries_ok :
    ∀ (es : List (String × Json)) (acc : List (String × List Nat)),
      goodSymEntries es = true → ∃ out, deserSymEntries es acc = some out := by
  intro es
  induction es with
  | nil => exact fun acc _ => ⟨acc, rfl⟩
  | cons e rest ih =>
    obtain ⟨k, v⟩ := e
    intro acc h
    simp only [goodSymEntries, Bool.and_eq_true] at h
    obtain ⟨h1, h2⟩ := h
    split at h1
    · rename_i xs
      obtain ⟨ns, hns, _⟩ := goodUsizeArr_ok h1
      obtain ⟨out, hout⟩ := ih (mapInsert k ns acc) h2
      refine ⟨out, ?_⟩
      simp only [deserSymEntries, hns]
      exact hout
    · exact absurd h1 (by simp)

theorem goodSymsValue_ok : ∀ {v : Json}, goodSymsValue v = true →
    ∃ sy, deserExportedSymbols v = some sy := by
  intro v h
  unfold goodSymsValue at h
  split at h
  · rename_i es
    simp only [Bool.and_eq_true] at h
    obtain ⟨out, hout⟩ := deserSymEntries_ok es [] h.2
    exact ⟨out, hout⟩
  · exact absurd h (by simp)

theorem deserNodeMaybeBody_obj_ok {es : List (String × Json)} {b : Node}
    (h : deserNode (.obj es) = .ok b) : deserNodeMaybeBody (.obj es) = .ok (some b) := by
  rw [deserNode_obj] at h
  simp only [deserNodeMaybeBody, h]

theorem deserNodeList_all_ok :
    ∀ (xs : List Json), (∀ x ∈ xs, ∃ b, deserNode x = .ok b) →
      ∃ ns, deserNodeList xs = .ok ns := by
  intro xs
  induction xs with
  | nil => exact fun _ => ⟨[], rfl⟩
  | cons y ys ih =>
    intro h
    obtain ⟨b, hb⟩ := h y (List.mem_cons_self _ _)
    obtain ⟨ns, hns⟩ := ih (fun x hx => h x (List.mem_cons_of_mem _ hx))
    exact ⟨b :: ns, eqL_cons_ok hb hns⟩

theorem finishNode_eval {p : PNode} {i : Nat} {nt : NodeType} {src : SourceLocation}
    (h1 : p.pid = some i) (h2 : p.pnt = some nt) (h3 : p.psrc = some src) :
    finishNode p = .ok (.mk i nt src (p.pnodes.getD []) (p.pbody.getD none) p.pother) := by
  simp only [finishNode, h1, h2, h3]

theorem finishAst_eval {p : PAst} {s : String} {i : Nat} {nt : NodeType}
    {src : SourceLocation} (h0 : p.pabs = some s) (h1 : p.pid = some i)
    (h2 : p.pnt = some nt) (h3 : p.psrc = some src) :
    finishAst p = .ok ⟨s, i, p.psyms.getD [], nt, src, p.pnodes.getD [], p.pother⟩ := by
  simp only [finishAst, h0, h1, h2, h3]

/-! ## Lemmas: success of the whole parse on well-formed input -/

theorem deserNodeFields_success :
    ∀ (entries : List (String × Json)) (p : PNode),
      goodNodeEntries entries = true → distinctKeys entries = true →
      (∀ v, ("body", v) ∈ entries → goodNodeJson v = true → ∃ b, deserNode v = .ok b) →
      (∀ xs x, ("nodes", .arr xs) ∈ entries → x ∈ xs → goodNodeJson x = true →
        ∃ b, deserNode x = .ok b) →
      ((lookupEntry "id" entries).isSome = true → p.pid = none) →
      ((lookupEntry "nodeType" entries).isSome = true → p.pnt = none) →
      ((lookupEntry "src" entries).isSome = true → p.psrc = none) →
      ((lookupEntry "nodes" entries).isSome = true → p.pnodes = none) →
      ((lookupEntry "body" entries).isSome = true → p.pbody = none) →
      (p.pid.isSome = true ∨ (lookupEntry "id" entries).isSome = true) →
      (p.pnt.isSome = true ∨ (lookupEntry "nodeType" entries).isSome = true) →
      (p.psrc.isSome = true ∨ (lookupEntry "src" entries).isSome = true) →
      ∃ n, deserNodeFields entries p = .ok n := by
  intro entries
  induction entries with
  | nil =>
    intro p _ _ _ _ _ _ _ _ _ hid hnt hsrc
    have h1 : p.pid.isSome = true := by
      rcases hid with hh | hh
      · exact hh
      · exact absurd hh (by simp [lookupEntry])
    have h2 : p.pnt.isSome = true := by
      rcases hnt with hh | hh
      · exact hh
      · exact absurd hh (by simp [lookupEntry])
    have h3 : p.psrc.isSome = true := by
      rcases hsrc with hh | hh
      · exact hh
      · exact absurd hh (by simp [lookupEntry])
    obtain ⟨i, hi⟩ := Option.isSome_iff_exists.mp h1
    obtain ⟨nt, hnt'⟩ := Option.isSome_iff_exists.mp h2
    obtain ⟨src, hsrc'⟩ := Option.isSome_iff_exists.mp h3
    rw [eqN_nil]
    exact ⟨_, finishNode_eval hi hnt' hsrc'⟩
  | cons e rest ih =>
    obtain ⟨k0, v0⟩ := e
    intro p hg hd hbody hnodes d1 d2 d3 d4 d5 hid hnt hsrc
    simp only [goodNodeEntries, Bool.and_eq_true] at hg
    obtain ⟨hcond, hgrest⟩ := hg
    simp only [distinctKeys, Bool.and_eq_true] at hd
    obtain ⟨hdk, hdrest⟩ := hd
    by_cases hk1 : k0 = "id"
    · subst hk1
      rw [if_pos rfl] at hcond
      obtain ⟨i, hi⟩ := Option.isSome_iff_exists.mp hcond
      have hpid : p.pid = none := d1 (by rw [lookupEntry_cons_self]; rfl)
      have hstep := nodeStepF_id_eval (deserNodeMaybeArr v0) (deserNodeMaybeBody v0)
        hpid hi (p := p)
      rw [eqN_cons_ok hstep]
      refine ih _ hgrest hdrest ?_ ?_ ?_ ?_ ?_ ?_ ?_ ?_ ?_ ?_
      · exact fun v hv hgv => hbody v (List.mem_cons_of_mem _ hv) hgv
      · exact fun xs x hxs hx hgx => hnodes xs x (List.mem_cons_of_mem _ hxs) hx hgx
      · intro hq
        rw [Option.isNone_iff_eq_none.mp hdk] at hq
        exact absurd hq (by simp)
      · intro hq
        have := d2 (by rw [lookupEntry_cons_ne v0 rest (by decide)]; exact hq)
        simpa using this
      · intro hq
        have := d3 (by rw [lookupEntry_cons_ne v0 rest (by decide)]; exact hq)
        simpa using this
      · intro hq
        have := d4 (by rw [lookupEntry_cons_ne v0 rest (by decide)]; exact hq)
        simpa using this
      · intro hq
        have := d5 (by rw [lookupEntry_cons_ne v0 rest (by decide)]; exact hq)
        simpa using this
      · left
        simp
      · rcases hnt with hh | hh
        · left
          simpa using hh
        · right
          rw [lookupEntry_cons_ne v0 rest (by decide)] at hh
          exact hh
      · rcases hsrc with hh | hh
        · left
          simpa using hh
        · right
          rw [lookupEntry_cons_ne v0 rest (by decide)] at hh
          exact hh
    · by_cases hk2 : k0 = "nodeType"
      · subst hk2
        rw [if_neg (by decide), if_pos rfl] at hcond
        obtain ⟨nt, hnt'⟩ := goodNodeTypeJson_ok hcond
        have hpnt : p.pnt = none := d2 (by rw [lookupEntry_cons_self]; rfl)
        have hstep := nodeStepF_nt_eval (deserNodeMaybeArr v0) (deserNodeMaybeBody v0)
          hpnt hnt' (p := p)
        rw [eqN_cons_ok hstep]
        refine ih _ hgrest hdrest ?_ ?_ ?_ ?_ ?_ ?_ ?_ ?_ ?_ ?_
        · exact fun v hv hgv => hbody v (List.mem_cons_of_mem _ hv) hgv
        · exact fun xs x hxs hx hgx => hnodes xs x (List.mem_cons_of_mem _ hxs) hx hgx
        · intro hq
          have := d1 (by rw [lookupEntry_cons_ne v0 rest (by decide)]; exact hq)
          simpa using this
        · intro hq
          rw [Option.isNone_iff_eq_none.mp hdk] at hq
          exact absurd hq (by simp)
        · intro hq
          have := d3 (by rw [lookupEntry_cons_ne v0 rest (by decide)]; exact hq)
          simpa using this
        · intro hq
          have := d4 (by rw [lookupEntry_cons_ne v0 rest (by decide)]; exact hq)
          simpa using this
        · intro hq
          have := d5 (by rw [lookupEntry_cons_ne v0 rest (by decide)]; exact hq)
          simpa using this
        · rcases hid with hh | hh
          · left
            simpa using hh
          · right
            rw [lookupEntry_cons_ne v0 rest (by decide)] at hh
            exact hh
        · left
          simp
        · rcases hsrc with hh | hh
          · left
            simpa using hh
          · right
            rw [lookupEntry_cons_ne v0 rest (by decide)] at hh
            exact hh
      · by_cases hk3 : k0 = "src"
        · subst hk3
          rw [if_neg (by decide), if_neg (by decide), if_pos rfl] at hcond
          obtain ⟨s, loc, hv0, hloc, _⟩ := goodSrcJson_ok hcond
          subst hv0
          have hpsrc : p.psrc = none := d3 (by rw [lookupEntry_cons_self]; rfl)
          have hstep := nodeStepF_src_eval (deserNodeMaybeArr (.str s))
            (deserNodeMaybeBody (.str s)) hpsrc hloc (p := p)
          rw [eqN_cons_ok hstep]
          refine ih _ hgrest hdrest ?_ ?_ ?_ ?_ ?_ ?_ ?_ ?_ ?_ ?_
          · exact fun v hv hgv => hbody v (List.mem_cons_of_mem _ hv) hgv
          · exact fun xs x hxs hx hgx => hnodes xs x (List.mem_cons_of_mem _ hxs) hx hgx
          · intro hq
            have := d1 (by rw [lookupEntry_cons_ne _ rest (by decide)]; exact hq)
            simpa using this
          · intro hq
            have := d2 (by rw [lookupEntry_cons_ne _ rest (by decide)]; exact hq)
            simpa using this
          · intro hq
            rw [Option.isNone_iff_eq_none.mp hdk] at hq
            exact absurd hq (by simp)
          · intro hq
            have := d4 (by rw [lookupEntry_cons_ne _ rest (by decide)]; exact hq)
            simpa using this
          · intro hq
            have := d5 (by rw [lookupEntry_cons_ne _ rest (by decide)]; exact hq)
            simpa using this
          · rcases hid with hh | hh
            · left
              simpa using hh
            · right
              rw [lookupEntry_cons_ne _ rest (by decide)] at hh
              exact hh
          · rcases hnt with hh | hh
            · left
              simpa using hh
            · right
              rw [lookupEntry_cons_ne _ rest (by decide)] at hh
              exact hh
          · left
            simp
        · by_cases hk4 : k0 = "nodes"
          · subst hk4
            rw [if_neg (by decide), if_neg (by decide), if_neg (by decide),
              if_pos rfl] at hcond
            obtain ⟨x, xs, hv0, hgx, hgxs⟩ := goodNodesValue_shape hcond
            subst hv0
            have hall : ∀ y ∈ x :: xs, ∃ b, deserNode y = .ok b := by
              intro y hy
              refine hnodes (x :: xs) y (List.mem_cons_self _ _) hy ?_
              rcases List.mem_cons.mp hy with hh | hh
              · subst hh
                exact hgx
              · exact goodNodeListJson_mem hgxs y hh
            obtain ⟨ns, hns⟩ := deserNodeList_all_ok _ hall
            have harr : deserNodeMaybeArr (.arr (x :: xs)) = .ok ns := by
              rw [deserNodeMaybeArr_arr]
              exact hns
            have hpn : p.pnodes = none := d4 (by rw [lookupEntry_cons_self]; rfl)
            have hstep : nodeStepF "nodes" (.arr (x :: xs))
                (deserNodeMaybeArr (.arr (x :: xs))) (deserNodeMaybeBody (.arr (x :: xs)))
                p = .ok { p with pnodes := some ns } := by
              rw [harr]
              exact nodeStepF_nodes_eval _ hpn
            rw [eqN_cons_ok hstep]
            refine ih _ hgrest hdrest ?_ ?_ ?_ ?_ ?_ ?_ ?_ ?_ ?_ ?_
            · exact fun v hv hgv => hbody v (List.mem_cons_of_mem _ hv) hgv
            · exact fun ys y hys hy hgy => hnodes ys y (List.mem_cons_of_mem _ hys) hy hgy
            · intro hq
              have := d1 (by rw [lookupEntry_cons_ne _ rest (by decide)]; exact hq)
              simpa using this
            · intro hq
              have := d2 (by rw [lookupEntry_cons_ne _ rest (by decide)]; exact hq)
              simpa using this
            · intro hq
              have := d3 (by rw [lookupEntry_cons_ne _ rest (by decide)]; exact hq)
              simpa using this
            · intro hq
              rw [Option.isNone_iff_eq_none.mp hdk] at hq
              exact absurd hq (by simp)
            · intro hq
              have := d5 (by rw [lookupEntry_cons_ne _ rest (by decide)]; exact hq)
              simpa using this
            · rcases hid with hh | hh
              · left
                simpa using hh
              · right
                rw [lookupEntry_cons_ne _ rest (by decide)] at hh
                exact hh
            · rcases hnt with hh | hh
              · left
                simpa using hh
              · right
                rw [lookupEntry_cons_ne _ rest (by decide)] at hh
                exact hh
            · rcases hsrc with hh | hh
              · left
                simpa using hh
              · right
                rw [lookupEntry_cons_ne _ rest (by decide)] at hh
                exact hh
          · by_cases hk5 : k0 = "body"
            · subst hk5
              rw [if_neg (by decide), if_neg (by decide), if_neg (by decide),
                if_neg (by decide), if_pos rfl] at hcond
              obtain ⟨b, hb⟩ := hbody v0 (List.mem_cons_self _ _) hcond
              obtain ⟨es, hv0⟩ := goodNodeJson_obj hcond
              subst hv0
              have hmb : deserNodeMaybeBody (.obj es) = .ok (some b) :=
                deserNodeMaybeBody_obj_ok hb
              have hpb : p.pbody = none := d5 (by rw [lookupEntry_cons_self]; rfl)
              have hstep : nodeStepF "body" (.obj es) (deserNodeMaybeArr (.obj es))
                  (deserNodeMaybeBody (.obj es)) p = .ok { p with pbody := some (some b) } := by
                rw [hmb]
                exact nodeStepF_body_eval _ hpb
              rw [eqN_cons_ok hstep]
              refine ih _ hgrest hdrest ?_ ?_ ?_ ?_ ?_ ?_ ?_ ?_ ?_ ?_
              · exact fun v hv hgv => hbody v (List.mem_cons_of_mem _ hv) hgv
              · exact fun ys y hys hy hgy => hnodes ys y (List.mem_cons_of_mem _ hys) hy hgy
              · intro hq
                have := d1 (by rw [lookupEntry_cons_ne _ rest (by decide)]; exact hq)
                simpa using this
              · intro hq
                have := d2 (by rw [lookupEntry_cons_ne _ rest (by decide)]; exact hq)
                simpa using this
              · intro hq
                have := d3 (by rw [lookupEntry_cons_ne _ rest (by decide)]; exact hq)
                simpa using this
              · intro hq
                have := d4 (by rw [lookupEntry_cons_ne _ rest (by decide)]; exact hq)
                simpa using this
              · intro hq
                rw [Option.isNone_iff_eq_none.mp hdk] at hq
                exact absurd hq (by simp)
              · rcases hid with hh | hh
                · left
                  simpa using hh
                · right
                  rw [lookupEntry_cons_ne _ rest (by decide)] at hh
                  exact hh
              · rcases hnt with hh | hh
                · left
                  simpa using hh
                · right
                  rw [lookupEntry_cons_ne _ rest (by decide)] at hh
                  exact hh
              · rcases hsrc with hh | hh
                · left
                  simpa using hh
                · right
                  rw [lookupEntry_cons_ne _ rest (by decide)] at hh
                  exact hh
            · have hstep := nodeStepF_unknown_eval v0 (deserNodeMaybeArr v0)
                (deserNodeMaybeBody v0) p hk1 hk2 hk3 hk4 hk5
              rw [eqN_cons_ok hstep]
              refine ih _ hgrest hdrest ?_ ?_ ?_ ?_ ?_ ?_ ?_ ?_ ?_ ?_
              · exact fun v hv hgv => hbody v (List.mem_cons_of_mem _ hv) hgv
              · exact fun ys y hys hy hgy => hnodes ys y (List.mem_cons_of_mem _ hys) hy hgy
              · intro hq
                have := d1 (by rw [lookupEntry_cons_ne _ rest hk1]; exact hq)
                simpa using this
              · intro hq
                have := d2 (by rw [lookupEntry_cons_ne _ rest hk2]; exact hq)
                simpa using this
              · intro hq
                have := d3 (by rw [lookupEntry_cons_ne _ rest hk3]; exact hq)
                simpa using this
              · intro hq
                have := d4 (by rw [lookupEntry_cons_ne _ rest hk4]; exact hq)
                simpa using this
              · intro hq
                have := d5 (by rw [lookupEntry_cons_ne _ rest hk5]; exact hq)
                simpa using this
              · rcases hid with hh | hh
                · left
                  simpa using hh
                · right
                  rw [lookupEntry_cons_ne _ rest hk1] at hh
                  exact hh
              · rcases hnt with hh | hh
                · left
                  simpa using hh
                · right
                  rw [lookupEntry_cons_ne _ rest hk2] at hh
                  exact hh
              · rcases hsrc with hh | hh
                · left
                  simpa using hh
                · right
                  rw [lookupEntry_cons_ne _ rest hk3] at hh
                  exact hh
theorem deserAstFields_success :
    ∀ (entries : List (String × Json)) (p : PAst),
      goodAstEntries entries = true → distinctKeys entries = true →
      (∀ xs x, ("nodes", .arr xs) ∈ entries → x ∈ xs → goodNodeJson x = true →
        ∃ b, deserNode x = .ok b) →
      ((lookupEntry "absolutePath" entries).isSome = true → p.pabs = none) →
      ((lookupEntry "id" entries).isSome = true → p.pid = none) →
      ((lookupEntry "exportedSymbols" entries).isSome = true → p.psyms = none) →
      ((lookupEntry "nodeType" entries).isSome = true → p.pnt = none) →
      ((lookupEntry "src" entries).isSome = true → p.psrc = none) →
      ((lookupEntry "nodes" entries).isSome = true → p.pnodes = none) →
      (p.pabs.isSome = true ∨ (lookupEntry "absolutePath" entries).isSome = true) →
      (p.pid.isSome = true ∨ (lookupEntry "id" entries).isSome = true) →
      (p.pnt.isSome = true ∨ (lookupEntry "nodeType" entries).isSome = true) →
      (p.psrc.isSome = true ∨ (lookupEntry "src" entries).isSome = true) →
      ∃ a, deserAstFields entries p = .ok a := by
  intro entries
  induction entries with
  | nil =>
    intro p _ _ _ _ _ _ _ _ _ habs hid hnt hsrc
    have h0 : p.pabs.isSome = true := by
      rcases habs with hh | hh
      · exact hh
      · exact absurd hh (by simp [lookupEntry])
    have h1 : p.pid.isSome = true := by
      rcases hid with hh | hh
      · exact hh
      · exact absurd hh (by simp [lookupEntry])
    have h2 : p.pnt.isSome = true := by
      rcases hnt with hh | hh
      · exact hh
      · exact absurd hh (by simp [lookupEntry])
    have h3 : p.psrc.isSome = true := by
      rcases hsrc with hh | hh
      · exact hh
      · exact absurd hh (by simp [lookupEntry])
    obtain ⟨s, hs⟩ := Option.isSome_iff_exists.mp h0
    obtain ⟨i, hi⟩ := Option.isSome_iff_exists.mp h1
    obtain ⟨nt, hnt'⟩ := Option.isSome_iff_exists.mp h2
    obtain ⟨src, hsrc'⟩ := Option.isSome_iff_exists.mp h3
    rw [eqA_nil]
    exact ⟨_, finishAst_eval hs hi hnt' hsrc'⟩
  | cons e rest ih =>
    obtain ⟨k0, v0⟩ := e
    intro p hg hd hnodes d1 d2 d3 d4 d5 d6 habs hid hnt hsrc
    simp only [goodAstEntries, Bool.and_eq_true] at hg
    obtain ⟨hcond, hgrest⟩ := hg
    simp only [distinctKeys, Bool.and_eq_true] at hd
    obtain ⟨hdk, hdrest⟩ := hd
    have hnodes' : ∀ xs x, ("nodes", .arr xs) ∈ rest → x ∈ xs →
        goodNodeJson x = true → ∃ b, deserNode x = .ok b :=
      fun xs x hxs hx hgx => hnodes xs x (List.mem_cons_of_mem _ hxs) hx hgx
    by_cases hk1 : k0 = "absolutePath"
    · subst hk1
      rw [if_pos rfl] at hcond
      have hs : ∃ s, v0 = .str s := by
        unfold isStrJson at hcond
        split at hcond
        · rename_i s
          exact ⟨s, rfl⟩
        · exact absurd hcond (by simp)
      obtain ⟨s, hv0⟩ := hs
      subst hv0
      have hpabs : p.pabs = none := d1 (by rw [lookupEntry_cons_self]; rfl)
      have hstep := astStepF_abs_eval (s := s) (deserNodeMaybeArr (.str s)) hpabs (p := p)
      rw [eqA_cons_ok hstep]
      refine ih _ hgrest hdrest hnodes' ?_ ?_ ?_ ?_ ?_ ?_ ?_ ?_ ?_ ?_
      · intro hq
        rw [Option.isNone_iff_eq_none.mp hdk] at hq
        exact absurd hq (by simp)
      · intro hq
        have := d2 (by rw [lookupEntry_cons_ne _ rest (by decide)]; exact hq)
        simpa using this
      · intro hq
        have := d3 (by rw [lookupEntry_cons_ne _ rest (by decide)]; exact hq)
        simpa using this
      · intro hq
        have := d4 (by rw [lookupEntry_cons_ne _ rest (by decide)]; exact hq)
        simpa using this
      · intro hq
        have := d5 (by rw [lookupEntry_cons_ne _ rest (by decide)]; exact hq)
        simpa using this
      · intro hq
        have := d6 (by rw [lookupEntry_cons_ne _ rest (by decide)]; exact hq)
        simpa using this
      · left
        simp
      · rcases hid with hh | hh
        · left
          simpa using hh
        · right
          rw [lookupEntry_cons_ne _ rest (by decide)] at hh
          exact hh
      · rcases hnt with hh | hh
        · left
          simpa using hh
        · right
          rw [lookupEntry_cons_ne _ rest (by decide)] at hh
          exact hh
      · rcases hsrc with hh | hh
        · left
          simpa using hh
        · right
          rw [lookupEntry_cons_ne _ rest (by decide)] at hh
          exact hh
    · by_cases hk2 : k0 = "id"
      · subst hk2
        rw [if_neg (by decide), if_pos rfl] at hcond
        obtain ⟨i, hi⟩ := Option.isSome_iff_exists.mp hcond
        have hpid : p.pid = none := d2 (by rw [lookupEntry_cons_self]; rfl)
        have hstep := astStepF_id_eval (deserNodeMaybeArr v0) hpid hi (p := p)
        rw [eqA_cons_ok hstep]
        refine ih _ hgrest hdrest hnodes' ?_ ?_ ?_ ?_ ?_ ?_ ?_ ?_ ?_ ?_
        · intro hq
          have := d1 (by rw [lookupEntry_cons_ne _ rest (by decide)]; exact hq)
          simpa using this
        · intro hq
          rw [Option.isNone_iff_eq_none.mp hdk] at hq
          exact absurd hq (by simp)
        · intro hq
          have := d3 (by rw [lookupEntry_cons_ne _ rest (by decide)]; exact hq)
          simpa using this
        · intro hq
          have := d4 (by rw [lookupEntry_cons_ne _ rest (by decide)]; exact hq)
          simpa using this
        · intro hq
          have := d5 (by rw [lookupEntry_cons_ne _ rest (by decide)]; exact hq)
          simpa using this
        · intro hq
          have := d6 (by rw [lookupEntry_cons_ne _ rest (by decide)]; exact hq)
          simpa using this
        · rcases habs with hh | hh
          · left
            simpa using hh
          · right
            rw [lookupEntry_cons_ne _ rest (by decide)] at hh
            exact hh
        · left
          simp
        · rcases hnt with hh | hh
          · left
            simpa using hh
          · right
            rw [lookupEntry_cons_ne _ rest (by decide)] at hh
            exact hh
        · rcases hsrc with hh | hh
          · left
            simpa using hh
          · right
            rw [lookupEntry_cons_ne _ rest (by decide)] at hh
            exact hh
      · by_cases hk3 : k0 = "exportedSymbols"
        · subst hk3
          rw [if_neg (by decide), if_neg (by decide), if_pos rfl] at hcond
          obtain ⟨sy, hsy⟩ := goodSymsValue_ok hcond
          have hpsy : p.psyms = none := d3 (by rw [lookupEntry_cons_self]; rfl)
          have hstep := astStepF_syms_eval (deserNodeMaybeArr v0) hpsy hsy (p := p)
          rw [eqA_cons_ok hstep]
          refine ih _ hgrest hdrest hnodes' ?_ ?_ ?_ ?_ ?_ ?_ ?_ ?_ ?_ ?_
          · intro hq
            have := d1 (by rw [lookupEntry_cons_ne _ rest (by decide)]; exact hq)
            simpa using this
          · intro hq
            have := d2 (by rw [lookupEntry_cons_ne _ rest (by decide)]; exact hq)
            simpa using this
          · intro hq
            rw [Option.isNone_iff_eq_none.mp hdk] at hq
            exact absurd hq (by simp)
          · intro hq
            have := d4 (by rw [lookupEntry_cons_ne _ rest (by decide)]; exact hq)
            simpa using this
          · intro hq
            have := d5 (by rw [lookupEntry_cons_ne _ rest (by decide)]; exact hq)
            simpa using this
          · intro hq
            have := d6 (by rw [lookupEntry_cons_ne _ rest (by decide)]; exact hq)
            simpa using this
          · rcases habs with hh | hh
            · left
              simpa using hh
            · right
              rw [lookupEntry_cons_ne _ rest (by decide)] at hh
              exact hh
          · rcases hid with hh | hh
            · left
              simpa using hh
            · right
              rw [lookupEntry_cons_ne _ rest (by decide)] at hh
              exact hh
          · rcases hnt with hh | hh
            · left
              simpa using hh
            · right
              rw [lookupEntry_cons_ne _ rest (by decide)] at hh
              exact hh
          · rcases hsrc with hh | hh
            · left
              simpa using hh
            · right
              rw [lookupEntry_cons_ne _ rest (by decide)] at hh
              exact hh
        · by_cases hk4 : k0 = "nodeType"
          · subst hk4
            rw [if_neg (by decide), if_neg (by decide), if_neg (by decide),
              if_pos rfl] at hcond
            obtain ⟨nt, hnt'⟩ := goodNodeTypeJson_ok hcond
            have hpnt : p.pnt = none := d4 (by rw [lookupEntry_cons_self]; rfl)
            have hstep := astStepF_nt_eval (deserNodeMaybeArr v0) hpnt hnt' (p := p)
            rw [eqA_cons_ok hstep]
            refine ih _ hgrest hdrest hnodes' ?_ ?_ ?_ ?_ ?_ ?_ ?_ ?_ ?_ ?_
            · intro hq
              have := d1 (by rw [lookupEntry_cons_ne _ rest (by decide)]; exact hq)
              simpa using this
            · intro hq
              have := d2 (by rw [lookupEntry_cons_ne _ rest (by decide)]; exact hq)
              simpa using this
            · intro hq
              have := d3 (by rw [lookupEntry_cons_ne _ rest (by decide)]; exact hq)
              simpa using this
            · intro hq
              rw [Option.isNone_iff_eq_none.mp hdk] at hq
              exact absurd hq (by simp)
            · intro hq
              have := d5 (by rw [lookupEntry_cons_ne _ rest (by decide)]; exact hq)
              simpa using this
            · intro hq
              have := d6 (by rw [lookupEntry_cons_ne _ rest (by decide)]; exact hq)
              simpa using this
            · rcases habs with hh | hh
              · left
                simpa using hh
              · right
                rw [lookupEntry_cons_ne _ rest (by decide)] at hh
                exact hh
            · rcases hid with hh | hh
              · left
                simpa using hh
              · right
                rw [lookupEntry_cons_ne _ rest (by decide)] at hh
                exact hh
            · left
              simp
            · rcases hsrc with hh | hh
              · left
                simpa using hh
              · right
                rw [lookupEntry_cons_ne _ rest (by decide)] at hh
                exact hh
          · by_cases hk5 : k0 = "src"
            · subst hk5
              rw [if_neg (by decide), if_neg (by decide), if_neg (by decide),
                if_neg (by decide), if_pos rfl] at hcond
              obtain ⟨s, loc, hv0, hloc, _⟩ := goodSrcJson_ok hcond
              subst hv0
              have hpsrc : p.psrc = none := d5 (by rw [lookupEntry_cons_self]; rfl)
              have hstep := astStepF_src_eval (deserNodeMaybeArr (.str s)) hpsrc hloc (p := p)
              rw [eqA_cons_ok hstep]
              refine ih _ hgrest hdrest hnodes' ?_ ?_ ?_ ?_ ?_ ?_ ?_ ?_ ?_ ?_
              · intro hq
                have := d1 (by rw [lookupEntry_cons_ne _ rest (by decide)]; exact hq)
                simpa using this
              · intro hq
                have := d2 (by rw [lookupEntry_cons_ne _ rest (by decide)]; exact hq)
                simpa using this
              · intro hq
                have := d3 (by rw [lookupEntry_cons_ne _ rest (by decide)]; exact hq)
                simpa using this
              · intro hq
                have := d4 (by rw [lookupEntry_cons_ne _ rest (by decide)]; exact hq)
                simpa using this
              · intro hq
                rw [Option.isNone_iff_eq_none.mp hdk] at hq
                exact absurd hq (by simp)
              · intro hq
                have := d6 (by rw [lookupEntry_cons_ne _ rest (by decide)]; exact hq)
                simpa using this
              · rcases habs with hh | hh
                · left
                  simpa using hh
                · right
                  rw [lookupEntry_cons_ne _ rest (by decide)] at hh
                  exact hh
              · rcases hid with hh | hh
                · left
                  simpa using hh
                · right
                  rw [lookupEntry_cons_ne _ rest (by decide)] at hh
                  exact hh
              · rcases hnt with hh | hh
                · left
                  simpa using hh
                · right
                  rw [lookupEntry_cons_ne _ rest (by decide)] at hh
                  exact hh
              · left
                simp
            · by_cases hk6 : k0 = "nodes"
              · subst hk6
                rw [if_neg (by decide), if_neg (by decide), if_neg (by decide),
                  if_neg (by decide), if_neg (by decide), if_pos rfl] at hcond
                obtain ⟨x, xs, hv0, hgx, hgxs⟩ := goodNodesValue_shape hcond
                subst hv0
                have hall : ∀ y ∈ x :: xs, ∃ b, deserNode y = .ok b := by
                  intro y hy
                  refine hnodes (x :: xs) y (List.mem_cons_self _ _) hy ?_
                  rcases List.mem_cons.mp hy with hh | hh
                  · subst hh
                    exact hgx
                  · exact goodNodeListJson_mem hgxs y hh
                obtain ⟨ns, hns⟩ := deserNodeList_all_ok _ hall
                have harr : deserNodeMaybeArr (.arr (x :: xs)) = .ok ns := by
                  rw [deserNodeMaybeArr_arr]
                  exact hns
                have hpn : p.pnodes = none := d6 (by rw [lookupEntry_cons_self]; rfl)
                have hstep : astStepF "nodes" (.arr (x :: xs))
                    (deserNodeMaybeArr (.arr (x :: xs))) p =
                    .ok { p with pnodes := some ns } := by
                  rw [harr]
                  exact astStepF_nodes_eval hpn
                rw [eqA_cons_ok hstep]
                refine ih _ hgrest hdrest hnodes' ?_ ?_ ?_ ?_ ?_ ?_ ?_ ?_ ?_ ?_
                · intro hq
                  have := d1 (by rw [lookupEntry_cons_ne _ rest (by decide)]; exact hq)
                  simpa using this
                · intro hq
                  have := d2 (by rw [lookupEntry_cons_ne _ rest (by decide)]; exact hq)
                  simpa using this
                · intro hq
                  have := d3 (by rw [lookupEntry_cons_ne _ rest (by decide)]; exact hq)
                  simpa using this
                · intro hq
                  have := d4 (by rw [lookupEntry_cons_ne _ rest (by decide)]; exact hq)
                  simpa using this
                · intro hq
                  have := d5 (by rw [lookupEntry_cons_ne _ rest (by decide)]; exact hq)
                  simpa using this
                · intro hq
                  rw [Option.isNone_iff_eq_none.mp hdk] at hq
                  exact absurd hq (by simp)
                · rcases habs with hh | hh
                  · left
                    simpa using hh
                  · right
                    rw [lookupEntry_cons_ne _ rest (by decide)] at hh
                    exact hh
                · rcases hid with hh | hh
                  · left
                    simpa using hh
                  · right
                    rw [lookupEntry_cons_ne _ rest (by decide)] at hh
                    exact hh
                · rcases hnt with hh | hh
                  · left
                    simpa using hh
                  · right
                    rw [lookupEntry_cons_ne _ rest (by decide)] at hh
                    exact hh
                · rcases hsrc with hh | hh
                  · left
                    simpa using hh
                  · right
                    rw [lookupEntry_cons_ne _ rest (by decide)] at hh
                    exact hh
              · have hstep := astStepF_unknown_eval v0 (deserNodeMaybeArr v0) p
                  hk1 hk2 hk3 hk4 hk5 hk6
                rw [eqA_cons_ok hstep]
                refine ih _ hgrest hdrest hnodes' ?_ ?_ ?_ ?_ ?_ ?_ ?_ ?_ ?_ ?_
                · intro hq
                  have := d1 (by rw [lookupEntry_cons_ne _ rest hk1]; exact hq)
                  simpa using this
                · intro hq
                  have := d2 (by rw [lookupEntry_cons_ne _ rest hk2]; exact hq)
                  simpa using this
                · intro hq
                  have := d3 (by rw [lookupEntry_cons_ne _ rest hk3]; exact hq)
                  simpa using this
                · intro hq
                  have := d4 (by rw [lookupEntry_cons_ne _ rest hk4]; exact hq)
                  simpa using this
                · intro hq
                  have := d5 (by rw [lookupEntry_cons_ne _ rest hk5]; exact hq)
                  simpa using this
                · intro hq
                  have := d6 (by rw [lookupEntry_cons_ne _ rest hk6]; exact hq)
                  simpa using this
                · rcases habs with hh | hh
                  · left
                    simpa using hh
                  · right
                    rw [lookupEntry_cons_ne _ rest hk1] at hh
                    exact hh
                · rcases hid with hh | hh
                  · left
                    simpa using hh
                  · right
                    rw [lookupEntry_cons_ne _ rest hk2] at hh
                    exact hh
                · rcases hnt with hh | hh
                  · left
                    simpa using hh
                  · right
                    rw [lookupEntry_cons_ne _ rest hk4] at hh
                    exact hh
                · rcases hsrc with hh | hh
                  · left
                    simpa using hh
                  · right
                    rw [lookupEntry_cons_ne _ rest hk5] at hh
                    exact hh
/-! ## Lemmas: the node-kind tag table -/

theorem knownNodeTypes_tag : ∀ pr ∈ knownNodeTypes, nodeTypeTag pr.2 = pr.1 := by decide

theorem knownNodeTypes_not_other : ∀ pr ∈ knownNodeTypes,
    (match pr.2 with | NodeType.Other _ => false | _ => true) = true := by decide

theorem nodeTypeToJson_tag : ∀ nt : NodeType,
    (match nt with | NodeType.Other _ => false | _ => true) = true →
    nodeTypeToJson nt = .str (nodeTypeTag nt) := by
  intro nt h
  cases nt
  all_goals first
  | rfl
  | exact absurd h (by simp)

theorem nodeTypeOfTag_mem {s : String} {nt : NodeType} (h : nodeTypeOfTag s = some nt) :
    (s, nt) ∈ knownNodeTypes := by
  unfold nodeTypeOfTag at h
  obtain ⟨pr, hfind, hsnd⟩ := Option.map_eq_some'.mp h
  have hmem := List.mem_of_find?_eq_some hfind
  have hpred := List.find?_some hfind
  have h1 : pr.1 = s := of_decide_eq_true hpred
  obtain ⟨a, b⟩ := pr
  simp only at h1 hsnd
  subst h1
  subst hsnd
  exact hmem

theorem nodeTypeOfTag_roundtrip {s : String} {nt : NodeType}
    (h : nodeTypeOfTag s = some nt) : nodeTypeToJson nt = .str s := by
  have hmem := nodeTypeOfTag_mem h
  have h1 := knownNodeTypes_tag _ hmem
  have h2 := knownNodeTypes_not_other _ hmem
  rw [nodeTypeToJson_tag _ h2, h1]

theorem goodNodeType_roundtrip {v : Json} {nt : NodeType}
    (hg : goodNodeTypeJson v = true) (h : nodeTypeFromJson v = .ok nt) :
    nodeTypeToJson nt = v := by
  unfold goodNodeTypeJson at hg
  split at hg
  · rename_i s
    obtain ⟨nt0, ho⟩ := Option.isSome_iff_exists.mp hg
    have hv : nodeTypeFromJson (.str s) = .ok nt0 := by simp [nodeTypeFromJson, ho]
    rw [hv] at h
    injection h with h'
    subst h'
    exact nodeTypeOfTag_roundtrip ho
  · rename_i s
    have hv : nodeTypeFromJson (Json.obj [("Other", Json.str s)]) = .ok (.Other s) := rfl
    rw [hv] at h
    injection h with h'
    subst h'
    rfl
  · exact absurd hg (by simp)

/-! ## Lemmas: serializer equations -/

theorem serNode_mk (i : Nat) (nt : NodeType) (src : SourceLocation) (ns : List Node)
    (b : Option Node) (o : List (String × Json)) :
    serNode (.mk i nt src ns b o) =
      .obj (("id", .num (i : Int)) :: ("nodeType", nodeTypeToJson nt) ::
        ("src", .str (sourceLocationFormat src)) ::
        (serNodesField ns ++ serBodyField b ++ o)) := rfl

theorem serNodesField_nil : serNodesField [] = [] := rfl

theorem serNodesField_cons (n : Node) (ns : List Node) :
    serNodesField (n :: ns) = [("nodes", .arr (serNode n :: serNodeList ns))] := rfl

theorem serNodeList_nil : serNodeList [] = [] := rfl

theorem serNodeList_cons (n : Node) (ns : List Node) :
    serNodeList (n :: ns) = serNode n :: serNodeList ns := rfl

theorem serBodyField_none : serBodyField none = [] := rfl

theorem serBodyField_some (b : Node) : serBodyField (some b) = [("body", serNode b)] := rfl

/-! ## Lemmas: `mapInsert` and sorted folds -/

theorem keyLt_irrefl (a : String) : keyLt a a = false := strLt_irrefl _

theorem mapInsert_mem {α : Type} (k : String) (v : α) :
    ∀ (l : List (String × α)) (y : String × α), y ∈ mapInsert k v l →
      y = (k, v) ∨ y ∈ l := by
  intro l
  induction l with
  | nil =>
    intro y hy
    simp only [mapInsert] at hy
    left
    simpa using hy
  | cons e rest ih =>
    obtain ⟨k', v'⟩ := e
    intro y hy
    simp only [mapInsert] at hy
    by_cases h1 : keyLt k k'
    · rw [if_pos h1] at hy
      rcases List.mem_cons.mp hy with hh | hh
      · left
        exact hh
      · right
        exact hh
    · rw [if_neg h1] at hy
      by_cases h2 : k = k'
      · rw [if_pos h2] at hy
        rcases List.mem_cons.mp hy with hh | hh
        · left
          exact hh
        · right
          exact List.mem_cons_of_mem _ hh
      · rw [if_neg h2] at hy
        rcases List.mem_cons.mp hy with hh | hh
        · right
          rw [hh]
          exact List.mem_cons_self _ _
        · rcases ih y hh with hh2 | hh2
          · left
            exact hh2
          · right
            exact List.mem_cons_of_mem _ hh2

theorem mapInsert_sorted {α : Type} (k : String) (v : α) :
    ∀ l : List (String × α), List.Pairwise (fun a b => keyLt a.1 b.1 = true) l →
      List.Pairwise (fun a b => keyLt a.1 b.1 = true) (mapInsert k v l) := by
  intro l
  induction l with
  | nil =>
    intro _
    simp [mapInsert]
  | cons e rest ih =>
    obtain ⟨k', v'⟩ := e
    intro hp
    rw [List.pairwise_cons] at hp
    obtain ⟨hhead, htail⟩ := hp
    simp only [mapInsert]
    by_cases h1 : keyLt k k'
    · rw [if_pos h1]
      rw [List.pairwise_cons]
      constructor
      · intro x hx
        rcases List.mem_cons.mp hx with hh | hh
        · rw [hh]
          exact h1
        · exact keyLt_trans h1 (hhead x hh)
      · rw [List.pairwise_cons]
        exact ⟨hhead, htail⟩
    · rw [if_neg h1]
      by_cases h2 : k = k'
      · rw [if_pos h2]
        subst h2
        rw [List.pairwise_cons]
        exact ⟨hhead, htail⟩
      · rw [if_neg h2]
        rw [List.pairwise_cons]
        constructor
        · intro x hx
          rcases mapInsert_mem k v rest x hx with hh | hh
          · rw [hh]
            by_cases h3 : keyLt k' k
            · exact h3
            · exact absurd (keyLt_connex (by simpa using h3) (by simpa using h1)).symm h2
          · exact hhead x hh
        · exact ih htail

theorem sortedStrict_keys_nodup {α : Type} {l : List (String × α)}
    (h : List.Pairwise (fun a b => keyLt a.1 b.1 = true) l) :
    (l.map Prod.fst).Nodup := by
  refine List.pairwise_map.mpr (h.imp ?_)
  intro a b hab hq
  rw [hq, keyLt_irrefl] at hab
  simp at hab

theorem otherFold_sorted (known : String → Bool) :
    ∀ (entries : List (String × Json)) (acc : List (String × Json)),
      List.Pairwise (fun a b => keyLt a.1 b.1 = true) acc →
      List.Pairwise (fun a b => keyLt a.1 b.1 = true)
        (List.foldl (fun acc e => if known e.1 then acc else mapInsert e.1 e.2 acc)
          acc entries) := by
  intro entries
  induction entries with
  | nil => exact fun acc h => h
  | cons e rest ih =>
    obtain ⟨k1, v1⟩ := e
    intro acc h
    simp only [List.foldl_cons]
    by_cases hkn : known k1
    · rw [if_pos hkn]
      exact ih acc h
    · rw [if_neg hkn]
      exact ih _ (mapInsert_sorted k1 v1 acc h)

theorem deserSymEntries_sorted :
    ∀ (es : List (String × Json)) (acc out : List (String × List Nat)),
      deserSymEntries es acc = some out →
      List.Pairwise (fun a b => keyLt a.1 b.1 = true) acc →
      List.Pairwise (fun a b => keyLt a.1 b.1 = true) out := by
  intro es
  induction es with
  | nil =>
    intro acc out h hs
    injection h with h'
    subst h'
    exact hs
  | cons e rest ih =>
    obtain ⟨k1, v1⟩ := e
    intro acc out h hs
    simp only [deserSymEntries] at h
    split at h
    · rename_i xs
      split at h
      · rename_i ns hns
        exact ih _ out h (mapInsert_sorted k1 ns acc hs)
      · exact Option.noConfusion h
    · exact Option.noConfusion h

theorem deserSymEntries_skip (k : String) :
    ∀ (es : List (String × Json)) (acc out : List (String × List Nat)),
      deserSymEntries es acc = some out → k ∉ es.map Prod.fst →
      lookupEntry k out = lookupEntry k acc := by
  intro es
  induction es with
  | nil =>
    intro acc out h _
    injection h with h'
    subst h'
    rfl
  | cons e rest ih =>
    obtain ⟨k1, v1⟩ := e
    intro acc out h hnm
    simp only [List.map_cons, List.mem_cons] at hnm
    push_neg at hnm
    obtain ⟨hk1, hrest⟩ := hnm
    simp only [deserSymEntries] at h
    split at h
    · rename_i xs
      split at h
      · rename_i ns hns
        rw [ih _ out h hrest]
        exact lookup_mapInsert_ne k k1 ns hk1 acc
      · exact Option.noConfusion h
    · exact Option.noConfusion h

theorem deserSymEntries_mem (k : String) (xs : List Json) (ns : List Nat) :
    ∀ (es : List (String × Json)) (acc out : List (String × List Nat)),
      deserSymEntries es acc = some out → (es.map Prod.fst).Nodup →
      (k, .arr xs) ∈ es → asUsizeList xs = some ns →
      lookupEntry k out = some ns := by
  intro es
  induction es with
  | nil =>
    intro acc out _ _ hm _
    simp at hm
  | cons e rest ih =>
    obtain ⟨k1, v1⟩ := e
    intro acc out h hnd hm hxs
    simp only [List.map_cons, List.nodup_cons] at hnd
    obtain ⟨hk1, hndrest⟩ := hnd
    simp only [deserSymEntries] at h
    split at h
    · rename_i xs'
      split at h
      · rename_i ns' hns'
        rcases List.mem_cons.mp hm with hh | hh
        · injection hh with hh1 hh2
          subst hh1
          injection hh2 with hh3
          subst hh3
          rw [hxs] at hns'
          injection hns' with hh4
          subst hh4
          rw [deserSymEntries_skip k rest _ out h hk1]
          exact lookup_mapInsert_self k ns acc
        · exact ih _ out h hndrest hh hxs
      · exact Option.noConfusion h
    · exact Option.noConfusion h

/-! ## Lemmas: `serSyms` -/

theorem serSyms_keys : ∀ sy, (serSyms sy).map Prod.fst = sy.map Prod.fst := by
  intro sy
  induction sy with
  | nil => rfl
  | cons e rest ih =>
    obtain ⟨k, ns⟩ := e
    simp only [serSyms, List.map_cons]
    rw [ih]

theorem serSyms_lookup (k : String) :
    ∀ sy, lookupEntry k (serSyms sy) =
      (lookupEntry k sy).map
        (fun ns => Json.arr (ns.map (fun (n : Nat) => Json.num (n : Int)))) := by
  intro sy
  induction sy with
  | nil => rfl
  | cons e rest ih =>
    obtain ⟨k', ns⟩ := e
    simp only [serSyms]
    by_cases hk : k' = k
    · subst hk
      rw [lookupEntry_cons_self, lookupEntry_cons_self]
      rfl
    · rw [lookupEntry_cons_ne _ _ hk, lookupEntry_cons_ne _ _ hk]
      exact ih

/-! ## Lemmas: per-entry goodness by membership -/

theorem goodSymEntries_mem :
    ∀ {es : List (String × Json)} {k : String} {v : Json}, goodSymEntries es = true →
      (k, v) ∈ es → ∃ xs, v = .arr xs ∧ goodUsizeArr xs = true := by
  intro es
  induction es with
  | nil =>
    intro k v _ hm
    simp at hm
  | cons e rest ih =>
    obtain ⟨k1, v1⟩ := e
    intro k v h hm
    simp only [goodSymEntries, Bool.and_eq_true] at h
    obtain ⟨h1, h2⟩ := h
    rcases List.mem_cons.mp hm with hh | hh
    · injection hh with hh1 hh2
      subst hh2
      split at h1
      · rename_i xs
        exact ⟨xs, rfl, h1⟩
      · exact absurd h1 (by simp)
    · exact ih h2 hh

theorem goodNodeEntries_mem :
    ∀ {entries : List (String × Json)} {k : String} {v : Json},
      goodNodeEntries entries = true → (k, v) ∈ entries →
      (if k = "id" then (asUsize v).isSome
       else if k = "nodeType" then goodNodeTypeJson v
       else if k = "src" then goodSrcJson v
       else if k = "nodes" then goodNodesValue v
       else if k = "body" then goodNodeJson v
       else true) = true := by
  intro entries
  induction entries with
  | nil =>
    intro k v _ hm
    simp at hm
  | cons e rest ih =>
    obtain ⟨k1, v1⟩ := e
    intro k v h hm
    simp only [goodNodeEntries, Bool.and_eq_true] at h
    obtain ⟨h1, h2⟩ := h
    rcases List.mem_cons.mp hm with hh | hh
    · injection hh with hh1 hh2
      subst hh1
      subst hh2
      exact h1
    · exact ih h2 hh

theorem goodAstEntries_mem :
    ∀ {entries : List (String × Json)} {k : String} {v : Json},
      goodAstEntries entries = true → (k, v) ∈ entries →
      (if k = "absolutePath" then isStrJson v
       else if k = "id" then (asUsize v).isSome
       else if k = "exportedSymbols" then goodSymsValue v
       else if k = "nodeType" then goodNodeTypeJson v
       else if k = "src" then goodSrcJson v
       else if k = "nodes" then goodNodesValue v
       else true) = true := by
  intro entries
  induction entries with
  | nil =>
    intro k v _ hm
    simp at hm
  | cons e rest ih =>
    obtain ⟨k1, v1⟩ := e
    intro k v h hm
    simp only [goodAstEntries, Bool.and_eq_true] at h
    obtain ⟨h1, h2⟩ := h
    rcases List.mem_cons.mp hm with hh | hh
    · injection hh with hh1 hh2
      subst hh1
      subst hh2
      exact h1
    · exact ih h2 hh
/-! ## Lemmas: toward the round trip -/

theorem notMem_keys_of_lookup_none {α : Type} {k : String} {l : List (String × α)}
    (h : lookupEntry k l = none) : k ∉ l.map Prod.fst := by
  intro hm
  have hx := lookupEntry_isSome_of_mem_keys hm
  rw [h] at hx
  simp at hx

theorem sizeOf_val_lt {entries : List (String × Json)} {k : String} {v : Json}
    (h : (k, v) ∈ entries) : sizeOf v < sizeOf (Json.obj entries) := by
  have h1 := List.sizeOf_lt_of_mem h
  have h2 : sizeOf (k, v) = 1 + sizeOf k + sizeOf v := rfl
  have h3 : sizeOf (Json.obj entries) = 1 + sizeOf entries := by simp
  omega

theorem sizeOf_elem_lt {entries : List (String × Json)} {k : String} {xs : List Json}
    {x : Json} (h : (k, .arr xs) ∈ entries) (hx : x ∈ xs) :
    sizeOf x < sizeOf (Json.obj entries) := by
  have h1 := sizeOf_val_lt h
  have h2 := List.sizeOf_lt_of_mem hx
  have h3 : sizeOf (Json.arr xs) = 1 + sizeOf xs := by simp
  omega

theorem serNode_eta (n : Node) :
    serNode n = .obj (("id", .num (n.id : Int)) :: ("nodeType", nodeTypeToJson n.node_type) ::
      ("src", .str (sourceLocationFormat n.src)) ::
      (serNodesField n.nodes ++ serBodyField n.body ++ n.other)) := by
  cases n
  rfl

theorem serNodesField_lookup_ne {k : String} (hk : ¬(k = "nodes")) :
    ∀ ns, lookupEntry k (serNodesField ns) = none := by
  intro ns
  cases ns with
  | nil => rfl
  | cons n rest =>
    rw [serNodesField_cons, lookupEntry_cons_ne _ _ (fun hq => hk hq.symm)]
    rfl

theorem serBodyField_lookup_ne {k : String} (hk : ¬(k = "body")) :
    ∀ b, lookupEntry k (serBodyField b) = none := by
  intro b
  cases b with
  | none => rfl
  | some n =>
    rw [serBodyField_some, lookupEntry_cons_ne _ _ (fun hq => hk hq.symm)]
    rfl

theorem deserNodeList_cons_inv {x : Json} {xs : List Json} {ns : List Node}
    (h : deserNodeList (x :: xs) = .ok ns) :
    ∃ n1 ns1, deserNode x = .ok n1 ∧ deserNodeList xs = .ok ns1 ∧ ns = n1 :: ns1 := by
  cases hx : deserNode x with
  | error e =>
    rw [eqL_cons_err hx] at h
    exact absurd h (by simp)
  | ok n1 =>
    cases hxs : deserNodeList xs with
    | error e =>
      have hz : deserNodeList (x :: xs) = .error e := by
        simp only [deserNodeList, hx, hxs]
      rw [hz] at h
      exact absurd h (by simp)
    | ok ns1 =>
      rw [eqL_cons_ok hx hxs] at h
      injection h with h'
      exact ⟨n1, ns1, rfl, rfl, h'.symm⟩

theorem canonList_roundtrip :
    ∀ (xs : List Json) (ns : List Node), deserNodeList xs = .ok ns →
      (∀ x ∈ xs, ∃ b, deserNode x = .ok b ∧ jsonCanon (serNode b) = jsonCanon x) →
      canonList (serNodeList ns) = canonList xs := by
  intro xs
  induction xs with
  | nil =>
    intro ns h _
    rw [eqL_nil] at h
    injection h with h'
    subst h'
    rfl
  | cons y ys ih =>
    intro ns h hall
    obtain ⟨n1, ns1, hy, hys, hns⟩ := deserNodeList_cons_inv h
    subst hns
    obtain ⟨b, hb, hc⟩ := hall y (List.mem_cons_self _ _)
    rw [hy] at hb
    injection hb with hb'
    subst hb'
    rw [serNodeList_cons, canonList_cons, canonList_cons, hc,
      ih ns1 hys (fun x hx => hall x (List.mem_cons_of_mem _ hx))]

theorem serNodeEntries_keys_nodup (x1 x2 x3 : Json) (ns : List Node) (b : Option Node)
    (other : List (String × Json)) (hnd : (other.map Prod.fst).Nodup)
    (h1 : lookupEntry "nodes" other = none) (h2 : lookupEntry "body" other = none)
    (h3 : lookupEntry "id" other = none) (h4 : lookupEntry "nodeType" other = none)
    (h5 : lookupEntry "src" other = none) :
    ((("id", x1) :: ("nodeType", x2) :: ("src", x3) ::
      (serNodesField ns ++ serBodyField b ++ other)).map Prod.fst).Nodup := by
  have m1 := notMem_keys_of_lookup_none h1
  have m2 := notMem_keys_of_lookup_none h2
  have m3 := notMem_keys_of_lookup_none h3
  have m4 := notMem_keys_of_lookup_none h4
  have m5 := notMem_keys_of_lookup_none h5
  cases ns with
  | nil =>
    cases b with
    | none =>
      simp only [serNodesField_nil, serBodyField_none, List.nil_append, List.map_cons,
        List.nodup_cons, List.mem_cons]
      refine ⟨?_, ?_, ?_, hnd⟩
      · push_neg
        exact ⟨by decide, by decide, m3⟩
      · push_neg
        exact ⟨by decide, m4⟩
      · exact m5
    | some b0 =>
      simp only [serNodesField_nil, serBodyField_some, List.nil_append, List.cons_append,
        List.map_cons, List.nodup_cons, List.mem_cons]
      refine ⟨?_, ?_, ?_, ?_, hnd⟩
      · push_neg
        exact ⟨by decide, by decide, by decide, m3⟩
      · push_neg
        exact ⟨by decide, by decide, m4⟩
      · push_neg
        exact ⟨by decide, m5⟩
      · exact m2
  | cons n0 ns0 =>
    cases b with
    | none =>
      simp only [serNodesField_cons, serBodyField_none, List.append_nil, List.cons_append,
        List.nil_append, List.map_cons, List.nodup_cons, List.mem_cons]
      refine ⟨?_, ?_, ?_, ?_, hnd⟩
      · push_neg
        exact ⟨by decide, by decide, by decide, m3⟩
      · push_neg
        exact ⟨by decide, by decide, m4⟩
      · push_neg
        exact ⟨by decide, m5⟩
      · exact m1
    | some b0 =>
      simp only [serNodesField_cons, serBodyField_some, List.cons_append, List.nil_append,
        List.map_cons, List.nodup_cons, List.mem_cons]
      refine ⟨?_, ?_, ?_, ?_, ?_, hnd⟩
      · push_neg
        exact ⟨by decide, by decide, by decide, by decide, m3⟩
      · push_neg
        exact ⟨by decide, by decide, by decide, m4⟩
      · push_neg
        exact ⟨by decide, by decide, m5⟩
      · push_neg
        exact ⟨by decide, m1⟩
      · exact m2

theorem serAstEntries_keys_nodup (x1 x2 x3 x4 x5 : Json) (ns : List Node)
    (other : List (String × Json)) (hnd : (other.map Prod.fst).Nodup)
    (h1 : lookupEntry "nodes" other = none)
    (h2 : lookupEntry "absolutePath" other = none) (h3 : lookupEntry "id" other = none)
    (h4 : lookupEntry "exportedSymbols" other = none)
    (h5 : lookupEntry "nodeType" other = none) (h6 : lookupEntry "src" other = none) :
    ((("absolutePath", x1) :: ("id", x2) :: ("exportedSymbols", x3) ::
      ("nodeType", x4) :: ("src", x5) ::
      (serNodesField ns ++ other)).map Prod.fst).Nodup := by
  have m1 := notMem_keys_of_lookup_none h1
  have m2 := notMem_keys_of_lookup_none h2
  have m3 := notMem_keys_of_lookup_none h3
  have m4 := notMem_keys_of_lookup_none h4
  have m5 := notMem_keys_of_lookup_none h5
  have m6 := notMem_keys_of_lookup_none h6
  cases ns with
  | nil =>
    simp only [serNodesField_nil, List.nil_append, List.map_cons, List.nodup_cons,
      List.mem_cons]
    refine ⟨?_, ?_, ?_, ?_, ?_, hnd⟩
    · push_neg
      exact ⟨by decide, by decide, by decide, by decide, m2⟩
    · push_neg
      exact ⟨by decide, by decide, by decide, m3⟩
    · push_neg
      exact ⟨by decide, by decide, m4⟩
    · push_neg
      exact ⟨by decide, m5⟩
    · exact m6
  | cons n0 ns0 =>
    simp only [serNodesField_cons, List.cons_append, List.nil_append, List.map_cons,
      List.nodup_cons, List.mem_cons]
    refine ⟨?_, ?_, ?_, ?_, ?_, ?_, hnd⟩
    · push_neg
      exact ⟨by decide, by decide, by decide, by decide, by decide, m2⟩
    · push_neg
      exact ⟨by decide, by decide, by decide, by decide, m3⟩
    · push_neg
      exact ⟨by decide, by decide, by decide, m4⟩
    · push_neg
      exact ⟨by decide, by decide, m5⟩
    · push_neg
      exact ⟨by decide, m6⟩
    · exact m1
theorem nodeRoundtripAux :
    ∀ (fuel : Nat) (j : Json), sizeOf j ≤ fuel → goodNodeJson j = true →
      ∃ n, deserNode j = .ok n ∧ jsonCanon (serNode n) = jsonCanon j := by
  intro fuel
  induction fuel with
  | zero =>
    intro j hsz hg
    obtain ⟨entries, hj⟩ := goodNodeJson_obj hg
    subst hj
    have h3 : sizeOf (Json.obj entries) = 1 + sizeOf entries := by simp
    omega
  | succ fuel ih =>
    intro j hsz hg
    obtain ⟨entries, hj⟩ := goodNodeJson_obj hg
    subst hj
    simp only [goodNodeJson, Bool.and_eq_true] at hg
    obtain ⟨⟨⟨⟨hdk, hid⟩, hnt⟩, hsrc⟩, hge⟩ := hg
    have hchild : ∀ xs x, ("nodes", Json.arr xs) ∈ entries → x ∈ xs →
        goodNodeJson x = true →
        ∃ b, deserNode x = .ok b ∧ jsonCanon (serNode b) = jsonCanon x := by
      intro xs x hxs hx hgx
      refine ih x ?_ hgx
      have h1 := sizeOf_elem_lt hxs hx
      omega
    have hbodyIH : ∀ v, ("body", v) ∈ entries → goodNodeJson v = true →
        ∃ b, deserNode v = .ok b ∧ jsonCanon (serNode b) = jsonCanon v := by
      intro v hv hgv
      refine ih v ?_ hgv
      have h1 := sizeOf_val_lt hv
      omega
    obtain ⟨n, hok⟩ := deserNodeFields_success entries ⟨none, none, none, none, none, []⟩
      hge hdk (fun v hv hgv => (hbodyIH v hv hgv).imp (fun b hb => hb.1))
      (fun xs x hxs hx hgx => (hchild xs x hxs hx hgx).imp (fun b hb => hb.1))
      (fun _ => rfl) (fun _ => rfl) (fun _ => rfl) (fun _ => rfl) (fun _ => rfl)
      (Or.inr hid) (Or.inr hnt) (Or.inr hsrc)
    refine ⟨n, by rw [deserNode_obj]; exact hok, ?_⟩
    have hother : n.other = List.foldl
        (fun acc e => if isKnownNodeKey e.1 then acc else mapInsert e.1 e.2 acc)
        [] entries := deserNodeFields_other entries _ n hok
    have hosorted : List.Pairwise (fun a b => keyLt a.1 b.1 = true) n.other := by
      rw [hother]
      exact otherFold_sorted _ entries [] List.Pairwise.nil
    have hond : (n.other.map Prod.fst).Nodup := sortedStrict_keys_nodup hosorted
    have hoknown : ∀ k, isKnownNodeKey k = true → lookupEntry k n.other = none := by
      intro k hk
      rw [hother]
      rw [lookup_foldl_known _ k hk entries []]
      rfl
    have hndk := distinctKeys_nodup hdk
    rw [serNode_eta]
    refine jsonCanon_obj_ext ?_ hndk ?_
    · exact serNodeEntries_keys_nodup _ _ _ n.nodes n.body n.other hond
        (hoknown _ (by decide)) (hoknown _ (by decide)) (hoknown _ (by decide))
        (hoknown _ (by decide)) (hoknown _ (by decide))
    · intro k
      by_cases hk1 : k = "id"
      · subst hk1
        rw [lookupEntry_cons_self]
        obtain ⟨v, hv⟩ := Option.isSome_iff_exists.mp hid
        have hvv := deserNodeFields_id_val entries _ n v hok (lookupEntry_mem hv)
        rw [hv, asUsize_inv hvv]
      · by_cases hk2 : k = "nodeType"
        · subst hk2
          rw [lookupEntry_cons_ne _ _ (by decide), lookupEntry_cons_self]
          obtain ⟨v, hv⟩ := Option.isSome_iff_exists.mp hnt
          have hvv := deserNodeFields_nt_val entries _ n v hok (lookupEntry_mem hv)
          have hgood := goodNodeEntries_mem hge (lookupEntry_mem hv)
          rw [if_neg (by decide), if_pos rfl] at hgood
          rw [hv, goodNodeType_roundtrip hgood hvv]
        · by_cases hk3 : k = "src"
          · subst hk3
            rw [lookupEntry_cons_ne _ _ (by decide), lookupEntry_cons_ne _ _ (by decide),
              lookupEntry_cons_self]
            obtain ⟨v, hv⟩ := Option.isSome_iff_exists.mp hsrc
            obtain ⟨s, hvs, hparse⟩ :=
              deserNodeFields_src_val entries _ n v hok (lookupEntry_mem hv)
            subst hvs
            have hgood := goodNodeEntries_mem hge (lookupEntry_mem hv)
            rw [if_neg (by decide), if_neg (by decide), if_pos rfl] at hgood
            obtain ⟨s', loc', heq, hparse', hformat⟩ := goodSrcJson_ok hgood
            injection heq with heqs
            subst heqs
            rw [hparse] at hparse'
            injection hparse' with hploc
            subst hploc
            rw [hv, hformat]
          · by_cases hk4 : k = "nodes"
            · subst hk4
              rw [lookupEntry_cons_ne _ _ (by decide), lookupEntry_cons_ne _ _ (by decide),
                lookupEntry_cons_ne _ _ (by decide), List.append_assoc]
              cases hlk : lookupEntry "nodes" entries with
              | none =>
                have habs := deserNodeFields_nodes_absent entries _ n hok hlk
                have hnil : n.nodes = [] := by simpa using habs
                rw [hnil, serNodesField_nil, List.nil_append]
                rw [lookupEntry_append_none _ (serBodyField_lookup_ne (by decide) n.body)]
                rw [hoknown _ (by decide)]
              | some v =>
                have hvv :=
                  deserNodeFields_nodes_val entries _ n v hok (lookupEntry_mem hlk)
                have hgood := goodNodeEntries_mem hge (lookupEntry_mem hlk)
                rw [if_neg (by decide), if_neg (by decide), if_neg (by decide),
                  if_pos rfl] at hgood
                obtain ⟨x, xs, hvx, hgx, hgxs⟩ := goodNodesValue_shape hgood
                subst hvx
                rw [deserNodeMaybeArr_arr] at hvv
                have hcanon : canonList (serNodeList n.nodes) = canonList (x :: xs) := by
                  refine canonList_roundtrip _ _ hvv ?_
                  intro y hy
                  refine hchild (x :: xs) y (lookupEntry_mem hlk) hy ?_
                  rcases List.mem_cons.mp hy with hh | hh
                  · subst hh
                    exact hgx
                  · exact goodNodeListJson_mem hgxs y hh
                obtain ⟨n1, ns1, _, _, hns⟩ := deserNodeList_cons_inv hvv
                rw [hns, serNodesField_cons]
                rw [lookupEntry_append_some _ (lookupEntry_cons_self _ _ _)]
                simp only [Option.map_some']
                congr 1
                rw [jsonCanon_arr, jsonCanon_arr]
                congr 1
                rw [← serNodeList_cons, ← hns]
                exact hcanon
            · by_cases hk5 : k = "body"
              · subst hk5
                rw [lookupEntry_cons_ne _ _ (by decide), lookupEntry_cons_ne _ _ (by decide),
                  lookupEntry_cons_ne _ _ (by decide), List.append_assoc]
                rw [lookupEntry_append_none _ (serNodesField_lookup_ne (by decide) n.nodes)]
                cases hlk : lookupEntry "body" entries with
                | none =>
                  have habs := deserNodeFields_body_absent entries _ n hok hlk
                  have hnone : n.body = none := by simpa using habs
                  rw [hnone, serBodyField_none, List.nil_append]
                  rw [hoknown _ (by decide)]
                | some v =>
                  have hvv :=
                    deserNodeFields_body_val entries _ n v hok (lookupEntry_mem hlk)
                  have hgood := goodNodeEntries_mem hge (lookupEntry_mem hlk)
                  rw [if_neg (by decide), if_neg (by decide), if_neg (by decide),
                    if_neg (by decide), if_pos rfl] at hgood
                  obtain ⟨b0, hb0, hc0⟩ := hbodyIH v (lookupEntry_mem hlk) hgood
                  obtain ⟨es, hves⟩ := goodNodeJson_obj hgood
                  subst hves
                  have hmb := deserNodeMaybeBody_obj_ok hb0
                  rw [hmb] at hvv
                  injection hvv with hvb
                  rw [← hvb, serBodyField_some]
                  rw [lookupEntry_append_some _ (lookupEntry_cons_self _ _ _)]
                  simp only [Option.map_some']
                  exact congrArg some hc0
              · rw [lookupEntry_cons_ne _ _ (fun hq => hk1 hq.symm),
                  lookupEntry_cons_ne _ _ (fun hq => hk2 hq.symm),
                  lookupEntry_cons_ne _ _ (fun hq => hk3 hq.symm), List.append_assoc]
                rw [lookupEntry_append_none _ (serNodesField_lookup_ne hk4 n.nodes)]
                rw [lookupEntry_append_none _ (serBodyField_lookup_ne hk5 n.body)]
                have hkn : isKnownNodeKey k = false := by
                  simp [isKnownNodeKey, hk1, hk2, hk3, hk4, hk5]
                cases hlk : lookupEntry k entries with
                | none =>
                  rw [hother,
                    lookup_foldl_skip _ k entries [] (notMem_keys_of_lookup_none hlk)]
                  rfl
                | some v =>
                  rw [hother,
                    lookup_foldl_mem _ entries [] k v hndk (lookupEntry_mem hlk) hkn]
theorem goodSymsValue_shape : ∀ {v : Json}, goodSymsValue v = true →
    ∃ es, v = .obj es ∧ distinctKeys es = true ∧ goodSymEntries es = true := by
  intro v h
  unfold goodSymsValue at h
  split at h
  · rename_i es
    simp only [Bool.and_eq_true] at h
    exact ⟨es, rfl, h.1, h.2⟩
  · exact absurd h (by simp)

theorem goodAstJson_obj : ∀ {v : Json}, goodAstJson v = true → ∃ es, v = .obj es := by
  intro v h
  unfold goodAstJson at h
  split at h
  · rename_i es
    exact ⟨es, rfl⟩
  · exact absurd h (by simp)

theorem symsCanon_eq {es2 : List (String × Json)} {syms : List (String × List Nat)}
    (hde : deserSymEntries es2 [] = some syms) (hdk2 : distinctKeys es2 = true)
    (hgs : goodSymEntries es2 = true) :
    jsonCanon (.obj (serSyms syms)) = jsonCanon (.obj es2) := by
  have hsorted : List.Pairwise (fun a b => keyLt a.1 b.1 = true) syms :=
    deserSymEntries_sorted es2 [] syms hde List.Pairwise.nil
  have hndsyms : (syms.map Prod.fst).Nodup := sortedStrict_keys_nodup hsorted
  have hndes := distinctKeys_nodup hdk2
  refine jsonCanon_obj_ext ?_ hndes ?_
  · rw [serSyms_keys]
    exact hndsyms
  · intro k0
    rw [serSyms_lookup]
    cases hlk2 : lookupEntry k0 es2 with
    | none =>
      rw [deserSymEntries_skip k0 es2 [] syms hde (notMem_keys_of_lookup_none hlk2)]
      rfl
    | some w =>
      obtain ⟨xs0, hw, hgu⟩ := goodSymEntries_mem hgs (lookupEntry_mem hlk2)
      subst hw
      obtain ⟨ms, hms, hmap⟩ := goodUsizeArr_ok hgu
      rw [deserSymEntries_mem k0 xs0 ms es2 [] syms hde hndes (lookupEntry_mem hlk2) hms]
      simp only [Option.map_some']
      rw [hmap]

theorem astRoundtripAux :
    ∀ j : Json, goodAstJson j = true →
      ∃ a, deserAst j = .ok a ∧ jsonCanon (serAst a) = jsonCanon j := by
  intro j hg
  obtain ⟨entries, hj⟩ := goodAstJson_obj hg
  subst hj
  simp only [goodAstJson, Bool.and_eq_true] at hg
  obtain ⟨⟨⟨⟨⟨⟨hdk, habs⟩, hid⟩, hsyms⟩, hnt⟩, hsrc⟩, hge⟩ := hg
  have hchild : ∀ xs x, ("nodes", Json.arr xs) ∈ entries → x ∈ xs →
      goodNodeJson x = true →
      ∃ b, deserNode x = .ok b ∧ jsonCanon (serNode b) = jsonCanon x := by
    intro xs x _ _ hgx
    exact nodeRoundtripAux (sizeOf x) x (le_refl _) hgx
  obtain ⟨a, hok⟩ := deserAstFields_success entries
    ⟨none, none, none, none, none, none, []⟩ hge hdk
    (fun xs x hxs hx hgx => (hchild xs x hxs hx hgx).imp (fun b hb => hb.1))
    (fun _ => rfl) (fun _ => rfl) (fun _ => rfl) (fun _ => rfl) (fun _ => rfl)
    (fun _ => rfl) (Or.inr habs) (Or.inr hid) (Or.inr hnt) (Or.inr hsrc)
  refine ⟨a, by rw [deserAst_obj]; exact hok, ?_⟩
  have hother : a.other = List.foldl
      (fun acc e => if isKnownAstKey e.1 then acc else mapInsert e.1 e.2 acc)
      [] entries := deserAstFields_other entries _ a hok
  have hosorted : List.Pairwise (fun a b => keyLt a.1 b.1 = true) a.other := by
    rw [hother]
    exact otherFold_sorted _ entries [] List.Pairwise.nil
  have hond : (a.other.map Prod.fst).Nodup := sortedStrict_keys_nodup hosorted
  have hoknown : ∀ k, isKnownAstKey k = true → lookupEntry k a.other = none := by
    intro k hk
    rw [hother]
    rw [lookup_foldl_known _ k hk entries []]
    rfl
  have hndk := distinctKeys_nodup hdk
  rw [show serAst a = Json.obj (("absolutePath", Json.str a.absolute_path) ::
      ("id", Json.num (a.id : Int)) ::
      ("exportedSymbols", Json.obj (serSyms a.exported_symbols)) ::
      ("nodeType", nodeTypeToJson a.node_type) ::
      ("src", Json.str (sourceLocationFormat a.src)) ::
      (serNodesField a.nodes ++ a.other)) from rfl]
  refine jsonCanon_obj_ext ?_ hndk ?_
  · exact serAstEntries_keys_nodup _ _ _ _ _ a.nodes a.other hond
      (hoknown _ (by decide)) (hoknown _ (by decide)) (hoknown _ (by decide))
      (hoknown _ (by decide)) (hoknown _ (by decide)) (hoknown _ (by decide))
  · intro k
    by_cases hk1 : k = "absolutePath"
    · subst hk1
      rw [lookupEntry_cons_self]
      obtain ⟨v, hv⟩ := Option.isSome_iff_exists.mp habs
      have hvv := deserAstFields_abs_val entries _ a v hok (lookupEntry_mem hv)
      rw [hv, hvv]
    · by_cases hk2 : k = "id"
      · subst hk2
        rw [lookupEntry_cons_ne _ _ (by decide), lookupEntry_cons_self]
        obtain ⟨v, hv⟩ := Option.isSome_iff_exists.mp hid
        have hvv := deserAstFields_id_val entries _ a v hok (lookupEntry_mem hv)
        rw [hv, asUsize_inv hvv]
      · by_cases hk3 : k = "exportedSymbols"
        · subst hk3
          rw [lookupEntry_cons_ne _ _ (by decide), lookupEntry_cons_ne _ _ (by decide),
            lookupEntry_cons_self]
          obtain ⟨v, hv⟩ := Option.isSome_iff_exists.mp hsyms
          have hvv := deserAstFields_syms_val entries _ a v hok (lookupEntry_mem hv)
          have hgood := goodAstEntries_mem hge (lookupEntry_mem hv)
          rw [if_neg (by decide), if_neg (by decide), if_pos rfl] at hgood
          obtain ⟨es2, hves, hdk2, hgs⟩ := goodSymsValue_shape hgood
          subst hves
          have hde : deserSymEntries es2 [] = some a.exported_symbols := hvv
          rw [hv]
          simp only [Option.map_some']
          exact congrArg some (symsCanon_eq hde hdk2 hgs)
        · by_cases hk4 : k = "nodeType"
          · subst hk4
            rw [lookupEntry_cons_ne _ _ (by decide), lookupEntry_cons_ne _ _ (by decide),
              lookupEntry_cons_ne _ _ (by decide), lookupEntry_cons_self]
            obtain ⟨v, hv⟩ := Option.isSome_iff_exists.mp hnt
            have hvv := deserAstFields_nt_val entries _ a v hok (lookupEntry_mem hv)
            have hgood := goodAstEntries_mem hge (lookupEntry_mem hv)
            rw [if_neg (by decide), if_neg (by decide), if_neg (by decide),
              if_pos rfl] at hgood
            rw [hv, goodNodeType_roundtrip hgood hvv]
          · by_cases hk5 : k = "src"
            · subst hk5
              rw [lookupEntry_cons_ne _ _ (by decide), lookupEntry_cons_ne _ _ (by decide),
                lookupEntry_cons_ne _ _ (by decide), lookupEntry_cons_ne _ _ (by decide),
                lookupEntry_cons_self]
              obtain ⟨v, hv⟩ := Option.isSome_iff_exists.mp hsrc
              obtain ⟨s, hvs, hparse⟩ :=
                deserAstFields_src_val entries _ a v hok (lookupEntry_mem hv)
              subst hvs
              have hgood := goodAstEntries_mem hge (lookupEntry_mem hv)
              rw [if_neg (by decide), if_neg (by decide), if_neg (by decide),
                if_neg (by decide), if_pos rfl] at hgood
              obtain ⟨s', loc', heq, hparse', hformat⟩ := goodSrcJson_ok hgood
              injection heq with heqs
              subst heqs
              rw [hparse] at hparse'
              injection hparse' with hploc
              subst hploc
              rw [hv, hformat]
            · by_cases hk6 : k = "nodes"
              · subst hk6
                rw [lookupEntry_cons_ne _ _ (by decide), lookupEntry_cons_ne _ _ (by decide),
                  lookupEntry_cons_ne _ _ (by decide), lookupEntry_cons_ne _ _ (by decide),
                  lookupEntry_cons_ne _ _ (by decide)]
                cases hlk : lookupEntry "nodes" entries with
                | none =>
                  have habs2 := deserAstFields_nodes_absent entries _ a hok hlk
                  have hnil : a.nodes = [] := by simpa using habs2
                  rw [hnil, serNodesField_nil, List.nil_append]
                  rw [hoknown _ (by decide)]
                | some v =>
                  have hvv :=
                    deserAstFields_nodes_val entries _ a v hok (lookupEntry_mem hlk)
                  have hgood := goodAstEntries_mem hge (lookupEntry_mem hlk)
                  rw [if_neg (by decide), if_neg (by decide), if_neg (by decide),
                    if_neg (by decide), if_neg (by decide), if_pos rfl] at hgood
                  obtain ⟨x, xs, hvx, hgx, hgxs⟩ := goodNodesValue_shape hgood
                  subst hvx
                  rw [deserNodeMaybeArr_arr] at hvv
                  have hcanon : canonList (serNodeList a.nodes) = canonList (x :: xs) := by
                    refine canonList_roundtrip _ _ hvv ?_
                    intro y hy
                    refine hchild (x :: xs) y (lookupEntry_mem hlk) hy ?_
                    rcases List.mem_cons.mp hy with hh | hh
                    · subst hh
                      exact hgx
                    · exact goodNodeListJson_mem hgxs y hh
                  obtain ⟨n1, ns1, _, _, hns⟩ := deserNodeList_cons_inv hvv
                  rw [hns, serNodesField_cons]
                  rw [lookupEntry_append_some _ (lookupEntry_cons_self _ _ _)]
                  simp only [Option.map_some']
                  congr 1
                  rw [jsonCanon_arr, jsonCanon_arr]
                  congr 1
                  rw [← serNodeList_cons, ← hns]
                  exact hcanon
              · rw [lookupEntry_cons_ne _ _ (fun hq => hk1 hq.symm),
                  lookupEntry_cons_ne _ _ (fun hq => hk2 hq.symm),
                  lookupEntry_cons_ne _ _ (fun hq => hk3 hq.symm),
                  lookupEntry_cons_ne _ _ (fun hq => hk4 hq.symm),
                  lookupEntry_cons_ne _ _ (fun hq => hk5 hq.symm)]
                rw [lookupEntry_append_none _ (serNodesField_lookup_ne hk6 a.nodes)]
                have hkn : isKnownAstKey k = false := by
                  simp [isKnownAstKey, hk1, hk2, hk3, hk4, hk5, hk6]
                cases hlk : lookupEntry k entries with
                | none =>
                  rw [hother,
                    lookup_foldl_skip _ k entries [] (notMem_keys_of_lookup_none hlk)]
                  rfl
                | some v =>
                  rw [hother,
                    lookup_foldl_mem _ entries [] k v hndk (lookupEntry_mem hlk) hkn]
/-! ## Claim C4: the round trip modulo key order -/

/-- C4 counterexample: the node object
`{"id":1,"nodeType":"Block","src":"0:1:0","nodes":[]}` has valid required
fields and parses successfully, but re-serialization drops the
explicitly-empty `nodes` entry (`skip_serializing_if = "Vec::is_empty"`),
so the output is not identical to the input even modulo object key
ordering — an entire key/value pair is gone. -/
theorem node_roundtrip_counterexample :
    deserNode (.obj [("id", .num 1), ("nodeType", .str "Block"), ("src", .str "0:1:0"),
      ("nodes", .arr [])]) = .ok (.mk 1 .Block ⟨0, some 1, some 0⟩ [] none []) ∧
    serNode (.mk 1 .Block ⟨0, some 1, some 0⟩ [] none []) =
      .obj [("id", .num 1), ("nodeType", .str "Block"), ("src", .str "0:1:0")] ∧
    jsonCanon (serNode (.mk 1 .Block ⟨0, some 1, some 0⟩ [] none [])) ≠
      jsonCanon (.obj [("id", .num 1), ("nodeType", .str "Block"), ("src", .str "0:1:0"),
        ("nodes", .arr [])]) := by
  refine ⟨rfl, rfl, ?_⟩
  intro h
  have h2 := congrArg (fun j => match j with | Json.obj l => l.length | _ => 0) h
  exact absurd h2 (by decide)

/-- C4 (amended): for every well-formed node object — pairwise-distinct keys,
the required `id`/`nodeType`/`src` present and valid, `src` in canonical
rendering, `nodeType` a known tag string or the `{"Other": s}` map, `nodes`
(when present) a nonempty array of such objects, `body` (when present) such
an object — parsing succeeds and re-serializing yields a JSON value
identical to the input modulo object key ordering (equal recursive
canonical forms), preserving every unmodeled key/value pair exactly; and
likewise for the root `Ast` object, which additionally needs
`absolutePath` and a well-formed `exportedSymbols` present. -/
theorem node_roundtrip_modulo_key_order :
    (∀ j, goodNodeJson j = true →
      ∃ n, deserNode j = .ok n ∧ jsonCanon (serNode n) = jsonCanon j) ∧
    ∀ j, goodAstJson j = true →
      ∃ a, deserAst j = .ok a ∧ jsonCanon (serAst a) = jsonCanon j :=
  ⟨fun j hg => nodeRoundtripAux (sizeOf j) j (le_refl _) hg, astRoundtripAux⟩

theorem node_roundtrip_modulo_key_order_witness :
    (goodNodeJson (.obj [("nodes", .arr [.obj [("id", .num 2), ("nodeType", .str "Block"),
        ("src", .str "1:2:0")]]), ("id", .num 1),
        ("nodeType", .obj [("Other", .str "New")]), ("src", .str "0:5:-1"),
        ("zz", .null)]) = true ∧
      ∃ n, deserNode (.obj [("nodes", .arr [.obj [("id", .num 2),
          ("nodeType", .str "Block"), ("src", .str "1:2:0")]]), ("id", .num 1),
          ("nodeType", .obj [("Other", .str "New")]), ("src", .str "0:5:-1"),
          ("zz", .null)]) = .ok n ∧
        jsonCanon (serNode n) =
          jsonCanon (.obj [("nodes", .arr [.obj [("id", .num 2),
            ("nodeType", .str "Block"), ("src", .str "1:2:0")]]), ("id", .num 1),
            ("nodeType", .obj [("Other", .str "New")]), ("src", .str "0:5:-1"),
            ("zz", .null)])) ∧
    goodAstJson (.obj [("absolutePath", .str "a.sol"), ("id", .num 0),
        ("exportedSymbols", .obj [("B", .arr [.num 1]), ("A", .arr [])]),
        ("nodeType", .str "SourceUnit"), ("src", .str "0:5:0"),
        ("nodes", .arr [.obj [("id", .num 2), ("nodeType", .str "Block"),
          ("src", .str "1:2:0")]]), ("w", .num (-3))]) = true ∧
      ∃ a, deserAst (.obj [("absolutePath", .str "a.sol"), ("id", .num 0),
          ("exportedSymbols", .obj [("B", .arr [.num 1]), ("A", .arr [])]),
          ("nodeType", .str "SourceUnit"), ("src", .str "0:5:0"),
          ("nodes", .arr [.obj [("id", .num 2), ("nodeType", .str "Block"),
            ("src", .str "1:2:0")]]), ("w", .num (-3))]) = .ok a ∧
        jsonCanon (serAst a) =
          jsonCanon (.obj [("absolutePath", .str "a.sol"), ("id", .num 0),
            ("exportedSymbols", .obj [("B", .arr [.num 1]), ("A", .arr [])]),
            ("nodeType", .str "SourceUnit"), ("src", .str "0:5:0"),
            ("nodes", .arr [.obj [("id", .num 2), ("nodeType", .str "Block"),
              ("src", .str "1:2:0")]]), ("w", .num (-3))]) :=
  ⟨⟨rfl, node_roundtrip_modulo_key_order.1 _ rfl⟩,
    rfl, node_roundtrip_modulo_key_order.2 _ rfl⟩
